import Mathlib

/-!
# Shogi rules engine: a shallow embedding

Two engines live in the repository and both are embedded here.

* `Shogi` follows `include/common.h`, `src/piece.cpp`, `src/board_state.cpp`
  and `src/game_logic.cpp`: 0-indexed (row, col) squares, `BoardState`,
  `PieceMovement`, `GameLogic`.
* `ShogiCore` follows `src/core/board/{piece,move,board}.cpp` and
  `src/ai/basic/basic_ai.cpp`: 1-indexed (file, rank) squares, `Board`,
  `BasicAI`.

Conventions of the embedding.

* `std::array<Piece, 81>` and the hand arrays are lists, read with `List.getD`
  and written with `List.set`; every reader in the source guards the index
  first, and the guards are kept.
* `int8_t` coordinates are `Int`; the only arithmetic on them adds a direction
  to a valid square, which stays far from the `int8_t` limits.
* `uint8_t` hand counters of `BoardState` are `Nat` with an explicit `% 256` on
  increment. The `int` counters and scores of `core::Board` and `BasicAI` are
  `Int`: reaching the limits of `int` would take 2^31 captures.
* A method that changes its object returns the new object; a method that also
  returns a value returns a pair.
* `validate_drop_move`, `is_uchifuzume_violation` and `generate_all_moves`
  call each other in the source without a decreasing argument; they take a
  fuel argument and return `none` when it runs out. More fuel never changes a
  result (`validate_drop_move_mono`, `make_move_mono`).

The file has three parts: the embedding, the concrete positions the theorems
are evaluated on, and the theorems.
-/

namespace Shogi

/-! ## include/common.h -/

def BOARD_ROWS : Int := 9
def BOARD_COLS : Int := 9
def BOARD_SIZE : Nat := 81

inductive PieceType where
  | None
  | King
  | Rook
  | Bishop
  | Gold
  | Silver
  | Knight
  | Lance
  | Pawn
  | PromotedRook
  | PromotedBishop
  | PromotedSilver
  | PromotedKnight
  | PromotedLance
  | PromotedPawn
  deriving DecidableEq, Repr

inductive Player where
  | First
  | Second
  deriving DecidableEq, Repr

structure Position where
  row : Int
  col : Int
  deriving DecidableEq, Repr

def Position.is_valid (p : Position) : Bool :=
  decide (0 ≤ p.row) && decide (p.row < BOARD_ROWS) &&
    decide (0 ≤ p.col) && decide (p.col < BOARD_COLS)

def INVALID_POSITION : Position := ⟨-1, -1⟩

structure Piece where
  type : PieceType
  owner : Player
  deriving DecidableEq, Repr

/-- The default-constructed `Piece{}`: type `None`, owner `First`. -/
def Piece.empty : Piece := ⟨PieceType.None, Player.First⟩

def Piece.is_empty (p : Piece) : Bool := p.type == PieceType.None

def Piece.is_promoted (p : Piece) : Bool :=
  match p.type with
  | PieceType.PromotedRook => true
  | PieceType.PromotedBishop => true
  | PieceType.PromotedSilver => true
  | PieceType.PromotedKnight => true
  | PieceType.PromotedLance => true
  | PieceType.PromotedPawn => true
  | _ => false

def Piece.base_type (p : Piece) : PieceType :=
  if !p.is_promoted then p.type
  else
    match p.type with
    | PieceType.PromotedRook => PieceType.Rook
    | PieceType.PromotedBishop => PieceType.Bishop
    | PieceType.PromotedSilver => PieceType.Silver
    | PieceType.PromotedKnight => PieceType.Knight
    | PieceType.PromotedLance => PieceType.Lance
    | PieceType.PromotedPawn => PieceType.Pawn
    | t => t

def Piece.promoted_type (p : Piece) : PieceType :=
  match p.type with
  | PieceType.Rook => PieceType.PromotedRook
  | PieceType.Bishop => PieceType.PromotedBishop
  | PieceType.Silver => PieceType.Silver
  | PieceType.Knight => PieceType.PromotedKnight
  | PieceType.Lance => PieceType.PromotedLance
  | PieceType.Pawn => PieceType.PromotedPawn
  | t => t

def Piece.can_promote (p : Piece) : Bool :=
  p.type == PieceType.Rook || p.type == PieceType.Bishop ||
    p.type == PieceType.Silver || p.type == PieceType.Knight ||
    p.type == PieceType.Lance || p.type == PieceType.Pawn

structure Move where
  from_ : Position
  to_ : Position
  is_drop : Bool
  is_promotion : Bool
  drop_piece : PieceType
  deriving DecidableEq, Repr

/-- The constructor `Move(Position f, Position t, bool promote)`. -/
def Move.normal (f t : Position) (promote : Bool) : Move :=
  ⟨f, t, false, promote, PieceType.None⟩

/-- The constructor `Move(Position t, PieceType piece)` for drops. -/
def Move.drop (t : Position) (piece : PieceType) : Move :=
  ⟨INVALID_POSITION, t, true, false, piece⟩

inductive GameResult where
  | None
  | FirstPlayerWin
  | SecondPlayerWin
  | Draw
  deriving DecidableEq, Repr

inductive GameError where
  | InvalidMove
  | InvalidPosition
  | PieceNotFound
  | WrongPlayer
  | InCheck
  | GameOver
  | InvalidDrop
  | TwoPathRule
  | DropMateRule
  deriving DecidableEq, Repr

/-- The result type `GameExpected<bool>`: an error or a value. -/
inductive GameExpected where
  | error (e : GameError)
  | value (b : Bool)
  deriving DecidableEq, Repr

def GameExpected.has_value : GameExpected → Bool
  | GameExpected.value _ => true
  | GameExpected.error _ => false

abbrev Hand := List Nat

def piece_to_hand_index (t : PieceType) : Nat :=
  match t with
  | PieceType.Rook => 0
  | PieceType.Bishop => 1
  | PieceType.Gold => 2
  | PieceType.Silver => 3
  | PieceType.Knight => 4
  | PieceType.Lance => 5
  | PieceType.Pawn => 6
  | _ => 7

def other_player (p : Player) : Player :=
  match p with
  | Player.First => Player.Second
  | Player.Second => Player.First

structure Direction where
  row_delta : Int
  col_delta : Int
  deriving DecidableEq, Repr

def UP : Direction := ⟨-1, 0⟩
def DOWN : Direction := ⟨1, 0⟩
def LEFT : Direction := ⟨0, -1⟩
def RIGHT : Direction := ⟨0, 1⟩
def UP_LEFT : Direction := ⟨-1, -1⟩
def UP_RIGHT : Direction := ⟨-1, 1⟩
def DOWN_LEFT : Direction := ⟨1, -1⟩
def DOWN_RIGHT : Direction := ⟨1, 1⟩
def KNIGHT_UP_LEFT : Direction := ⟨-2, -1⟩
def KNIGHT_UP_RIGHT : Direction := ⟨-2, 1⟩

/-! ## src/piece.cpp -/

/-- The conversion `pos.row * BOARD_COLS + pos.col` to `size_t`; every use in
the source follows an `is_valid` test, so the value is below 81. -/
def pos_to_index (pos : Position) : Nat := (pos.row * BOARD_COLS + pos.col).toNat

/-- The `for row … for col …` scan of the 81 squares, in source order. -/
def all_squares : List Position :=
  (List.range 9).flatMap (fun (r : Nat) =>
    (List.range 9).map (fun (c : Nat) => (⟨(r : Int), (c : Int)⟩ : Position)))

namespace PieceMovement

def is_promotion_zone (pos : Position) (player : Player) : Bool :=
  match player with
  | Player.First => decide (pos.row ≤ 2)
  | Player.Second => decide (pos.row ≥ 6)

def must_promote (piece : Piece) (to_ : Position) : Bool :=
  match piece.owner with
  | Player.First =>
    if piece.type == PieceType.Pawn || piece.type == PieceType.Lance then decide (to_.row = 0)
    else if piece.type == PieceType.Knight then decide (to_.row ≤ 1)
    else false
  | Player.Second =>
    if piece.type == PieceType.Pawn || piece.type == PieceType.Lance then decide (to_.row = 8)
    else if piece.type == PieceType.Knight then decide (to_.row ≥ 7)
    else false

def can_promote (piece : Piece) (from_ to_ : Position) : Bool :=
  if !piece.can_promote || piece.is_promoted then false
  else is_promotion_zone from_ piece.owner || is_promotion_zone to_ piece.owner

def apply_direction (pos : Position) (dir : Direction) (player : Player) : Position :=
  let row_dir : Int := if player = Player.Second then -dir.row_delta else dir.row_delta
  let col_dir : Int := dir.col_delta
  ⟨pos.row + row_dir, pos.col + col_dir⟩

def is_enemy_or_empty (pos : Position) (board : List Piece) (player : Player) : Bool :=
  if !pos.is_valid then false
  else
    let piece := board.getD (pos_to_index pos) Piece.empty
    piece.is_empty || piece.owner != player

/-- The body of the `while (current.is_valid())` loop of `get_sliding_moves`
for one direction, with a step count. A nonzero direction leaves the 9×9 board
within nine steps, which is the count `get_sliding_moves` passes
(`slide_loop_fuel`: from nine on the count does not change the result). -/
def slide_loop (board : List Piece) (player : Player) (dir : Direction) :
    Nat → Position → List Position
  | 0, _ => []
  | n + 1, current =>
    if current.is_valid then
      let piece := board.getD (pos_to_index current) Piece.empty
      if piece.is_empty then
        current :: slide_loop board player dir n (apply_direction current dir player)
      else if piece.owner != player then [current]
      else []
    else []

def get_sliding_moves (from_ : Position) (directions : List Direction) (board : List Piece)
    (player : Player) : List Position :=
  directions.flatMap
    (fun dir => slide_loop board player dir 9 (apply_direction from_ dir player))

def get_single_step_moves (from_ : Position) (directions : List Direction) (board : List Piece)
    (player : Player) : List Position :=
  (directions.map (fun dir => apply_direction from_ dir player)).filter
    (fun to_ => is_enemy_or_empty to_ board player)

def get_king_moves (from_ : Position) (board : List Piece) (player : Player) : List Position :=
  get_single_step_moves from_
    [UP, DOWN, LEFT, RIGHT, UP_LEFT, UP_RIGHT, DOWN_LEFT, DOWN_RIGHT] board player

def get_rook_moves (from_ : Position) (board : List Piece) (player : Player) : List Position :=
  get_sliding_moves from_ [UP, DOWN, LEFT, RIGHT] board player

def get_bishop_moves (from_ : Position) (board : List Piece) (player : Player) : List Position :=
  get_sliding_moves from_ [UP_LEFT, UP_RIGHT, DOWN_LEFT, DOWN_RIGHT] board player

def get_gold_moves (from_ : Position) (board : List Piece) (player : Player) : List Position :=
  get_single_step_moves from_ [UP, DOWN, LEFT, RIGHT, UP_LEFT, UP_RIGHT] board player

def get_silver_moves (from_ : Position) (board : List Piece) (player : Player) : List Position :=
  get_single_step_moves from_ [UP, UP_LEFT, UP_RIGHT, DOWN_LEFT, DOWN_RIGHT] board player

def get_knight_moves (from_ : Position) (board : List Piece) (player : Player) : List Position :=
  get_single_step_moves from_ [KNIGHT_UP_LEFT, KNIGHT_UP_RIGHT] board player

def get_lance_moves (from_ : Position) (board : List Piece) (player : Player) : List Position :=
  get_sliding_moves from_ [UP] board player

def get_pawn_moves (from_ : Position) (board : List Piece) (player : Player) : List Position :=
  get_single_step_moves from_ [UP] board player

/-- The comparator passed to `std::sort`: row first, then column. -/
def position_less (a b : Position) : Bool :=
  if a.row ≠ b.row then decide (a.row < b.row) else decide (a.col < b.col)

/-- Insertion into a list sorted by `position_less`. -/
def sorted_insert (p : Position) : List Position → List Position
  | [] => [p]
  | q :: qs => if position_less q p then q :: sorted_insert p qs else p :: q :: qs

/-- The effect of `std::sort` with `position_less`: the order is total on
squares, so the sorted sequence does not depend on the sorting algorithm. -/
def sort_positions : List Position → List Position
  | [] => []
  | p :: ps => sorted_insert p (sort_positions ps)

/-- The effect of `std::unique` followed by `erase`: consecutive duplicates are dropped. -/
def unique_positions : List Position → List Position
  | [] => []
  | [p] => [p]
  | p :: q :: rest =>
    if p = q then unique_positions (q :: rest) else p :: unique_positions (q :: rest)

def get_promoted_rook_moves (from_ : Position) (board : List Piece) (player : Player) :
    List Position :=
  unique_positions
    (sort_positions (get_rook_moves from_ board player ++ get_king_moves from_ board player))

def get_promoted_bishop_moves (from_ : Position) (board : List Piece) (player : Player) :
    List Position :=
  unique_positions
    (sort_positions (get_bishop_moves from_ board player ++ get_king_moves from_ board player))

def get_possible_moves (piece : Piece) (from_ : Position) (board : List Piece) : List Position :=
  if piece.is_empty || !from_.is_valid then []
  else
    match piece.type with
    | PieceType.King => get_king_moves from_ board piece.owner
    | PieceType.Rook => get_rook_moves from_ board piece.owner
    | PieceType.Bishop => get_bishop_moves from_ board piece.owner
    | PieceType.Gold => get_gold_moves from_ board piece.owner
    | PieceType.Silver => get_silver_moves from_ board piece.owner
    | PieceType.Knight => get_knight_moves from_ board piece.owner
    | PieceType.Lance => get_lance_moves from_ board piece.owner
    | PieceType.Pawn => get_pawn_moves from_ board piece.owner
    | PieceType.PromotedRook => get_promoted_rook_moves from_ board piece.owner
    | PieceType.PromotedBishop => get_promoted_bishop_moves from_ board piece.owner
    | PieceType.PromotedSilver => get_gold_moves from_ board piece.owner
    | PieceType.PromotedKnight => get_gold_moves from_ board piece.owner
    | PieceType.PromotedLance => get_gold_moves from_ board piece.owner
    | PieceType.PromotedPawn => get_gold_moves from_ board piece.owner
    | PieceType.None => []

def is_valid_move (piece : Piece) (from_ to_ : Position) (board : List Piece) : Bool :=
  (get_possible_moves piece from_ board).contains to_

end PieceMovement

/-! ## src/board_state.cpp -/

/-- The members of `BoardState`: `m_board`, `m_hands[0]`, `m_hands[1]` and
`m_current_player`. -/
structure BoardState where
  m_board : List Piece
  m_hands_first : Hand
  m_hands_second : Hand
  m_current_player : Player
  deriving DecidableEq, Repr

namespace BoardState

def is_valid_index (index : Nat) : Bool := decide (index < BOARD_SIZE)

def current_player (bs : BoardState) : Player := bs.m_current_player

def switch_player (bs : BoardState) : BoardState :=
  { bs with m_current_player := other_player bs.m_current_player }

def get_board (bs : BoardState) : List Piece := bs.m_board

def get_piece (bs : BoardState) (pos : Position) : Piece :=
  if !pos.is_valid then Piece.empty
  else if !is_valid_index (pos_to_index pos) then Piece.empty
  else bs.m_board.getD (pos_to_index pos) Piece.empty

def set_piece (bs : BoardState) (pos : Position) (piece : Piece) : BoardState :=
  if !pos.is_valid then bs
  else if !is_valid_index (pos_to_index pos) then bs
  else { bs with m_board := bs.m_board.set (pos_to_index pos) piece }

def clear_piece (bs : BoardState) (pos : Position) : BoardState :=
  bs.set_piece pos Piece.empty

/-- The access `m_hands[static_cast<size_t>(player)]`. -/
def get_hand (bs : BoardState) (player : Player) : Hand :=
  match player with
  | Player.First => bs.m_hands_first
  | Player.Second => bs.m_hands_second

/-- The assignment to `m_hands[static_cast<size_t>(player)]`. -/
def set_hand (bs : BoardState) (player : Player) (h : Hand) : BoardState :=
  match player with
  | Player.First => { bs with m_hands_first := h }
  | Player.Second => { bs with m_hands_second := h }

def add_to_hand (bs : BoardState) (player : Player) (piece : PieceType) : BoardState :=
  let base_piece : PieceType :=
    match piece with
    | PieceType.PromotedRook => PieceType.Rook
    | PieceType.PromotedBishop => PieceType.Bishop
    | PieceType.PromotedSilver => PieceType.Silver
    | PieceType.PromotedKnight => PieceType.Knight
    | PieceType.PromotedLance => PieceType.Lance
    | PieceType.PromotedPawn => PieceType.Pawn
    | t => t
  let hand_index := piece_to_hand_index base_piece
  if hand_index < 7 then
    let hand := bs.get_hand player
    bs.set_hand player (hand.set hand_index ((hand.getD hand_index 0 + 1) % 256))
  else bs

/-- The pair is the `bool` the source returns and the state it leaves. -/
def remove_from_hand (bs : BoardState) (player : Player) (piece : PieceType) :
    Bool × BoardState :=
  let hand_index := piece_to_hand_index piece
  if hand_index ≥ 7 then (false, bs)
  else
    let hand := bs.get_hand player
    if hand.getD hand_index 0 > 0 then
      (true, bs.set_hand player (hand.set hand_index (hand.getD hand_index 0 - 1)))
    else (false, bs)

def get_hand_count (bs : BoardState) (player : Player) (piece : PieceType) : Nat :=
  let hand_index := piece_to_hand_index piece
  if hand_index ≥ 7 then 0
  else (bs.get_hand player).getD hand_index 0

def find_king (bs : BoardState) (player : Player) : Position :=
  match all_squares.find?
      (fun pos => (bs.get_piece pos).type == PieceType.King && (bs.get_piece pos).owner == player) with
  | some pos => pos
  | none => INVALID_POSITION

def is_square_attacked (bs : BoardState) (pos : Position) (by_player : Player) : Bool :=
  all_squares.any (fun from_ =>
    let piece := bs.get_piece from_
    if piece.is_empty || piece.owner != by_player then false
    else PieceMovement.is_valid_move piece from_ pos bs.m_board)

def is_in_check (bs : BoardState) (player : Player) : Bool :=
  let king_pos := bs.find_king player
  if king_pos = INVALID_POSITION then false
  else bs.is_square_attacked king_pos (other_player player)

/-- The writes `m_board[pos_to_index({r, c})] = Piece{t, p}` of `setup_initial_position`. -/
def place (board : List Piece) (r c : Int) (t : PieceType) (p : Player) : List Piece :=
  board.set (pos_to_index ⟨r, c⟩) ⟨t, p⟩

/-- The loop `for col in 0..8: m_board[pos_to_index({r, col})] = Piece{Pawn, p}`. -/
def place_pawns (board : List Piece) (r : Int) (p : Player) : List Piece :=
  (List.range 9).foldl (fun b (col : Nat) => place b r (col : Int) PieceType.Pawn p) board

/-- Every member is overwritten, so the result does not depend on the state before. -/
def setup_initial_position (_bs : BoardState) : BoardState :=
  let b0 : List Piece := List.replicate BOARD_SIZE Piece.empty
  let b1 := place b0 0 0 PieceType.Lance Player.Second
  let b2 := place b1 0 1 PieceType.Knight Player.Second
  let b3 := place b2 0 2 PieceType.Silver Player.Second
  let b4 := place b3 0 3 PieceType.Gold Player.Second
  let b5 := place b4 0 4 PieceType.King Player.Second
  let b6 := place b5 0 5 PieceType.Gold Player.Second
  let b7 := place b6 0 6 PieceType.Silver Player.Second
  let b8 := place b7 0 7 PieceType.Knight Player.Second
  let b9 := place b8 0 8 PieceType.Lance Player.Second
  let b10 := place b9 1 1 PieceType.Bishop Player.Second
  let b11 := place b10 1 7 PieceType.Rook Player.Second
  let b12 := place_pawns b11 2 Player.Second
  let b13 := place b12 8 0 PieceType.Lance Player.First
  let b14 := place b13 8 1 PieceType.Knight Player.First
  let b15 := place b14 8 2 PieceType.Silver Player.First
  let b16 := place b15 8 3 PieceType.Gold Player.First
  let b17 := place b16 8 4 PieceType.King Player.First
  let b18 := place b17 8 5 PieceType.Gold Player.First
  let b19 := place b18 8 6 PieceType.Silver Player.First
  let b20 := place b19 8 7 PieceType.Knight Player.First
  let b21 := place b20 8 8 PieceType.Lance Player.First
  let b22 := place b21 7 1 PieceType.Rook Player.First
  let b23 := place b22 7 7 PieceType.Bishop Player.First
  let b24 := place_pawns b23 6 Player.First
  { m_board := b24
    m_hands_first := List.replicate 7 0
    m_hands_second := List.replicate 7 0
    m_current_player := Player.First }

/-- The number of squares holding a non-empty piece owned by `player`. -/
def count_pieces (bs : BoardState) (player : Player) : Nat :=
  (all_squares.filter
    (fun pos => !(bs.get_piece pos).is_empty && (bs.get_piece pos).owner == player)).length

end BoardState

/-! ## src/game_logic.cpp -/

/-- The members of `GameLogic` that the rules read and write: `m_board_state`
and `m_game_result`. The move callback only observes a finished move and is
left out. -/
structure GameLogic where
  m_board_state : BoardState
  m_game_result : GameResult
  deriving DecidableEq, Repr

namespace GameLogic

/-- The table `piece_types` of `generate_all_moves` and `get_droppable_pieces`. -/
def piece_types : List PieceType :=
  [PieceType.Rook, PieceType.Bishop, PieceType.Gold, PieceType.Silver,
   PieceType.Knight, PieceType.Lance, PieceType.Pawn]

def reset_game (g : GameLogic) : GameLogic :=
  { m_board_state := g.m_board_state.setup_initial_position
    m_game_result := GameResult.None }

def validate_normal_move (bs : BoardState) (move : Move) : GameExpected :=
  if !move.from_.is_valid || !move.to_.is_valid then
    GameExpected.error GameError.InvalidPosition
  else
    let piece := bs.get_piece move.from_
    if piece.is_empty then GameExpected.error GameError.PieceNotFound
    else if piece.owner != bs.current_player then GameExpected.error GameError.WrongPlayer
    else if !PieceMovement.is_valid_move piece move.from_ move.to_ bs.get_board then
      GameExpected.error GameError.InvalidMove
    else if move.is_promotion then
      if !PieceMovement.can_promote piece move.from_ move.to_ then
        GameExpected.error GameError.InvalidMove
      else GameExpected.value true
    else
      if PieceMovement.must_promote piece move.to_ then
        GameExpected.error GameError.InvalidMove
      else GameExpected.value true

def simulate_move (bs : BoardState) (move : Move) : BoardState :=
  if move.is_drop then
    let piece : Piece := ⟨move.drop_piece, bs.current_player⟩
    let test_state := (bs.remove_from_hand bs.current_player move.drop_piece).2
    test_state.set_piece move.to_ piece
  else
    let piece := bs.get_piece move.from_
    let target := bs.get_piece move.to_
    let test_state := if !target.is_empty then bs.add_to_hand piece.owner target.type else bs
    let piece : Piece :=
      if move.is_promotion && piece.can_promote then ⟨piece.promoted_type, piece.owner⟩
      else piece
    (test_state.clear_piece move.from_).set_piece move.to_ piece

def would_be_in_check_after_move (bs : BoardState) (move : Move) (player : Player) : Bool :=
  (simulate_move bs move).is_in_check player

def is_nifu_violation (bs : BoardState) (move : Move) : Bool :=
  if move.drop_piece != PieceType.Pawn then false
  else
    (List.range 9).any (fun (row : Nat) =>
      let piece := bs.get_piece ⟨(row : Int), move.to_.col⟩
      piece.type == PieceType.Pawn && piece.owner == bs.current_player)

/-- The normal-move half of `generate_all_moves`: for every square holding a
piece of `player`, every destination, the plain move and then the promoting one. -/
def generate_normal_moves (bs : BoardState) (player : Player) : List Move :=
  all_squares.flatMap (fun from_ =>
    let piece := bs.get_piece from_
    if piece.is_empty || piece.owner != player then []
    else
      (PieceMovement.get_possible_moves piece from_ bs.get_board).flatMap (fun to_ =>
        (if (validate_normal_move bs (Move.normal from_ to_ false)).has_value
          then [Move.normal from_ to_ false] else []) ++
        (if PieceMovement.can_promote piece from_ to_ then
          (if (validate_normal_move bs (Move.normal from_ to_ true)).has_value
            then [Move.normal from_ to_ true] else [])
         else [])))

/-- The drops `generate_all_moves` submits to `validate_drop_move`: for every
kind with `hand[i] > 0` in the hand of `player`, every square. -/
def drop_candidates (bs : BoardState) (player : Player) : List Move :=
  (List.range 7).flatMap (fun i =>
    if (bs.get_hand player).getD i 0 > 0 then
      all_squares.map (fun to_ => Move.drop to_ (piece_types.getD i PieceType.None))
    else [])

/-- The drop loop of `generate_all_moves` over a validator that may not return:
a candidate is kept when the validator returns a value, and the loop returns
only if every call does. -/
def collect_drops (validate : Move → Option GameExpected) : List Move → Option (List Move)
  | [] => some []
  | m :: ms =>
    match validate m with
    | none => none
    | some r =>
      match collect_drops validate ms with
      | none => none
      | some rest => some (if r.has_value then m :: rest else rest)

/-- The function `generate_all_moves` with its call to `validate_drop_move` as a parameter. -/
def generate_all_moves_with (validate : Move → Option GameExpected) (bs : BoardState)
    (player : Player) : Option (List Move) :=
  match collect_drops validate (drop_candidates bs player) with
  | none => none
  | some drops => some (generate_normal_moves bs player ++ drops)

/-- The function `is_uchifuzume_violation` with the call to `validate_drop_move`
(reached through `generate_all_moves`) as a parameter. The opponent's moves are
generated on `bs`, the board before the drop, as in the source. -/
def is_uchifuzume_violation_with (validate : Move → Option GameExpected) (bs : BoardState)
    (move : Move) : Option Bool :=
  if move.drop_piece != PieceType.Pawn then some false
  else
    let test_state := simulate_move bs move
    let opponent := other_player bs.current_player
    if !test_state.is_in_check opponent then some false
    else
      match generate_all_moves_with validate bs opponent with
      | none => none
      | some opponent_moves =>
        some (opponent_moves.all (fun escape_move =>
          would_be_in_check_after_move bs escape_move opponent))

/-- The last two tests of `validate_drop_move`: a pawn or lance on the last
rank, a knight on the last two. -/
def drop_rank_check (bs : BoardState) (move : Move) : GameExpected :=
  let current := bs.current_player
  if (move.drop_piece == PieceType.Pawn || move.drop_piece == PieceType.Lance) &&
      ((current == Player.First && decide (move.to_.row = 0)) ||
       (current == Player.Second && decide (move.to_.row = 8))) then
    GameExpected.error GameError.InvalidDrop
  else if move.drop_piece == PieceType.Knight &&
      ((current == Player.First && decide (move.to_.row ≤ 1)) ||
       (current == Player.Second && decide (move.to_.row ≥ 7))) then
    GameExpected.error GameError.InvalidDrop
  else GameExpected.value true

/-- The function `validate_drop_move`; `none` when the fuel runs out. -/
def validate_drop_move : Nat → BoardState → Move → Option GameExpected
  | 0, _, _ => none
  | fuel + 1, bs, move =>
    if !move.to_.is_valid || move.drop_piece == PieceType.None then
      some (GameExpected.error GameError.InvalidPosition)
    else if !(bs.get_piece move.to_).is_empty then
      some (GameExpected.error GameError.InvalidDrop)
    else if bs.get_hand_count bs.current_player move.drop_piece == 0 then
      some (GameExpected.error GameError.InvalidDrop)
    else if move.drop_piece == PieceType.Pawn && is_nifu_violation bs move then
      some (GameExpected.error GameError.TwoPathRule)
    else if move.drop_piece == PieceType.Pawn then
      match is_uchifuzume_violation_with (validate_drop_move fuel bs) bs move with
      | none => none
      | some true => some (GameExpected.error GameError.DropMateRule)
      | some false => some (drop_rank_check bs move)
    else some (drop_rank_check bs move)

def generate_all_moves (fuel : Nat) (bs : BoardState) (player : Player) : Option (List Move) :=
  generate_all_moves_with (validate_drop_move fuel bs) bs player

def is_uchifuzume_violation (fuel : Nat) (bs : BoardState) (move : Move) : Option Bool :=
  is_uchifuzume_violation_with (validate_drop_move fuel bs) bs move

def get_legal_moves (fuel : Nat) (g : GameLogic) : Option (List Move) :=
  generate_all_moves fuel g.m_board_state g.m_board_state.current_player

def get_legal_destinations (g : GameLogic) (from_ : Position) : List Position :=
  let piece := g.m_board_state.get_piece from_
  if piece.is_empty || piece.owner != g.m_board_state.current_player then []
  else
    (PieceMovement.get_possible_moves piece from_ g.m_board_state.get_board).filter (fun to_ =>
      (validate_normal_move g.m_board_state (Move.normal from_ to_ false)).has_value &&
        !would_be_in_check_after_move g.m_board_state (Move.normal from_ to_ false)
          g.m_board_state.current_player)

/-- The loop `for i in 0..6` of `get_droppable_pieces` over a validator that may
not return: a held kind is kept when the validator returns a value and the drop
does not leave the mover's king attacked; the loop returns only if every call
of the validator does. -/
def droppable_loop (validate : Move → Option GameExpected) (bs : BoardState) (to_ : Position) :
    List Nat → Option (List PieceType)
  | [] => some []
  | i :: rest =>
    if (bs.get_hand bs.current_player).getD i 0 > 0 then
      let kind := piece_types.getD i PieceType.None
      match validate (Move.drop to_ kind) with
      | none => none
      | some r =>
        match droppable_loop validate bs to_ rest with
        | none => none
        | some kinds =>
          some (if r.has_value &&
                  !would_be_in_check_after_move bs (Move.drop to_ kind) bs.current_player
                then kind :: kinds else kinds)
    else droppable_loop validate bs to_ rest

/-- The function `get_droppable_pieces`; `none` when the fuel runs out. -/
def get_droppable_pieces (fuel : Nat) (g : GameLogic) (to_ : Position) :
    Option (List PieceType) :=
  if !(g.m_board_state.get_piece to_).is_empty then some []
  else droppable_loop (validate_drop_move fuel g.m_board_state) g.m_board_state to_ (List.range 7)

def execute_normal_move (bs : BoardState) (move : Move) : BoardState :=
  let piece := bs.get_piece move.from_
  let target := bs.get_piece move.to_
  let bs1 := if !target.is_empty then bs.add_to_hand piece.owner target.type else bs
  let piece : Piece :=
    if move.is_promotion && piece.can_promote then ⟨piece.promoted_type, piece.owner⟩
    else piece
  (bs1.clear_piece move.from_).set_piece move.to_ piece

def execute_drop_move (bs : BoardState) (move : Move) : BoardState :=
  let piece : Piece := ⟨move.drop_piece, bs.current_player⟩
  let bs1 := (bs.remove_from_hand bs.current_player move.drop_piece).2
  bs1.set_piece move.to_ piece

def execute_move (bs : BoardState) (move : Move) : BoardState :=
  if move.is_drop then execute_drop_move bs move else execute_normal_move bs move

def is_in_check (bs : BoardState) (player : Player) : Bool := bs.is_in_check player

def is_checkmate (fuel : Nat) (bs : BoardState) (player : Player) : Option Bool :=
  if !is_in_check bs player then some false
  else
    match generate_all_moves fuel bs player with
    | none => none
    | some moves => some (moves.all (fun move => would_be_in_check_after_move bs move player))

def is_stalemate (fuel : Nat) (bs : BoardState) : Option Bool :=
  let current := bs.current_player
  if is_in_check bs current then some false
  else
    match generate_all_moves fuel bs current with
    | none => none
    | some moves => some moves.isEmpty

def check_game_end (fuel : Nat) (g : GameLogic) : Option GameLogic :=
  let current := g.m_board_state.current_player
  match is_checkmate fuel g.m_board_state current with
  | none => none
  | some true =>
    some { g with m_game_result :=
      if current = Player.First then GameResult.SecondPlayerWin else GameResult.FirstPlayerWin }
  | some false =>
    match is_stalemate fuel g.m_board_state with
    | none => none
    | some true => some { g with m_game_result := GameResult.Draw }
    | some false => some g

/-- The function `make_move`: the returned pair is the `GameExpected<bool>`
result and the object's state after the call; `none` when the fuel runs out. -/
def make_move (fuel : Nat) (g : GameLogic) (move : Move) : Option (GameExpected × GameLogic) :=
  if g.m_game_result != GameResult.None then some (GameExpected.error GameError.GameOver, g)
  else
    match (if move.is_drop then validate_drop_move fuel g.m_board_state move
           else some (validate_normal_move g.m_board_state move)) with
    | none => none
    | some (GameExpected.error e) => some (GameExpected.error e, g)
    | some (GameExpected.value _) =>
      if would_be_in_check_after_move g.m_board_state move g.m_board_state.current_player then
        some (GameExpected.error GameError.InCheck, g)
      else
        let g1 : GameLogic := { g with m_board_state := execute_move g.m_board_state move }
        let g2 : GameLogic := { g1 with m_board_state := g1.m_board_state.switch_player }
        match check_game_end fuel g2 with
        | none => none
        | some g3 => some (GameExpected.value true, g3)

end GameLogic

end Shogi

namespace ShogiCore

/-! ## src/core/board/piece.h, piece.cpp -/

inductive PieceType where
  | None
  | Pawn
  | Lance
  | Knight
  | Silver
  | Gold
  | Bishop
  | Rook
  | King
  | PromotedPawn
  | PromotedLance
  | PromotedKnight
  | PromotedSilver
  | PromotedBishop
  | PromotedRook
  deriving DecidableEq, Repr

/-- The conversion `static_cast<int>(pieceType)`. -/
def PieceType.toInt : PieceType → Int
  | PieceType.None => 0
  | PieceType.Pawn => 1
  | PieceType.Lance => 2
  | PieceType.Knight => 3
  | PieceType.Silver => 4
  | PieceType.Gold => 5
  | PieceType.Bishop => 6
  | PieceType.Rook => 7
  | PieceType.King => 8
  | PieceType.PromotedPawn => 9
  | PieceType.PromotedLance => 10
  | PieceType.PromotedKnight => 11
  | PieceType.PromotedSilver => 12
  | PieceType.PromotedBishop => 13
  | PieceType.PromotedRook => 14

/-- The conversion `static_cast<PieceType>(i + 1)` used for the seven hand slots. -/
def PieceType.ofHandIndex : Nat → PieceType
  | 0 => PieceType.Pawn
  | 1 => PieceType.Lance
  | 2 => PieceType.Knight
  | 3 => PieceType.Silver
  | 4 => PieceType.Gold
  | 5 => PieceType.Bishop
  | 6 => PieceType.Rook
  | _ => PieceType.None

inductive Player where
  | None
  | Sente
  | Gote
  deriving DecidableEq, Repr

structure Piece where
  type_ : PieceType
  player_ : Player
  deriving DecidableEq, Repr

/-- The default-constructed `Piece()`. -/
def Piece.empty : Piece := ⟨PieceType.None, Player.None⟩

def Piece.getType (p : Piece) : PieceType := p.type_
def Piece.getPlayer (p : Piece) : Player := p.player_
def Piece.isEmpty (p : Piece) : Bool := p.type_ == PieceType.None

def Piece.isPromoted (p : Piece) : Bool :=
  decide (p.type_.toInt ≥ PieceType.PromotedPawn.toInt) &&
    decide (p.type_.toInt ≤ PieceType.PromotedRook.toInt)

def Piece.canPromote (p : Piece) : Bool :=
  if p.isEmpty || p.isPromoted then false
  else p.type_ != PieceType.King && p.type_ != PieceType.Gold

def Piece.promote (p : Piece) : Piece :=
  if !p.canPromote then p
  else
    match p.type_ with
    | PieceType.Pawn => ⟨PieceType.PromotedPawn, p.player_⟩
    | PieceType.Lance => ⟨PieceType.PromotedLance, p.player_⟩
    | PieceType.Knight => ⟨PieceType.PromotedKnight, p.player_⟩
    | PieceType.Silver => ⟨PieceType.PromotedSilver, p.player_⟩
    | PieceType.Bishop => ⟨PieceType.PromotedBishop, p.player_⟩
    | PieceType.Rook => ⟨PieceType.PromotedRook, p.player_⟩
    | _ => p

def Piece.demote (p : Piece) : Piece :=
  if !p.isPromoted then p
  else
    match p.type_ with
    | PieceType.PromotedPawn => ⟨PieceType.Pawn, p.player_⟩
    | PieceType.PromotedLance => ⟨PieceType.Lance, p.player_⟩
    | PieceType.PromotedKnight => ⟨PieceType.Knight, p.player_⟩
    | PieceType.PromotedSilver => ⟨PieceType.Silver, p.player_⟩
    | PieceType.PromotedBishop => ⟨PieceType.Bishop, p.player_⟩
    | PieceType.PromotedRook => ⟨PieceType.Rook, p.player_⟩
    | _ => p

/-! ## src/core/board/move.h, move.cpp -/

structure Position where
  file : Nat
  rank : Nat
  deriving DecidableEq, Repr

def Position.isValid (p : Position) : Bool :=
  decide (p.file ≥ 1) && decide (p.file ≤ 9) && decide (p.rank ≥ 1) && decide (p.rank ≤ 9)

inductive MoveType where
  | Normal
  | Drop
  | Promotion
  deriving DecidableEq, Repr

structure Move where
  from_ : Position
  to_ : Position
  type_ : MoveType
  dropPieceType_ : PieceType
  deriving DecidableEq, Repr

/-- The default-constructed `Move()`, which `selectMove` returns for "no move". -/
def Move.null : Move := ⟨⟨0, 0⟩, ⟨0, 0⟩, MoveType.Normal, PieceType.None⟩

def Move.createDrop (to_ : Position) (pieceType : PieceType) : Move :=
  ⟨⟨0, 0⟩, to_, MoveType.Drop, pieceType⟩

def Move.getFrom (m : Move) : Position := m.from_
def Move.getTo (m : Move) : Position := m.to_
def Move.getDropPieceType (m : Move) : PieceType := m.dropPieceType_
def Move.isDrop (m : Move) : Bool := m.type_ == MoveType.Drop
def Move.isPromotion (m : Move) : Bool := m.type_ == MoveType.Promotion

/-! ## src/core/board/board.h, board.cpp -/

/-- The value an `int` (32 bits) holds after an arithmetic result `x`: `x` itself
when it lies in -2147483648 .. 2147483647, and otherwise `x` reduced modulo 2^32
into that range, the two's-complement value the compiled code is left with. -/
def wrap_int (x : Int) : Int := (x + 2147483648) % 4294967296 - 2147483648

structure MoveRecord where
  move : Move
  capturedPiece : Piece
  deriving DecidableEq, Repr

/-- The members of `Board`; `board_` is indexed `[rank - 1][file - 1]` and
`moveHistory_` grows at its end. -/
structure Board where
  board_ : List (List Piece)
  senteHand_ : List Int
  goteHand_ : List Int
  currentPlayer_ : Player
  moveHistory_ : List MoveRecord
  deriving DecidableEq, Repr

namespace Board

def isPositionValid (pos : Position) : Bool := pos.isValid

def getPiece (b : Board) (pos : Position) : Piece :=
  if !isPositionValid pos then Piece.empty
  else ((b.board_.getD (pos.rank - 1) []).getD (pos.file - 1) Piece.empty)

def setPiece (b : Board) (pos : Position) (piece : Piece) : Board :=
  if isPositionValid pos then
    { b with board_ :=
        b.board_.set (pos.rank - 1) ((b.board_.getD (pos.rank - 1) []).set (pos.file - 1) piece) }
  else b

def getHand (b : Board) (player : Player) : List Int :=
  if player = Player.Sente then b.senteHand_ else b.goteHand_

/-- The assignment through `Hand& hand = (player == Sente) ? senteHand_ : goteHand_`. -/
def setHand (b : Board) (player : Player) (h : List Int) : Board :=
  if player = Player.Sente then { b with senteHand_ := h } else { b with goteHand_ := h }

def getCurrentPlayer (b : Board) : Player := b.currentPlayer_

def addToHand (b : Board) (player : Player) (pieceType : PieceType) : Board :=
  if pieceType = PieceType.None ∨ pieceType = PieceType.King then b
  else
    let baseType : PieceType :=
      if pieceType.toInt ≥ PieceType.PromotedPawn.toInt then
        (Piece.demote ⟨pieceType, player⟩).getType
      else pieceType
    let index : Int := baseType.toInt - 1
    if 0 ≤ index ∧ index < 7 then
      let hand := b.getHand player
      b.setHand player (hand.set index.toNat (wrap_int (hand.getD index.toNat 0 + 1)))
    else b

def removeFromHand (b : Board) (player : Player) (pieceType : PieceType) : Board :=
  let hand := b.getHand player
  let index : Int := pieceType.toInt - 1
  if 0 ≤ index ∧ index < 7 ∧ hand.getD index.toNat 0 > 0 then
    b.setHand player (hand.set index.toNat (hand.getD index.toNat 0 - 1))
  else b

def switchPlayer (b : Board) : Board :=
  { b with currentPlayer_ := if b.currentPlayer_ = Player.Sente then Player.Gote else Player.Sente }

/-- The pair is the `bool` the source returns and the board it leaves. -/
def makeMove (b : Board) (move : Move) : Bool × Board :=
  if move.isDrop then
    if (b.getPiece move.getTo).isEmpty then
      let b1 := b.setPiece move.getTo ⟨move.getDropPieceType, b.currentPlayer_⟩
      let b2 := b1.removeFromHand b1.currentPlayer_ move.getDropPieceType
      let b3 := { b2 with moveHistory_ := b2.moveHistory_ ++ [MoveRecord.mk move Piece.empty] }
      (true, b3.switchPlayer)
    else (false, b)
  else
    let movingPiece := b.getPiece move.getFrom
    let capturedPiece := b.getPiece move.getTo
    if !movingPiece.isEmpty && movingPiece.getPlayer == b.currentPlayer_ then
      let movingPiece :=
        if move.isPromotion && movingPiece.canPromote then movingPiece.promote else movingPiece
      let b1 := b.setPiece move.getTo movingPiece
      let b2 := b1.setPiece move.getFrom Piece.empty
      let b3 :=
        if !capturedPiece.isEmpty then b2.addToHand b2.currentPlayer_ capturedPiece.getType
        else b2
      let b4 := { b3 with moveHistory_ := b3.moveHistory_ ++ [MoveRecord.mk move capturedPiece] }
      (true, b4.switchPlayer)
    else (false, b)

def undoMove (b : Board) : Board :=
  match b.moveHistory_.getLast? with
  | none => b
  | some lastMove =>
    let b1 := { b with moveHistory_ := b.moveHistory_.dropLast }
    let b2 := b1.switchPlayer
    if lastMove.move.isDrop then
      let b3 := b2.setPiece lastMove.move.getTo Piece.empty
      b3.addToHand b3.currentPlayer_ lastMove.move.getDropPieceType
    else
      let movingPiece := b2.getPiece lastMove.move.getTo
      let movingPiece := if lastMove.move.isPromotion then movingPiece.demote else movingPiece
      let b3 := b2.setPiece lastMove.move.getFrom movingPiece
      let b4 := b3.setPiece lastMove.move.getTo lastMove.capturedPiece
      if !lastMove.capturedPiece.isEmpty then
        b4.removeFromHand b4.currentPlayer_ lastMove.capturedPiece.getType
      else b4

/-- The body is a stub in the source (`TODO: Implement piece-specific move generation`). -/
def generateMovesForPiece (_b : Board) (_pos : Position) : List Move := []

/-- The body is a stub in the source (`TODO: Implement drop move generation`). -/
def generateDropMoves (_b : Board) : List Move := []

/-- The body is a stub in the source (`TODO: Implement check detection after move`). -/
def wouldBeInCheck (_b : Board) (_move : Move) (_player : Player) : Bool := false

/-- The scan `for rank in 1..9, for file in 1..9` building `Position(file, rank)`. -/
def all_positions : List Position :=
  (List.range 9).flatMap (fun r => (List.range 9).map (fun f => (⟨f + 1, r + 1⟩ : Position)))

def generateLegalMoves (b : Board) : List Move :=
  let pieceMoves := all_positions.flatMap (fun pos =>
    let piece := b.getPiece pos
    if !piece.isEmpty && piece.getPlayer == b.currentPlayer_ then b.generateMovesForPiece pos
    else [])
  let moves := pieceMoves ++ b.generateDropMoves
  moves.filter (fun move => !b.wouldBeInCheck move b.currentPlayer_)

/-- The body is a stub in the source (`TODO: Implement proper check detection`). -/
def isInCheck (_b : Board) (_player : Player) : Bool := false

def isCheckmate (b : Board) (player : Player) : Bool :=
  if !b.isInCheck player then false else b.generateLegalMoves.isEmpty

/-- The function `clear`: every square empty, both hands zero, no history. -/
def clear (b : Board) : Board :=
  { b with
    board_ := List.replicate 9 (List.replicate 9 Piece.empty)
    senteHand_ := List.replicate 7 0
    goteHand_ := List.replicate 7 0
    moveHistory_ := [] }

end Board

/-- The states of N successful `makeMove` calls in a row, or `none` if one returns false. -/
def makeMoves (b : Board) : List Move → Option Board
  | [] => some b
  | m :: ms => if (b.makeMove m).1 then makeMoves (b.makeMove m).2 ms else none

/-- The state after `n` calls of `undoMove`. -/
def undoMoves (b : Board) : Nat → Board
  | 0 => b
  | n + 1 => undoMoves b.undoMove n

/-! ## src/ai/basic/basic_ai.cpp -/

def INT_MIN : Int := -2147483648
def INT_MAX : Int := 2147483647

/-- The settings of `BasicAI` that the search reads: `depth_` and `player_`. -/
structure BasicAI where
  depth_ : Int
  player_ : Player
  deriving DecidableEq, Repr

namespace BasicAI

def getPieceValue (type : PieceType) : Int :=
  match type with
  | PieceType.Pawn => 100
  | PieceType.Lance => 300
  | PieceType.Knight => 350
  | PieceType.Silver => 400
  | PieceType.Gold => 500
  | PieceType.Bishop => 800
  | PieceType.Rook => 1000
  | PieceType.King => 10000
  | PieceType.PromotedPawn => 600
  | PieceType.PromotedLance => 600
  | PieceType.PromotedKnight => 600
  | PieceType.PromotedSilver => 600
  | PieceType.PromotedBishop => 1200
  | PieceType.PromotedRook => 1400
  | PieceType.None => 0

def getPositionalBonus (_pos : Position) (_type : PieceType) (_player : Player) : Int := 0
def evaluateMobility (_board : Board) (_player : Player) : Int := 0
def evaluateKingSafety (_board : Board) (_player : Player) : Int := 0

/-- The function `evaluatePosition`; `score` is an `int`, so every sum, difference
and product is taken through `wrap_int`. -/
def evaluatePosition (board : Board) (player : Player) : Int :=
  let material : Int := Board.all_positions.foldl (fun score pos =>
    let piece := board.getPiece pos
    if !piece.isEmpty then
      let pieceValue := getPieceValue piece.getType
      let positionalBonus := getPositionalBonus pos piece.getType piece.getPlayer
      if piece.getPlayer = player then
        wrap_int (score + wrap_int (pieceValue + positionalBonus))
      else wrap_int (score - wrap_int (pieceValue + positionalBonus))
    else score) 0
  let hand := board.getHand player
  let opponentHand := board.getHand (if player = Player.Sente then Player.Gote else Player.Sente)
  let withHands : Int := (List.range 7).foldl (fun score i =>
    wrap_int
      (wrap_int (score + wrap_int (hand.getD i 0 * getPieceValue (PieceType.ofHandIndex i)))
        - wrap_int (opponentHand.getD i 0 * getPieceValue (PieceType.ofHandIndex i)))) material
  wrap_int (wrap_int (withHands + evaluateMobility board player) + evaluateKingSafety board player)

/-- The `for (move : legalMoves)` loop of one branch of `minimax`, over the
recursive call `search`; the board is passed along because `makeMove` and
`undoMove` act on it in place. The result is the running extreme and the board. -/
def minimax_loop (search : Board → Int → Int → Option (Int × Board)) (isMaximizing : Bool) :
    List Move → Board → Int → Int → Int → Option (Int × Board)
  | [], board, _, _, best => some (best, board)
  | move :: rest, board, alpha, beta, best =>
    match search (board.makeMove move).2 alpha beta with
    | none => none
    | some (eval, board1) =>
      let board2 := board1.undoMove
      if isMaximizing then
        let best1 := max best eval
        let alpha1 := max alpha eval
        if beta ≤ alpha1 then some (best1, board2)
        else minimax_loop search isMaximizing rest board2 alpha1 beta best1
      else
        let best1 := min best eval
        let beta1 := min beta eval
        if beta1 ≤ alpha then some (best1, board2)
        else minimax_loop search isMaximizing rest board2 alpha beta1 best1

/-- The function `minimax`; `none` when the fuel runs out (a negative `depth`
never reaches the `depth == 0` test). -/
def minimax (ai : BasicAI) : Nat → Board → Int → Bool → Int → Int → Option (Int × Board)
  | 0, _, _, _, _, _ => none
  | fuel + 1, board, depth, isMaximizing, alpha, beta =>
    if depth = 0 ∨ board.isCheckmate board.getCurrentPlayer = true then
      some (evaluatePosition board ai.player_, board)
    else
      minimax_loop (fun b a be => minimax ai fuel b (depth - 1) (!isMaximizing) a be)
        isMaximizing board.generateLegalMoves board alpha beta
        (if isMaximizing then INT_MIN else INT_MAX)

/-- The `for (move : legalMoves)` loop of `selectMove`: each move is searched on a copy of the board. -/
def select_loop (ai : BasicAI) (fuel : Nat) (board : Board) :
    List Move → Move → Int → Option Move
  | [], bestMove, _ => some bestMove
  | move :: rest, bestMove, bestScore =>
    match minimax ai fuel (board.makeMove move).2 (ai.depth_ - 1) false INT_MIN INT_MAX with
    | none => none
    | some (score, _) =>
      if score > bestScore then select_loop ai fuel board rest move score
      else select_loop ai fuel board rest bestMove bestScore

/-- The function `selectMove`; `none` when the fuel of the search runs out. -/
def selectMove (ai : BasicAI) (fuel : Nat) (board : Board) : Option Move :=
  let legalMoves := board.generateLegalMoves
  if legalMoves.isEmpty then some Move.null
  else if legalMoves.length = 1 then some (legalMoves.headD Move.null)
  else select_loop ai fuel board legalMoves Move.null INT_MIN

end BasicAI

end ShogiCore

/-! # Concrete positions -/

namespace Shogi

open BoardState GameLogic

/-- The position `setup_initial_position` builds, as a closed term. -/
def initial_position : BoardState :=
  BoardState.setup_initial_position ⟨[], [], [], Player.First⟩

/-- The game `reset_game` produces. -/
def initial_game : GameLogic := ⟨initial_position, GameResult.None⟩

/-- A grid holding the listed pieces and nothing else. -/
def grid_of (pieces : List (Position × Piece)) : List Piece :=
  pieces.foldl (fun b pp => b.set (pos_to_index pp.1) pp.2) (List.replicate BOARD_SIZE Piece.empty)

/-- The state after a run of `make_move` calls that all succeed; `none` if one
fails or does not return within the fuel. -/
def play (fuel : Nat) : GameLogic → List Move → Option GameLogic
  | g, [] => some g
  | g, m :: ms =>
    match make_move fuel g m with
    | some (GameExpected.value _, g1) => play fuel g1 ms
    | _ => none

/-- Three opening moves: First pushes the pawn in front of the bishop, Second
pushes the pawn on column 2, First's bishop lands on (2,2) and checks the king on (0,4). -/
def c5_opening : List Move :=
  [Move.normal ⟨6, 6⟩ ⟨5, 6⟩ false, Move.normal ⟨2, 2⟩ ⟨3, 2⟩ false,
   Move.normal ⟨7, 7⟩ ⟨2, 2⟩ false]

/-- The board after `c5_opening`: Second is to move and in check from the bishop on (2,2). -/
def c5_board : BoardState :=
  (((initial_position.clear_piece ⟨6, 6⟩).set_piece ⟨5, 6⟩ ⟨PieceType.Pawn, Player.First⟩
    |>.clear_piece ⟨2, 2⟩).set_piece ⟨3, 2⟩ ⟨PieceType.Pawn, Player.Second⟩
    |>.clear_piece ⟨7, 7⟩).set_piece ⟨2, 2⟩ ⟨PieceType.Bishop, Player.First⟩
    |>.switch_player

def c5_game : GameLogic := ⟨c5_board, GameResult.None⟩

/-- A pawn push on the far column that does nothing about the check. -/
def c5_move : Move := Move.normal ⟨2, 0⟩ ⟨3, 0⟩ false

/-- The squares of a board overwritten one by one. -/
def with_squares (bs : BoardState) (edits : List (Position × Piece)) : BoardState :=
  edits.foldl (fun b pp => b.set_piece pp.1 pp.2) bs

/-- Eight opening moves: First walks the pawn of column 4 up to (3,4) and takes
the pawn on (2,4) with promotion, while Second's rook steps between (1,7) and (1,6). -/
def tokin_line : List Move :=
  [Move.normal ⟨6, 4⟩ ⟨5, 4⟩ false, Move.normal ⟨1, 7⟩ ⟨1, 6⟩ false,
   Move.normal ⟨5, 4⟩ ⟨4, 4⟩ false, Move.normal ⟨1, 6⟩ ⟨1, 7⟩ false,
   Move.normal ⟨4, 4⟩ ⟨3, 4⟩ false, Move.normal ⟨1, 7⟩ ⟨1, 6⟩ false,
   Move.normal ⟨3, 4⟩ ⟨2, 4⟩ true, Move.normal ⟨1, 6⟩ ⟨1, 7⟩ false]

/-- The board after `tokin_line`: the initial position with First's pawn of
column 4 now a promoted pawn on (2,4) and one pawn in First's hand; First to move. -/
def tokin_board : BoardState :=
  { with_squares initial_position
      [(⟨6, 4⟩, Piece.empty), (⟨2, 4⟩, ⟨PieceType.PromotedPawn, Player.First⟩)] with
    m_hands_first := [0, 0, 0, 0, 0, 0, 1] }

def tokin_game : GameLogic := ⟨tokin_board, GameResult.None⟩

/-- The pawn dropped on (1,4), in front of Second's king and guarded by the promoted pawn. -/
def c9_drop : Move := Move.drop ⟨1, 4⟩ PieceType.Pawn

/-- Second's gold on (0,3) takes the pawn dropped on (1,4). -/
def c9_escape : Move := Move.normal ⟨0, 3⟩ ⟨1, 4⟩ false

/-- A pawn dropped on the empty (5,0) of column 0, where First has a pawn on (6,0). -/
def c7_drop : Move := Move.drop ⟨5, 0⟩ PieceType.Pawn

/-- A pawn dropped on (6,0), the square of First's own pawn of column 0. -/
def c7_drop_occupied : Move := Move.drop ⟨6, 0⟩ PieceType.Pawn

/-- A pawn "dropped" off the board on column 0. -/
def c7_drop_off_board : Move := Move.drop ⟨-1, 0⟩ PieceType.Pawn

/-- A pawn dropped on the empty (4,4); column 4 holds no unpromoted pawn of First on `tokin_board`. -/
def c6_drop : Move := Move.drop ⟨4, 4⟩ PieceType.Pawn

/-- Twenty moves from the initial position. First walks the pawn of column 8
up, takes Second's pawn on (3,8) and later Second's lance on (2,8) with
promotion; Second's king walks to the corner (0,8) behind the knight, a silver
closes (1,7) and the rook waits on (1,3); the bishops are traded on (1,1). -/
def mate_line : List Move :=
  [Move.normal ⟨6, 8⟩ ⟨5, 8⟩ false, Move.normal ⟨2, 8⟩ ⟨3, 8⟩ false,
   Move.normal ⟨5, 8⟩ ⟨4, 8⟩ false, Move.normal ⟨0, 8⟩ ⟨2, 8⟩ false,
   Move.normal ⟨4, 8⟩ ⟨3, 8⟩ false, Move.normal ⟨1, 7⟩ ⟨1, 3⟩ false,
   Move.normal ⟨6, 6⟩ ⟨5, 6⟩ false, Move.normal ⟨0, 4⟩ ⟨1, 5⟩ false,
   Move.normal ⟨7, 1⟩ ⟨7, 2⟩ false, Move.normal ⟨1, 5⟩ ⟨1, 6⟩ false,
   Move.normal ⟨7, 2⟩ ⟨7, 1⟩ false, Move.normal ⟨1, 6⟩ ⟨1, 7⟩ false,
   Move.normal ⟨7, 1⟩ ⟨7, 2⟩ false, Move.normal ⟨1, 7⟩ ⟨0, 8⟩ false,
   Move.normal ⟨3, 8⟩ ⟨2, 8⟩ true, Move.normal ⟨0, 6⟩ ⟨1, 7⟩ false,
   Move.normal ⟨7, 2⟩ ⟨7, 1⟩ false, Move.normal ⟨2, 2⟩ ⟨3, 2⟩ false,
   Move.normal ⟨7, 7⟩ ⟨1, 1⟩ false, Move.normal ⟨0, 2⟩ ⟨1, 1⟩ false]

/-- The board after `mate_line`. Second's king sits on (0,8) between its knight
on (0,7) and its silver on (1,7); First's promoted pawn on (2,8) guards (1,8)
and (1,7). First holds a bishop, a lance and a pawn, Second holds a bishop;
First is to move. -/
def mate_board : BoardState :=
  { with_squares initial_position
      [(⟨6, 8⟩, Piece.empty), (⟨2, 8⟩, ⟨PieceType.PromotedPawn, Player.First⟩),
       (⟨0, 4⟩, Piece.empty), (⟨0, 8⟩, ⟨PieceType.King, Player.Second⟩),
       (⟨0, 6⟩, Piece.empty), (⟨1, 7⟩, ⟨PieceType.Silver, Player.Second⟩),
       (⟨1, 3⟩, ⟨PieceType.Rook, Player.Second⟩),
       (⟨0, 2⟩, Piece.empty), (⟨1, 1⟩, ⟨PieceType.Silver, Player.Second⟩),
       (⟨2, 2⟩, Piece.empty), (⟨3, 2⟩, ⟨PieceType.Pawn, Player.Second⟩),
       (⟨6, 6⟩, Piece.empty), (⟨5, 6⟩, ⟨PieceType.Pawn, Player.First⟩),
       (⟨7, 7⟩, Piece.empty)] with
    m_hands_first := [0, 1, 0, 0, 0, 1, 1]
    m_hands_second := [0, 1, 0, 0, 0, 0, 0] }

def mate_game : GameLogic := ⟨mate_board, GameResult.None⟩

/-- The pawn dropped on (1,8), in front of the cornered king. -/
def c8_drop : Move := Move.drop ⟨1, 8⟩ PieceType.Pawn

/-- The game after `c8_drop` is played on `mate_game`: the pawn stands on (1,8),
Second is to move and the result is a win for First. -/
def mated_game : GameLogic :=
  ⟨{ with_squares mate_board [(⟨1, 8⟩, ⟨PieceType.Pawn, Player.First⟩)] with
      m_hands_first := [0, 1, 0, 0, 0, 1, 0]
      m_current_player := Player.Second },
   GameResult.FirstPlayerWin⟩

/-- A pawn drop by Second on (3,0); Second has a pawn on (2,0). -/
def c7_drop_game_over : Move := Move.drop ⟨3, 0⟩ PieceType.Pawn

/-- The states a `GameLogic` object can be in: the one `reset_game` (and the
constructor) leaves, and every state a returning `make_move` leaves. -/
inductive Reachable : GameLogic → Prop where
  | reset (g : GameLogic) : Reachable (reset_game g)
  | move (fuel : Nat) (g g1 : GameLogic) (m : Move) (r : GameExpected) :
      Reachable g → make_move fuel g m = some (r, g1) → Reachable g1

/-- A state no play reaches: both sides hold a pawn and First can drop one on
(1,4), giving check to the king on (0,4). -/
def stuck_board : BoardState :=
  { m_board := grid_of
      [(⟨0, 4⟩, ⟨PieceType.King, Player.Second⟩),
       (⟨8, 4⟩, ⟨PieceType.King, Player.First⟩),
       (⟨7, 4⟩, ⟨PieceType.Gold, Player.First⟩),
       (⟨8, 0⟩, ⟨PieceType.Gold, Player.First⟩)]
    m_hands_first := [0, 0, 0, 0, 0, 0, 1]
    m_hands_second := [0, 0, 0, 0, 0, 0, 1]
    m_current_player := Player.First }

/-- The pawn drop on (1,4) of `stuck_board`. -/
def stuck_drop : Move := Move.drop ⟨1, 4⟩ PieceType.Pawn

/-- The moves the claims call "available to `player`" on `bs`, taken with
`player` to move: every destination `get_possible_moves` gives for each of the
player's pieces, with and without the promotion flag, and every kind the player
holds dropped on every empty square. -/
def available_moves (bs : BoardState) (player : Player) : List Move :=
  (all_squares.flatMap (fun from_ =>
    let piece := bs.get_piece from_
    if piece.is_empty || piece.owner != player then []
    else
      (PieceMovement.get_possible_moves piece from_ bs.get_board).flatMap (fun to_ =>
        [Move.normal from_ to_ false, Move.normal from_ to_ true]))) ++
  (piece_types.flatMap (fun kind =>
    if bs.get_hand_count player kind > 0 then
      (all_squares.filter (fun to_ => (bs.get_piece to_).is_empty)).map
        (fun to_ => Move.drop to_ kind)
    else []))

/-- Whether every move available to `player` on `bs` leaves the player's king attacked. -/
def no_escape (bs : BoardState) (player : Player) : Bool :=
  (available_moves bs player).all (fun m =>
    would_be_in_check_after_move { bs with m_current_player := player } m player)

end Shogi

namespace ShogiCore

open Board

/-- An empty board with Sente to move, as `clear` leaves it. -/
def empty_board : Board :=
  Board.clear ⟨[], [], [], Player.Sente, []⟩

/-- Sente's gold on file 5, rank 5 faces Gote's promoted pawn on file 5, rank 4;
both kings are on their home squares and both hands are empty. -/
def c1_board : Board :=
  (((empty_board.setPiece ⟨5, 9⟩ ⟨PieceType.King, Player.Sente⟩).setPiece ⟨5, 1⟩
    ⟨PieceType.King, Player.Gote⟩).setPiece ⟨5, 5⟩ ⟨PieceType.Gold, Player.Sente⟩).setPiece
    ⟨5, 4⟩ ⟨PieceType.PromotedPawn, Player.Gote⟩

/-- The gold takes the promoted pawn. -/
def c1_move : Move := ⟨⟨5, 5⟩, ⟨5, 4⟩, MoveType.Normal, PieceType.None⟩

/-- Gote's king on file 5, rank 1; Sente's gold on file 5, rank 3 and a gold in
Sente's hand: dropping it on file 5, rank 2 is mate. Sente is to move. -/
def c10_board : Board :=
  (((empty_board.setPiece ⟨5, 1⟩ ⟨PieceType.King, Player.Gote⟩).setPiece ⟨5, 3⟩
      ⟨PieceType.Gold, Player.Sente⟩).setPiece ⟨5, 9⟩ ⟨PieceType.King, Player.Sente⟩).addToHand
    Player.Sente PieceType.Gold

/-- The mating move on `c10_board`: the gold dropped on file 5, rank 2. -/
def c10_mate : Move := Move.createDrop ⟨5, 2⟩ PieceType.Gold

/-- The default `BasicAI` (depth 3) set to play Sente. -/
def c10_ai : BasicAI := ⟨3, Player.Sente⟩

/-- The position of `c1_board` after 2147483647 calls of
`addToHand(Sente, Pawn)`: Sente's pawn counter is at the top of the `int` range. -/
def c23_full_board : Board :=
  { c1_board with senteHand_ := [2147483647, 0, 0, 0, 0, 0, 0] }

end ShogiCore

/-! # Concrete positions for the rules of `make_move` -/

namespace Shogi

open BoardState GameLogic

/-- The validation `make_move` applies to a move: `validate_drop_move` for a
drop, `validate_normal_move` otherwise. -/
def applicable_validation (fuel : Nat) (bs : BoardState) (m : Move) : Option GameExpected :=
  if m.is_drop then validate_drop_move fuel bs m else some (validate_normal_move bs m)

/-- A move passes validation when, with some fuel, the applicable validation
returns a value. -/
def passes_validation (bs : BoardState) (m : Move) : Prop :=
  ∃ fuel b, applicable_validation fuel bs m = some (GameExpected.value b)

/-- A legal move: it passes validation and does not leave the mover's own king
attacked; these are the two tests of `make_move` in a game that is not over. -/
def legal_move (bs : BoardState) (m : Move) : Prop :=
  passes_validation bs m ∧ would_be_in_check_after_move bs m bs.current_player = false

/-- The farthest rank of a player: row 0 for First, row 8 for Second. -/
def farthest_rank (player : Player) : Int :=
  match player with
  | Player.First => 0
  | Player.Second => 8

/-- Whether a row lies in the farthest two ranks of a player: rows 0 and 1 for
First, rows 7 and 8 for Second. -/
def in_farthest_two_ranks (player : Player) (row : Int) : Prop :=
  match player with
  | Player.First => row ≤ 1
  | Player.Second => row ≥ 7

/-- The result that records a win of `player`. -/
def win_of (player : Player) : GameResult :=
  match player with
  | Player.First => GameResult.FirstPlayerWin
  | Player.Second => GameResult.SecondPlayerWin

/-- The state after a run of `make_move` calls, whatever each one returns;
`none` if one does not return within the fuel. -/
def make_moves (fuel : Nat) : GameLogic → List Move → Option GameLogic
  | g, [] => some g
  | g, m :: ms =>
    match make_move fuel g m with
    | some (_, g1) => make_moves fuel g1 ms
    | none => none

/-- Six opening moves: the pawns of column 4 meet and Second's takes First's on
(4,4); First's rook comes to (7,4) behind the empty file, Second's rook steps
to (1,6). -/
def c15_line : List Move :=
  [Move.normal ⟨6, 4⟩ ⟨5, 4⟩ false, Move.normal ⟨2, 4⟩ ⟨3, 4⟩ false,
   Move.normal ⟨5, 4⟩ ⟨4, 4⟩ false, Move.normal ⟨3, 4⟩ ⟨4, 4⟩ false,
   Move.normal ⟨7, 1⟩ ⟨7, 4⟩ false, Move.normal ⟨1, 7⟩ ⟨1, 6⟩ false]

/-- The board after `c15_line`: Second holds a pawn and has one on (4,4);
First's rook on (7,4) looks up the file; First is to move. -/
def c15_board : BoardState :=
  { with_squares initial_position
      [(⟨6, 4⟩, Piece.empty), (⟨2, 4⟩, Piece.empty),
       (⟨4, 4⟩, ⟨PieceType.Pawn, Player.Second⟩),
       (⟨7, 1⟩, Piece.empty), (⟨7, 4⟩, ⟨PieceType.Rook, Player.First⟩),
       (⟨1, 7⟩, Piece.empty), (⟨1, 6⟩, ⟨PieceType.Rook, Player.Second⟩)] with
    m_hands_second := [0, 0, 0, 0, 0, 0, 1] }

def c15_game : GameLogic := ⟨c15_board, GameResult.None⟩

/-- First's rook takes the pawn on (4,4). -/
def c15_move : Move := Move.normal ⟨7, 4⟩ ⟨4, 4⟩ false

/-- The board `make_move` has built when it calls `check_game_end` after
`c15_move`: both sides hold a pawn and Second is to move. -/
def c15_after : BoardState := (execute_move c15_board c15_move).switch_player

/-- The pawn Second may drop on (7,4), in front of First's king. -/
def c15_drop : Move := Move.drop ⟨7, 4⟩ PieceType.Pawn

/-- Eight opening moves: the bishops' diagonal opens, First's bishop takes the
bishop on (1,1) and then the silver on (0,2), and First drops that silver on
(2,2); Second's rook steps between (1,7) and (1,6). -/
def c20_line : List Move :=
  [Move.normal ⟨6, 6⟩ ⟨5, 6⟩ false, Move.normal ⟨2, 2⟩ ⟨3, 2⟩ false,
   Move.normal ⟨7, 7⟩ ⟨1, 1⟩ false, Move.normal ⟨1, 7⟩ ⟨1, 6⟩ false,
   Move.normal ⟨1, 1⟩ ⟨0, 2⟩ false, Move.normal ⟨1, 6⟩ ⟨1, 7⟩ false,
   Move.drop ⟨2, 2⟩ PieceType.Silver, Move.normal ⟨1, 7⟩ ⟨1, 6⟩ false]

/-- The board after `c20_line`: First's silver stands on (2,2), inside First's
promotion zone, First's bishop on (0,2), and First holds a bishop; First is to move. -/
def c20_board : BoardState :=
  { with_squares initial_position
      [(⟨6, 6⟩, Piece.empty), (⟨5, 6⟩, ⟨PieceType.Pawn, Player.First⟩),
       (⟨3, 2⟩, ⟨PieceType.Pawn, Player.Second⟩),
       (⟨2, 2⟩, ⟨PieceType.Silver, Player.First⟩),
       (⟨7, 7⟩, Piece.empty), (⟨1, 1⟩, Piece.empty),
       (⟨0, 2⟩, ⟨PieceType.Bishop, Player.First⟩),
       (⟨1, 7⟩, Piece.empty), (⟨1, 6⟩, ⟨PieceType.Rook, Player.Second⟩)] with
    m_hands_first := [0, 1, 0, 0, 0, 0, 0] }

def c20_game : GameLogic := ⟨c20_board, GameResult.None⟩

/-- The silver steps from (2,2) to (1,2) with the promotion flag. -/
def c20_move : Move := Move.normal ⟨2, 2⟩ ⟨1, 2⟩ true

/-- Two more moves on `mate_game`: First drops the lance on (1,4), Second's
rook steps from (1,3) to (1,2). -/
def c11_line : List Move :=
  [Move.drop ⟨1, 4⟩ PieceType.Lance, Move.normal ⟨1, 3⟩ ⟨1, 2⟩ false]

/-- The board after `c11_line`: First's lance stands on (1,4) below the empty
(0,4); First is to move. -/
def c11_board : BoardState :=
  { with_squares mate_board
      [(⟨1, 4⟩, ⟨PieceType.Lance, Player.First⟩),
       (⟨1, 3⟩, Piece.empty), (⟨1, 2⟩, ⟨PieceType.Rook, Player.Second⟩)] with
    m_hands_first := [0, 1, 0, 0, 0, 0, 1] }

def c11_game : GameLogic := ⟨c11_board, GameResult.None⟩

/-- The lance steps from (1,4) onto First's farthest rank without the promotion flag. -/
def c11_move : Move := Move.normal ⟨1, 4⟩ ⟨0, 4⟩ false

/-- A move of Second's pawn on (2,0) to Second's farthest rank, for the finished `mated_game`. -/
def c11_move_game_over : Move := Move.normal ⟨2, 0⟩ ⟨8, 0⟩ false

/-- A drop whose kind is `None`, on the empty (4,4). -/
def c13_drop_none : Move := Move.drop ⟨4, 4⟩ PieceType.None

/-- A pawn dropped on the empty (4,4) of the initial position, where no hand holds anything. -/
def c13_drop : Move := Move.drop ⟨4, 4⟩ PieceType.Pawn

/-- The lance dropped on the empty (0,4) of `mate_board`, First's farthest rank. -/
def c14_drop : Move := Move.drop ⟨0, 4⟩ PieceType.Lance

/-- First has the bare king on (8,8) and nothing in hand; Second's rooks on
(7,0) and (0,7) sweep row 7 and column 7, Second's king is on (0,4) and every
other piece is in Second's hand. First is to move. -/
def c19_board : BoardState :=
  { m_board := grid_of
      [(⟨8, 8⟩, ⟨PieceType.King, Player.First⟩),
       (⟨0, 4⟩, ⟨PieceType.King, Player.Second⟩),
       (⟨7, 0⟩, ⟨PieceType.Rook, Player.Second⟩),
       (⟨0, 7⟩, ⟨PieceType.Rook, Player.Second⟩)]
    m_hands_first := [0, 0, 0, 0, 0, 0, 0]
    m_hands_second := [0, 2, 4, 4, 4, 4, 18]
    m_current_player := Player.First }

def c19_game : GameLogic := ⟨c19_board, GameResult.None⟩

end Shogi


/-! # Concrete positions and vocabulary for the movement rules -/

namespace Shogi

open BoardState GameLogic

/-- The six promoted kinds. -/
def promoted_kinds : List PieceType :=
  [PieceType.PromotedRook, PieceType.PromotedBishop, PieceType.PromotedSilver,
   PieceType.PromotedKnight, PieceType.PromotedLance, PieceType.PromotedPawn]

/-- The six kinds the rules of shogi let promote. -/
def promotable_kinds : List PieceType :=
  [PieceType.Rook, PieceType.Bishop, PieceType.Silver, PieceType.Knight, PieceType.Lance,
   PieceType.Pawn]

/-- The promotion zone in the words of the rules: rows 0 to 2 for First, rows 6
to 8 for Second. -/
def in_zone_rows (player : Player) (row : Int) : Prop :=
  match player with
  | Player.First => 0 ≤ row ∧ row ≤ 2
  | Player.Second => 6 ≤ row ∧ row ≤ 8

end Shogi

namespace Shogi

open BoardState GameLogic

/-- The piece a board array holds on a square. -/
def piece_at (board : List Piece) (s : Position) : Piece :=
  board.getD (pos_to_index s) Piece.empty

/-- The square holds no piece. -/
def square_empty (board : List Piece) (s : Position) : Prop :=
  (piece_at board s).is_empty = true

/-- The square holds a piece that `player` does not own. -/
def holds_enemy (board : List Piece) (s : Position) (player : Player) : Prop :=
  (piece_at board s).is_empty = false ∧ (piece_at board s).owner ≠ player

/-- A square a piece of `player` may land on: it is on the board and is empty
or holds an opposing piece. -/
def can_land (board : List Piece) (player : Player) (s : Position) : Prop :=
  s.is_valid = true ∧ (square_empty board s ∨ holds_enemy board s player)

/-- The row step that is forward for a player: towards row 0 for First,
towards row 8 for Second. -/
def forward (player : Player) : Int :=
  match player with
  | Player.First => -1
  | Player.Second => 1

/-- The square `n` steps of `d` = (row step, column step) away from `from_`. -/
def ray_square (from_ : Position) (d : Int × Int) (n : Nat) : Position :=
  ⟨from_.row + (n : Int) * d.1, from_.col + (n : Int) * d.2⟩

/-- The four orthogonal steps. -/
def orthogonals : List (Int × Int) := [(-1, 0), (1, 0), (0, -1), (0, 1)]

/-- The four diagonal steps. -/
def diagonals : List (Int × Int) := [(-1, -1), (-1, 1), (1, -1), (1, 1)]

/-- The eight steps to a neighbouring square. -/
def neighbours : List (Int × Int) := orthogonals ++ diagonals

/-- The rays of the sliding kinds in the words of the rules: the four
orthogonal rays for Rook, the four diagonal rays for Bishop, the forward ray
for Lance. -/
def rays (kind : PieceType) (player : Player) : List (Int × Int) :=
  match kind with
  | PieceType.Rook => orthogonals
  | PieceType.Bishop => diagonals
  | PieceType.Lance => [(forward player, 0)]
  | _ => []

/-- The square `s` is reached from `from_` by sliding along `d`: it lies on the
ray and on the board, every square strictly between is empty, and `s` is empty
or holds an opposing piece. -/
def slide_reaches (board : List Piece) (player : Player) (from_ : Position) (d : Int × Int)
    (s : Position) : Prop :=
  ∃ n : Nat, 1 ≤ n ∧ s = ray_square from_ d n ∧ s.is_valid = true ∧
    (∀ j : Nat, 1 ≤ j → j < n → square_empty board (ray_square from_ d j)) ∧
    (square_empty board s ∨ holds_enemy board s player)

end Shogi

namespace Shogi

/-- The step `apply_direction` adds for `player`: the row delta is negated for Second. -/
def Direction.step (dir : Direction) (player : Player) : Int × Int :=
  (if player = Player.Second then -dir.row_delta else dir.row_delta, dir.col_delta)

end Shogi

namespace Shogi

/-- The kinds that move by single steps. -/
def stepping_kinds : List PieceType :=
  [PieceType.King, PieceType.Gold, PieceType.Silver, PieceType.Knight, PieceType.Pawn,
   PieceType.PromotedSilver, PieceType.PromotedKnight, PieceType.PromotedLance,
   PieceType.PromotedPawn]

/-- The six neighbours other than the two backward diagonals. -/
def gold_steps (player : Player) : List (Int × Int) :=
  neighbours.filter (fun d => !(d.1 == -forward player && d.2 != 0))

/-- The direction sets of the stepping kinds in the words of the rules: King
all eight neighbours; Gold and the four minor promoted kinds the six neighbours
other than the two backward diagonals; Silver forward and the four diagonals;
Knight the two leaps two forward and one sideways; Pawn forward. -/
def steps (kind : PieceType) (player : Player) : List (Int × Int) :=
  match kind with
  | PieceType.King => neighbours
  | PieceType.Gold => gold_steps player
  | PieceType.PromotedSilver => gold_steps player
  | PieceType.PromotedKnight => gold_steps player
  | PieceType.PromotedLance => gold_steps player
  | PieceType.PromotedPawn => gold_steps player
  | PieceType.Silver => (forward player, 0) :: diagonals
  | PieceType.Knight => [(2 * forward player, -1), (2 * forward player, 1)]
  | PieceType.Pawn => [(forward player, 0)]
  | _ => []

/-- The square one step of `d` away from `from_`. -/
def step_square (from_ : Position) (d : Int × Int) : Position :=
  ⟨from_.row + d.1, from_.col + d.2⟩

end Shogi

namespace Shogi

/-- The square mirrored top to bottom: (row, col) goes to (8 - row, col). -/
def mirror (p : Position) : Position := ⟨8 - p.row, p.col⟩

/-- The piece with its owner swapped. -/
def swap_owner (pc : Piece) : Piece := ⟨pc.type, other_player pc.owner⟩

/-- The board mirrored top to bottom with the owner of every piece swapped:
the square of index `i` = 9 * row + col takes the piece of the square of index
9 * (8 - row) + col. -/
def mirror_board (board : List Piece) : List Piece :=
  (List.range 81).map
    (fun i => swap_owner (board.getD ((8 - i / 9) * 9 + i % 9) Piece.empty))

end Shogi

/-! # Concrete positions for captures and for the two queries -/

namespace Shogi

open BoardState GameLogic

/-- The number of pieces in play: the occupied squares and the counters of both hands. -/
def material (bs : BoardState) : Nat :=
  bs.m_board.countP (fun p => !p.is_empty) + bs.m_hands_first.sum + bs.m_hands_second.sum

/-- The arrays have the sizes the source gives them (81 squares, 7 counters in
each hand) and at most forty pieces are in play. -/
def well_formed (bs : BoardState) : Prop :=
  bs.m_board.length = 81 ∧ bs.m_hands_first.length = 7 ∧ bs.m_hands_second.length = 7 ∧
    material bs ≤ 40

/-- On `tokin_board` First's promoted pawn on (2,4) takes the pawn on (2,3). -/
def c23_move : Move := Move.normal ⟨2, 4⟩ ⟨2, 3⟩ false

/-- The game after `c23_move` is played on `tokin_game`: First holds two pawns
and Second is to move. -/
def c23_after : GameLogic :=
  ⟨{ with_squares tokin_board
      [(⟨2, 4⟩, Piece.empty), (⟨2, 3⟩, ⟨PieceType.PromotedPawn, Player.First⟩)] with
    m_hands_first := [0, 0, 0, 0, 0, 0, 2]
    m_current_player := Player.Second },
   GameResult.None⟩

/-- Ten opening moves. First walks the pawn of column 4 up and takes the pawn
on (2,4) with promotion, then the pawn on (2,5) with the promoted pawn;
Second's king walks from (0,4) over (1,5) to (1,6) and takes the promoted pawn
on (2,5), with two pawn pushes on column 0 in between. -/
def c29_line : List Move :=
  [Move.normal ⟨6, 4⟩ ⟨5, 4⟩ false, Move.normal ⟨0, 4⟩ ⟨1, 5⟩ false,
   Move.normal ⟨5, 4⟩ ⟨4, 4⟩ false, Move.normal ⟨1, 5⟩ ⟨1, 6⟩ false,
   Move.normal ⟨4, 4⟩ ⟨3, 4⟩ false, Move.normal ⟨2, 0⟩ ⟨3, 0⟩ false,
   Move.normal ⟨3, 4⟩ ⟨2, 4⟩ true, Move.normal ⟨3, 0⟩ ⟨4, 0⟩ false,
   Move.normal ⟨2, 4⟩ ⟨2, 5⟩ false, Move.normal ⟨1, 6⟩ ⟨2, 5⟩ false]

/-- The board after `c29_line`: First holds two pawns and has none on column 4,
Second holds one pawn and has none on column 4, Second's king stands on (2,5),
and (7,4) in front of First's king is empty; First is to move. -/
def c29_board : BoardState :=
  { with_squares initial_position
      [(⟨6, 4⟩, Piece.empty), (⟨0, 4⟩, Piece.empty), (⟨2, 4⟩, Piece.empty),
       (⟨2, 5⟩, ⟨PieceType.King, Player.Second⟩),
       (⟨2, 0⟩, Piece.empty), (⟨4, 0⟩, ⟨PieceType.Pawn, Player.Second⟩)] with
    m_hands_first := [0, 0, 0, 0, 0, 0, 2]
    m_hands_second := [0, 0, 0, 0, 0, 0, 1] }

def c29_game : GameLogic := ⟨c29_board, GameResult.None⟩

/-- First drops a pawn on the empty (4,4). -/
def c29_drop : Move := Move.drop ⟨4, 4⟩ PieceType.Pawn

/-- The board `make_move` has built when it calls `check_game_end` after
`c29_drop`: both sides hold one pawn and Second is to move. -/
def c29_after : BoardState := (execute_move c29_board c29_drop).switch_player

/-- The pawn Second may drop on (7,4), in front of First's king. -/
def c29_reply : Move := Move.drop ⟨7, 4⟩ PieceType.Pawn

/-- On `c11_board` First's lance steps from (1,4) onto the empty (0,4) with the
promotion flag. -/
def c30_move : Move := Move.normal ⟨1, 4⟩ ⟨0, 4⟩ true

end Shogi

namespace ShogiCore

/-- The seven kinds a hand has a counter for. -/
def hand_kinds : List PieceType :=
  [PieceType.Pawn, PieceType.Lance, PieceType.Knight, PieceType.Silver, PieceType.Gold,
   PieceType.Bishop, PieceType.Rook]

/-- The counter `getHand(player)[static_cast<int>(kind) - 1]`. -/
def hand_count (b : Board) (player : Player) (kind : PieceType) : Int :=
  (b.getHand player).getD (kind.toInt - 1).toNat 0

/-- Whether `getHand` returns the same array for `p` and `q`: Sente's for Sente,
Gote's for any other value. -/
def same_hand (p q : Player) : Bool := (p == Player.Sente) == (q == Player.Sente)

/-- The hand arrays have the seven counters the source gives them. -/
def hands_well_formed (b : Board) : Prop :=
  b.senteHand_.length = 7 ∧ b.goteHand_.length = 7

end ShogiCore

/-! # Vocabulary for check, evaluation and the invariants of play -/

namespace Shogi

open BoardState GameLogic

/-- The square is on the board and holds the King of `player`. -/
def holds_king (bs : BoardState) (player : Player) (k : Position) : Prop :=
  k.is_valid = true ∧ (bs.get_piece k).type = PieceType.King ∧ (bs.get_piece k).owner = player

/-- Some piece owned by `by_player` has the square `k` among the destinations
`get_possible_moves` gives it. -/
def attacks (bs : BoardState) (by_player : Player) (k : Position) : Prop :=
  ∃ from_ : Position, from_.is_valid = true ∧ (bs.get_piece from_).is_empty = false ∧
    (bs.get_piece from_).owner = by_player ∧
    k ∈ PieceMovement.get_possible_moves (bs.get_piece from_) from_ bs.m_board

/-- Each player has exactly one King on the grid. -/
def one_king_each (bs : BoardState) : Prop :=
  ∀ player, ∃ k, holds_king bs player k ∧ ∀ k2, holds_king bs player k2 → k2 = k

/-- The square is on the board and holds an unpromoted Pawn of `player`. -/
def holds_pawn (bs : BoardState) (player : Player) (s : Position) : Prop :=
  s.is_valid = true ∧ bs.get_piece s = ⟨PieceType.Pawn, player⟩

/-- No column holds two unpromoted Pawns of the same player. -/
def no_double_pawn (bs : BoardState) : Prop :=
  ∀ player s1 s2, holds_pawn bs player s1 → holds_pawn bs player s2 → s1.col = s2.col →
    s1 = s2

/-- The read `board[pos_to_index(pos)]` of the `std::array<Piece, 81>`, with
the bounds looked at: `none` when the index `row * 9 + col` falls outside the
array. -/
def checked_read (board : List Piece) (pos : Position) : Option Piece :=
  if 0 ≤ pos.row * BOARD_COLS + pos.col then board[(pos.row * BOARD_COLS + pos.col).toNat]?
  else none

namespace PieceMovement

/-- The function `is_enemy_or_empty` over `checked_read`: `none` when the read
is out of bounds. -/
def is_enemy_or_empty_checked (pos : Position) (board : List Piece) (player : Player) :
    Option Bool :=
  if !pos.is_valid then some false
  else
    match checked_read board pos with
    | none => none
    | some piece => some (piece.is_empty || piece.owner != player)

/-- The `while` loop of `get_sliding_moves` over `checked_read`, with a step
count: `none` when a read is out of bounds or the loop has not ended when the
count runs out. -/
def slide_loop_checked (board : List Piece) (player : Player) (dir : Direction) :
    Nat → Position → Option (List Position)
  | 0, _ => none
  | n + 1, current =>
    if current.is_valid then
      match checked_read board current with
      | none => none
      | some piece =>
        if piece.is_empty then
          match slide_loop_checked board player dir n (apply_direction current dir player) with
          | none => none
          | some rest => some (current :: rest)
        else if piece.owner != player then some [current]
        else some []
    else some []

def get_sliding_moves_checked (from_ : Position) (directions : List Direction)
    (board : List Piece) (player : Player) : Option (List Position) :=
  match directions with
  | [] => some []
  | dir :: rest =>
    match slide_loop_checked board player dir 9 (apply_direction from_ dir player),
        get_sliding_moves_checked from_ rest board player with
    | some moves, some more => some (moves ++ more)
    | _, _ => none

def get_single_step_moves_checked (from_ : Position) (directions : List Direction)
    (board : List Piece) (player : Player) : Option (List Position) :=
  match directions with
  | [] => some []
  | dir :: rest =>
    match is_enemy_or_empty_checked (apply_direction from_ dir player) board player,
        get_single_step_moves_checked from_ rest board player with
    | some keep, some more =>
      some (if keep then apply_direction from_ dir player :: more else more)
    | _, _ => none

/-- The merge, sort and `std::unique` of `get_promoted_rook_moves` and
`get_promoted_bishop_moves` over results that may be missing. -/
def merge_checked (sliding king : Option (List Position)) : Option (List Position) :=
  match sliding, king with
  | some a, some b => some (unique_positions (sort_positions (a ++ b)))
  | _, _ => none

/-- The function `get_possible_moves` over `checked_read`: `none` when a read
is out of bounds or a sliding loop does not end. -/
def get_possible_moves_checked (piece : Piece) (from_ : Position) (board : List Piece) :
    Option (List Position) :=
  if piece.is_empty || !from_.is_valid then some []
  else
    match piece.type with
    | PieceType.King =>
      get_single_step_moves_checked from_
        [UP, DOWN, LEFT, RIGHT, UP_LEFT, UP_RIGHT, DOWN_LEFT, DOWN_RIGHT] board piece.owner
    | PieceType.Rook => get_sliding_moves_checked from_ [UP, DOWN, LEFT, RIGHT] board piece.owner
    | PieceType.Bishop =>
      get_sliding_moves_checked from_ [UP_LEFT, UP_RIGHT, DOWN_LEFT, DOWN_RIGHT] board piece.owner
    | PieceType.Gold =>
      get_single_step_moves_checked from_ [UP, DOWN, LEFT, RIGHT, UP_LEFT, UP_RIGHT] board
        piece.owner
    | PieceType.Silver =>
      get_single_step_moves_checked from_ [UP, UP_LEFT, UP_RIGHT, DOWN_LEFT, DOWN_RIGHT] board
        piece.owner
    | PieceType.Knight =>
      get_single_step_moves_checked from_ [KNIGHT_UP_LEFT, KNIGHT_UP_RIGHT] board piece.owner
    | PieceType.Lance => get_sliding_moves_checked from_ [UP] board piece.owner
    | PieceType.Pawn => get_single_step_moves_checked from_ [UP] board piece.owner
    | PieceType.PromotedRook =>
      merge_checked (get_sliding_moves_checked from_ [UP, DOWN, LEFT, RIGHT] board piece.owner)
        (get_single_step_moves_checked from_
          [UP, DOWN, LEFT, RIGHT, UP_LEFT, UP_RIGHT, DOWN_LEFT, DOWN_RIGHT] board piece.owner)
    | PieceType.PromotedBishop =>
      merge_checked
        (get_sliding_moves_checked from_ [UP_LEFT, UP_RIGHT, DOWN_LEFT, DOWN_RIGHT] board
          piece.owner)
        (get_single_step_moves_checked from_
          [UP, DOWN, LEFT, RIGHT, UP_LEFT, UP_RIGHT, DOWN_LEFT, DOWN_RIGHT] board piece.owner)
    | PieceType.PromotedSilver =>
      get_single_step_moves_checked from_ [UP, DOWN, LEFT, RIGHT, UP_LEFT, UP_RIGHT] board
        piece.owner
    | PieceType.PromotedKnight =>
      get_single_step_moves_checked from_ [UP, DOWN, LEFT, RIGHT, UP_LEFT, UP_RIGHT] board
        piece.owner
    | PieceType.PromotedLance =>
      get_single_step_moves_checked from_ [UP, DOWN, LEFT, RIGHT, UP_LEFT, UP_RIGHT] board
        piece.owner
    | PieceType.PromotedPawn =>
      get_single_step_moves_checked from_ [UP, DOWN, LEFT, RIGHT, UP_LEFT, UP_RIGHT] board
        piece.owner
    | PieceType.None => some []

end PieceMovement

/-- The piece `execute_normal_move` puts on the destination: the piece of the
origin, promoted when the flag is set and the piece can promote. -/
def moved_piece (bs : BoardState) (m : Move) : Piece :=
  if m.is_promotion && (bs.get_piece m.from_).can_promote then
    ⟨(bs.get_piece m.from_).promoted_type, (bs.get_piece m.from_).owner⟩
  else bs.get_piece m.from_

/-- No piece of the side to move has a square holding a King among its
destinations: the side to move cannot capture a King. -/
def no_king_capture (bs : BoardState) : Prop :=
  ∀ from_ to_ : Position, from_.is_valid = true →
    (bs.get_piece from_).is_empty = false →
    (bs.get_piece from_).owner = bs.current_player →
    to_ ∈ PieceMovement.get_possible_moves (bs.get_piece from_) from_ bs.m_board →
    (bs.get_piece to_).type ≠ PieceType.King

/-- The invariant of play: the arrays have their sizes, forty pieces are in
play, each player has one King, the player who is not to move is not in check,
and no column holds two unpromoted Pawns of one player. -/
def sound_position (bs : BoardState) : Prop :=
  bs.m_board.length = 81 ∧ bs.m_hands_first.length = 7 ∧ bs.m_hands_second.length = 7 ∧
    material bs = 40 ∧ one_king_each bs ∧
    bs.is_in_check (other_player bs.current_player) = false ∧ no_double_pawn bs

/-- On `c11_board` First's lance steps from (1,4) onto (0,4) without the promotion flag. -/
def c39_plain : Move := Move.normal ⟨1, 4⟩ ⟨0, 4⟩ false

end Shogi

namespace ShogiCore

open Board

/-- The player after a flip: Gote after Sente, Sente after Gote. -/
def flipped (old new : Player) : Prop :=
  (old = Player.Sente → new = Player.Gote) ∧ (old = Player.Gote → new = Player.Sente) ∧
    new ≠ old

end ShogiCore
/-! # Theorems -/

namespace Shogi

open BoardState GameLogic

/-! ## The sliding loop needs no more than nine steps -/

theorem slide_loop_invalid (board : List Piece) (player : Player) (dir : Direction) (n : Nat)
    (current : Position) (h : current.is_valid = false) :
    PieceMovement.slide_loop board player dir n current = [] := by
  cases n with
  | zero => rfl
  | succ k => simp [PieceMovement.slide_loop, h]

theorem slide_loop_fuel_of_measure (board : List Piece) (player : Player) (dir : Direction)
    (μ : Position → Nat) (hpos : ∀ p, p.is_valid = true → 0 < μ p)
    (hstep : ∀ p, p.is_valid = true →
      (PieceMovement.apply_direction p dir player).is_valid = true →
      μ (PieceMovement.apply_direction p dir player) < μ p) :
    ∀ n m current, (current.is_valid = true → μ current ≤ n ∧ μ current ≤ m) →
      PieceMovement.slide_loop board player dir n current =
        PieceMovement.slide_loop board player dir m current := by
  intro n
  induction n with
  | zero =>
    intro m current h
    have hinv : current.is_valid = false := by
      cases hv : current.is_valid with
      | false => rfl
      | true => have := hpos current hv; have := (h hv).1; omega
    rw [slide_loop_invalid _ _ _ _ _ hinv, slide_loop_invalid _ _ _ _ _ hinv]
  | succ k ih =>
    intro m current h
    cases hv : current.is_valid with
    | false => rw [slide_loop_invalid _ _ _ _ _ hv, slide_loop_invalid _ _ _ _ _ hv]
    | true =>
      cases m with
      | zero => have := hpos current hv; have := (h hv).2; omega
      | succ j =>
        have hnext : PieceMovement.slide_loop board player dir k
              (PieceMovement.apply_direction current dir player) =
            PieceMovement.slide_loop board player dir j
              (PieceMovement.apply_direction current dir player) := by
          apply ih
          intro hv2
          have h1 := hstep current hv hv2
          have h2 := h hv
          omega
        simp only [PieceMovement.slide_loop, hv, if_true, hnext]

/-- A direction with a nonzero component leaves the board within nine steps:
from nine on, the fuel of `slide_loop` does not change its result. -/
theorem slide_loop_fuel (board : List Piece) (player : Player) (dir : Direction)
    (hdir : dir.row_delta ≠ 0 ∨ dir.col_delta ≠ 0) (n : Nat) (hn : 9 ≤ n)
    (current : Position) :
    PieceMovement.slide_loop board player dir n current =
      PieceMovement.slide_loop board player dir 9 current := by
  have valid_iff : ∀ p : Position, p.is_valid = true ↔
      (0 ≤ p.row ∧ p.row < 9 ∧ 0 ≤ p.col ∧ p.col < 9) := by
    intro p
    simp [Position.is_valid, BOARD_ROWS, BOARD_COLS, and_assoc]
  have happ : ∀ p : Position, PieceMovement.apply_direction p dir player =
      (⟨p.row + (if player = Player.Second then -dir.row_delta else dir.row_delta),
        p.col + dir.col_delta⟩ : Position) := fun p => rfl
  generalize hdr : (if player = Player.Second then -dir.row_delta else dir.row_delta) = dr
    at happ
  have hdr0 : dr ≠ 0 ∨ dir.col_delta ≠ 0 := by
    rcases hdir with h | h
    · left
      rw [← hdr]
      split <;> omega
    · right; exact h
  rcases lt_trichotomy dr 0 with hneg | hzero | hposd
  · apply slide_loop_fuel_of_measure board player dir (fun p => (p.row + 1).toNat)
    · intro p hp
      have := (valid_iff p).mp hp
      omega
    · intro p hp hq
      rw [happ] at hq ⊢
      have h1 := (valid_iff p).mp hp
      have h2 := (valid_iff _).mp hq
      simp only at h2 ⊢
      omega
    · intro hp
      have := (valid_iff current).mp hp
      omega
  · rcases lt_or_gt_of_ne (hdr0.resolve_left (by omega)) with hcn | hcp
    · apply slide_loop_fuel_of_measure board player dir (fun p => (p.col + 1).toNat)
      · intro p hp
        have := (valid_iff p).mp hp
        omega
      · intro p hp hq
        rw [happ] at hq ⊢
        have h1 := (valid_iff p).mp hp
        have h2 := (valid_iff _).mp hq
        simp only at h2 ⊢
        omega
      · intro hp
        have := (valid_iff current).mp hp
        omega
    · apply slide_loop_fuel_of_measure board player dir (fun p => (9 - p.col).toNat)
      · intro p hp
        have := (valid_iff p).mp hp
        omega
      · intro p hp hq
        rw [happ] at hq ⊢
        have h1 := (valid_iff p).mp hp
        have h2 := (valid_iff _).mp hq
        simp only at h2 ⊢
        omega
      · intro hp
        have := (valid_iff current).mp hp
        omega
  · apply slide_loop_fuel_of_measure board player dir (fun p => (9 - p.row).toNat)
    · intro p hp
      have := (valid_iff p).mp hp
      omega
    · intro p hp hq
      rw [happ] at hq ⊢
      have h1 := (valid_iff p).mp hp
      have h2 := (valid_iff _).mp hq
      simp only at h2 ⊢
      omega
    · intro hp
      have := (valid_iff current).mp hp
      omega

end Shogi

/-! ## The initial position -/

namespace Shogi

open BoardState GameLogic

theorem setup_initial_position_eq (bs : BoardState) :
    bs.setup_initial_position = initial_position := rfl

theorem reset_game_eq (g : GameLogic) : reset_game g = initial_game := rfl

/-- C3: after `setup_initial_position` the grid (81 cells) holds exactly 20
pieces of First and exactly 20 of Second, all seven counters of both hands are
zero, and the side to move is First. -/
theorem C3_initial_position_counts (bs : BoardState) :
    (bs.setup_initial_position).count_pieces Player.First = 20 ∧
    (bs.setup_initial_position).count_pieces Player.Second = 20 ∧
    (bs.setup_initial_position).m_board.length = 81 ∧
    (bs.setup_initial_position).get_hand Player.First = [0, 0, 0, 0, 0, 0, 0] ∧
    (bs.setup_initial_position).get_hand Player.Second = [0, 0, 0, 0, 0, 0, 0] ∧
    (∀ player kind, (bs.setup_initial_position).get_hand_count player kind = 0) ∧
    (bs.setup_initial_position).current_player = Player.First := by
  rw [setup_initial_position_eq]
  refine ⟨by decide!, by decide!, by decide!, by decide!, by decide!, ?_, by decide!⟩
  intro player kind
  cases player <;> cases kind <;> decide!

theorem initial_drop_candidates :
    drop_candidates initial_position Player.First = [] := by decide!

/-- C2: on the state `reset_game` produces, `get_legal_moves` returns (for
every fuel) a list of exactly 30 moves, none of them a drop and none carrying
the promotion flag. -/
theorem C2_initial_legal_moves (g : GameLogic) (fuel : Nat) :
    ∃ moves, get_legal_moves fuel (reset_game g) = some moves ∧
      moves.length = 30 ∧
      ∀ m ∈ moves, m.is_drop = false ∧ m.is_promotion = false := by
  refine ⟨generate_normal_moves initial_position Player.First, ?_, by decide!, by decide!⟩
  rw [reset_game_eq]
  show generate_all_moves_with (validate_drop_move fuel initial_position) initial_position
    Player.First = _
  unfold generate_all_moves_with
  rw [initial_drop_candidates]
  simp [collect_drops]

/-- C4: whenever `make_move` returns an error, the state it leaves (grid, both
hands, side to move, game result) is the state it was called on. -/
theorem C4_failed_move_keeps_state (fuel : Nat) (g g1 : GameLogic) (move : Move)
    (e : GameError) (h : make_move fuel g move = some (GameExpected.error e, g1)) :
    g1 = g := by
  unfold make_move at h
  split at h
  · simp at h; exact h.2.symm
  · split at h
    · simp at h
    · simp at h; exact h.2.symm
    · split at h
      · simp at h; exact h.2.symm
      · simp only at h
        split at h <;> simp at h

theorem C4_failed_move_keeps_state_witness :
    make_move 1 initial_game (Move.normal ⟨6, 4⟩ ⟨4, 4⟩ false) =
        some (GameExpected.error GameError.InvalidMove, initial_game) ∧
      initial_game = initial_game :=
  ⟨by decide!, C4_failed_move_keeps_state 1 initial_game initial_game
    (Move.normal ⟨6, 4⟩ ⟨4, 4⟩ false) GameError.InvalidMove (by decide!)⟩

end Shogi

namespace ShogiCore

open Board

/-- C1 (the code departs from it): on `c1_board` the capture `c1_move` of a
promoted pawn is accepted by `makeMove`; after one `undoMove` the grid and the
side to move are back, but Sente's hand holds one pawn where it held none. -/
theorem C1_undo_leaves_captured_promoted_piece_in_hand :
    makeMoves c1_board [c1_move] = some (c1_board.makeMove c1_move).2 ∧
    (undoMoves (c1_board.makeMove c1_move).2 1).board_ = c1_board.board_ ∧
    (undoMoves (c1_board.makeMove c1_move).2 1).currentPlayer_ = c1_board.currentPlayer_ ∧
    c1_board.getHand Player.Sente = [0, 0, 0, 0, 0, 0, 0] ∧
    (undoMoves (c1_board.makeMove c1_move).2 1).getHand Player.Sente = [1, 0, 0, 0, 0, 0, 0] := by
  decide!

theorem generateLegalMoves_nil (board : Board) : board.generateLegalMoves = [] := by
  simp [generateLegalMoves, generateMovesForPiece, generateDropMoves]

/-- C10 (the code departs from it): `generateLegalMoves` is empty on every
board, so `selectMove` returns the null move for every board, depth and
player; on `c10_board`, where dropping the gold mates, it returns the null move
and not `c10_mate`. -/
theorem C10_selectMove_returns_null_move (ai : BasicAI) (fuel : Nat) (board : Board) :
    board.generateLegalMoves = [] ∧
    BasicAI.selectMove ai fuel board = some Move.null ∧
    c10_board.getHand Player.Sente = [0, 0, 0, 0, 1, 0, 0] ∧
    (c10_board.makeMove c10_mate).1 = true ∧
    BasicAI.selectMove c10_ai fuel c10_board ≠ some c10_mate := by
  have h : ∀ (a : BasicAI) (b : Board), BasicAI.selectMove a fuel b = some Move.null := by
    intro a b
    simp [BasicAI.selectMove, generateLegalMoves_nil]
  refine ⟨generateLegalMoves_nil board, h ai board, by decide!, by decide!, ?_⟩
  rw [h]
  decide

end ShogiCore

namespace Shogi

open BoardState GameLogic

/-! ## Fuel: more never changes a result -/

theorem collect_drops_congr (v1 v2 : Move → Option GameExpected) (l : List Move)
    (hv : ∀ m r, v1 m = some r → v2 m = some r) :
    ∀ x, collect_drops v1 l = some x → collect_drops v2 l = some x := by
  induction l with
  | nil => intro x h; simpa [collect_drops] using h
  | cons m ms ih =>
    intro x h
    unfold collect_drops at h ⊢
    cases h1 : v1 m with
    | none => simp [h1] at h
    | some r =>
      rw [h1] at h
      rw [hv m r h1]
      cases h2 : collect_drops v1 ms with
      | none => simp [h2] at h
      | some rest =>
        rw [h2] at h
        rw [ih rest h2]
        exact h

theorem generate_all_moves_with_congr (v1 v2 : Move → Option GameExpected) (bs : BoardState)
    (player : Player) (hv : ∀ m r, v1 m = some r → v2 m = some r) :
    ∀ x, generate_all_moves_with v1 bs player = some x →
      generate_all_moves_with v2 bs player = some x := by
  intro x h
  unfold generate_all_moves_with at h ⊢
  cases h1 : collect_drops v1 (drop_candidates bs player) with
  | none => simp [h1] at h
  | some drops =>
    rw [h1] at h
    rw [collect_drops_congr v1 v2 _ hv drops h1]
    exact h

theorem is_uchifuzume_violation_with_congr (v1 v2 : Move → Option GameExpected)
    (bs : BoardState) (move : Move) (hv : ∀ m r, v1 m = some r → v2 m = some r) :
    ∀ b, is_uchifuzume_violation_with v1 bs move = some b →
      is_uchifuzume_violation_with v2 bs move = some b := by
  intro b h
  simp only [is_uchifuzume_violation_with] at h ⊢
  by_cases hp : (move.drop_piece != PieceType.Pawn) = true
  · simpa [hp] using h
  · simp only [hp, if_false] at h ⊢
    by_cases hc : (!(simulate_move bs move).is_in_check (other_player bs.current_player)) = true
    · simpa [hc] using h
    · simp only [hc, if_false] at h ⊢
      cases h1 : generate_all_moves_with v1 bs (other_player bs.current_player) with
      | none => simp [h1] at h
      | some ms =>
        rw [h1] at h
        rw [generate_all_moves_with_congr v1 v2 bs _ hv ms h1]
        exact h

theorem validate_drop_move_succ (fuel : Nat) (bs : BoardState) :
    ∀ move r, validate_drop_move fuel bs move = some r →
      validate_drop_move (fuel + 1) bs move = some r := by
  induction fuel with
  | zero => intro move r h; simp [validate_drop_move] at h
  | succ n ih =>
    intro move r h
    rw [validate_drop_move] at h ⊢
    by_cases c1 : (!move.to_.is_valid || move.drop_piece == PieceType.None) = true
    · simpa [c1] using h
    simp only [c1, if_false] at h ⊢
    by_cases c2 : (!(bs.get_piece move.to_).is_empty) = true
    · simpa [c2] using h
    simp only [c2, if_false] at h ⊢
    by_cases c3 : (bs.get_hand_count bs.current_player move.drop_piece == 0) = true
    · simpa [c3] using h
    simp only [c3, if_false] at h ⊢
    by_cases c4 : (move.drop_piece == PieceType.Pawn && is_nifu_violation bs move) = true
    · simpa [c4] using h
    simp only [c4, if_false] at h ⊢
    by_cases c5 : (move.drop_piece == PieceType.Pawn) = true
    · simp only [c5, if_true] at h ⊢
      cases h1 : is_uchifuzume_violation_with (validate_drop_move n bs) bs move with
      | none => simp [h1] at h
      | some b =>
        rw [h1] at h
        rw [is_uchifuzume_violation_with_congr _ _ bs move ih b h1]
        exact h
    · simpa [c5] using h

theorem validate_drop_move_mono (bs : BoardState) (move : Move) (r : GameExpected)
    (fuel fuel1 : Nat) (hle : fuel ≤ fuel1)
    (h : validate_drop_move fuel bs move = some r) :
    validate_drop_move fuel1 bs move = some r := by
  induction hle with
  | refl => exact h
  | step _ ih => exact validate_drop_move_succ _ bs move r ih

theorem generate_all_moves_mono (bs : BoardState) (player : Player) (ms : List Move)
    (fuel fuel1 : Nat) (hle : fuel ≤ fuel1) (h : generate_all_moves fuel bs player = some ms) :
    generate_all_moves fuel1 bs player = some ms :=
  generate_all_moves_with_congr _ _ bs player
    (fun m r hr => validate_drop_move_mono bs m r fuel fuel1 hle hr) ms h

theorem is_checkmate_mono (bs : BoardState) (player : Player) (b : Bool)
    (fuel fuel1 : Nat) (hle : fuel ≤ fuel1) (h : is_checkmate fuel bs player = some b) :
    is_checkmate fuel1 bs player = some b := by
  simp only [is_checkmate] at h ⊢
  by_cases hc : (!GameLogic.is_in_check bs player) = true
  · simpa [hc] using h
  · simp only [hc, if_false] at h ⊢
    cases h1 : generate_all_moves fuel bs player with
    | none => simp [h1] at h
    | some ms =>
      rw [h1] at h
      rw [generate_all_moves_mono bs player ms fuel fuel1 hle h1]
      exact h

theorem is_stalemate_mono (bs : BoardState) (b : Bool)
    (fuel fuel1 : Nat) (hle : fuel ≤ fuel1) (h : is_stalemate fuel bs = some b) :
    is_stalemate fuel1 bs = some b := by
  simp only [is_stalemate] at h ⊢
  by_cases hc : GameLogic.is_in_check bs bs.current_player = true
  · simpa [hc] using h
  · simp only [hc, if_false] at h ⊢
    cases h1 : generate_all_moves fuel bs bs.current_player with
    | none => simp [h1] at h
    | some ms =>
      rw [h1] at h
      rw [generate_all_moves_mono bs _ ms fuel fuel1 hle h1]
      exact h

theorem check_game_end_mono (g g1 : GameLogic) (fuel fuel1 : Nat) (hle : fuel ≤ fuel1)
    (h : check_game_end fuel g = some g1) : check_game_end fuel1 g = some g1 := by
  simp only [check_game_end] at h ⊢
  cases h1 : is_checkmate fuel g.m_board_state g.m_board_state.current_player with
  | none => simp [h1] at h
  | some b =>
    rw [h1] at h
    rw [is_checkmate_mono _ _ b fuel fuel1 hle h1]
    cases b with
    | true => exact h
    | false =>
      simp only at h ⊢
      cases h2 : is_stalemate fuel g.m_board_state with
      | none => simp [h2] at h
      | some b2 =>
        rw [h2] at h
        rw [is_stalemate_mono _ b2 fuel fuel1 hle h2]
        exact h

/-- Once `make_move` returns within some fuel, it returns the same with any larger fuel. -/
theorem make_move_mono (g : GameLogic) (move : Move) (r : GameExpected × GameLogic)
    (fuel fuel1 : Nat) (hle : fuel ≤ fuel1) (h : make_move fuel g move = some r) :
    make_move fuel1 g move = some r := by
  simp only [make_move] at h ⊢
  by_cases c1 : (g.m_game_result != GameResult.None) = true
  · simpa [c1] using h
  simp only [c1, if_false] at h ⊢
  have key : ∀ v, (if move.is_drop = true then validate_drop_move fuel g.m_board_state move
      else some (validate_normal_move g.m_board_state move)) = some v →
      (if move.is_drop = true then validate_drop_move fuel1 g.m_board_state move
      else some (validate_normal_move g.m_board_state move)) = some v := by
    intro v hv
    by_cases hd : move.is_drop = true
    · simp only [hd, if_true] at hv ⊢
      exact validate_drop_move_mono _ _ v fuel fuel1 hle hv
    · simpa [hd] using hv
  cases h1 : (if move.is_drop = true then validate_drop_move fuel g.m_board_state move
      else some (validate_normal_move g.m_board_state move)) with
  | none => simp [h1] at h
  | some v =>
    rw [h1] at h
    rw [key v h1]
    cases v with
    | error e => exact h
    | value b =>
      simp only at h ⊢
      by_cases c2 : would_be_in_check_after_move g.m_board_state move
          g.m_board_state.current_player = true
      · simpa [c2] using h
      · simp only [c2, if_false] at h ⊢
        cases h2 : check_game_end fuel
            { m_board_state := (execute_move g.m_board_state move).switch_player,
              m_game_result := g.m_game_result } with
        | none => simp [h2] at h
        | some g3 =>
          rw [h2] at h
          rw [check_game_end_mono _ g3 fuel fuel1 hle h2]
          exact h

/-! ## The unbounded recursion of the pawn-drop test -/

theorem collect_drops_none (v : Move → Option GameExpected) (l : List Move) (m : Move)
    (hm : m ∈ l) (hv : v m = none) : collect_drops v l = none := by
  induction l with
  | nil => simp at hm
  | cons a as ih =>
    unfold collect_drops
    rcases List.mem_cons.mp hm with rfl | hmem
    · rw [hv]
    · cases v a with
      | none => rfl
      | some r => simp only [ih hmem]

/-- A pawn drop that passes the first four tests of `validate_drop_move`,
checks the opponent, and is itself among the drops `generate_all_moves` tries
for the opponent (the opponent holds a pawn) sends `validate_drop_move` back
to the same call: no amount of fuel lets it return. -/
theorem validate_drop_move_never_returns (bs : BoardState) (move : Move)
    (hvalid : move.to_.is_valid = true) (hkind : move.drop_piece = PieceType.Pawn)
    (hempty : (bs.get_piece move.to_).is_empty = true)
    (hhand : bs.get_hand_count bs.current_player PieceType.Pawn ≠ 0)
    (hnifu : is_nifu_violation bs move = false)
    (hcheck : (simulate_move bs move).is_in_check (other_player bs.current_player) = true)
    (hmem : move ∈ drop_candidates bs (other_player bs.current_player)) :
    ∀ fuel, validate_drop_move fuel bs move = none := by
  intro fuel
  induction fuel with
  | zero => rfl
  | succ n ih =>
    rw [validate_drop_move]
    have h1 : generate_all_moves_with (validate_drop_move n bs) bs
        (other_player bs.current_player) = none := by
      unfold generate_all_moves_with
      rw [collect_drops_none _ _ move hmem ih]
    have h2 : is_uchifuzume_violation_with (validate_drop_move n bs) bs move = none := by
      simp only [is_uchifuzume_violation_with]
      simp [hkind, hcheck, h1]
    rw [h2]
    simp [hvalid, hkind, hempty, hhand, hnifu]

/-- When a drop that never returns is among the drops `generate_all_moves`
tries, `generate_all_moves` never returns either. -/
theorem generate_all_moves_never_returns (bs : BoardState) (player : Player) (move : Move)
    (hmem : move ∈ drop_candidates bs player)
    (hnone : ∀ fuel, validate_drop_move fuel bs move = none) :
    ∀ fuel, generate_all_moves fuel bs player = none := by
  intro fuel
  unfold generate_all_moves generate_all_moves_with
  rw [collect_drops_none _ _ move hmem (hnone fuel)]

end Shogi

namespace Shogi

open BoardState GameLogic

/-! ## What `get_legal_moves` holds when it does return -/

theorem mem_all_squares (p : Position) (h : p.is_valid = true) : p ∈ all_squares := by
  have hv : 0 ≤ p.row ∧ p.row < 9 ∧ 0 ≤ p.col ∧ p.col < 9 := by
    simpa [Position.is_valid, BOARD_ROWS, BOARD_COLS, and_assoc] using h
  unfold all_squares
  rw [List.mem_flatMap]
  refine ⟨p.row.toNat, ?_, ?_⟩
  · rw [List.mem_range]; omega
  · rw [List.mem_map]
    refine ⟨p.col.toNat, ?_, ?_⟩
    · rw [List.mem_range]; omega
    · have h1 : ((p.row.toNat : Nat) : Int) = p.row := Int.toNat_of_nonneg hv.1
      have h2 : ((p.col.toNat : Nat) : Int) = p.col := Int.toNat_of_nonneg hv.2.2.1
      cases p
      simp_all

theorem validate_normal_move_normal (bs : BoardState) (m : Move) :
    validate_normal_move bs (Move.normal m.from_ m.to_ m.is_promotion) =
      validate_normal_move bs m := rfl

theorem validate_normal_move_value (bs : BoardState) (m : Move) (b : Bool)
    (h : validate_normal_move bs m = GameExpected.value b) :
    m.from_.is_valid = true ∧
    (bs.get_piece m.from_).is_empty = false ∧
    (bs.get_piece m.from_).owner = bs.current_player ∧
    m.to_ ∈ PieceMovement.get_possible_moves (bs.get_piece m.from_) m.from_ bs.get_board ∧
    (m.is_promotion = true →
      PieceMovement.can_promote (bs.get_piece m.from_) m.from_ m.to_ = true) := by
  unfold validate_normal_move at h
  by_cases c1 : (!m.from_.is_valid || !m.to_.is_valid) = true
  · simp [c1] at h
  simp only [c1, if_false] at h
  by_cases c2 : (bs.get_piece m.from_).is_empty = true
  · simp [c2] at h
  simp only [c2, if_false] at h
  by_cases c3 : ((bs.get_piece m.from_).owner != bs.current_player) = true
  · simp [c3] at h
  simp only [c3, if_false] at h
  by_cases c4 : (!PieceMovement.is_valid_move (bs.get_piece m.from_) m.from_ m.to_
      bs.get_board) = true
  · simp [c4] at h
  simp only [c4, if_false] at h
  refine ⟨by simpa using (by simpa using c1 : m.from_.is_valid = true ∧ _).1,
    by simpa using c2, by simpa using c3, ?_, ?_⟩
  · have : PieceMovement.is_valid_move (bs.get_piece m.from_) m.from_ m.to_ bs.get_board
        = true := by simpa using c4
    unfold PieceMovement.is_valid_move at this
    simpa using this
  · intro hp
    simp only [hp, if_true] at h
    by_cases c5 : (!PieceMovement.can_promote (bs.get_piece m.from_) m.from_ m.to_) = true
    · simp [c5] at h
    · simpa using c5

/-- Every normal move that `validate_normal_move` accepts is in the normal-move
half of `generate_all_moves` for the side to move. -/
theorem mem_generate_normal_moves (bs : BoardState) (m : Move) (b : Bool)
    (h : validate_normal_move bs m = GameExpected.value b) :
    Move.normal m.from_ m.to_ m.is_promotion ∈ generate_normal_moves bs bs.current_player := by
  obtain ⟨hv, hne, hown, hmem, hpromo⟩ := validate_normal_move_value bs m b h
  have hval : (validate_normal_move bs (Move.normal m.from_ m.to_ m.is_promotion)).has_value
      = true := by
    rw [validate_normal_move_normal, h]; rfl
  unfold generate_normal_moves
  rw [List.mem_flatMap]
  refine ⟨m.from_, mem_all_squares _ hv, ?_⟩
  simp only [hne, hown, bne_self_eq_false, Bool.or_self, Bool.false_eq_true, if_false]
  rw [List.mem_flatMap]
  refine ⟨m.to_, hmem, ?_⟩
  rw [List.mem_append]
  cases hp : m.is_promotion with
  | false =>
    left
    rw [hp] at hval
    simp [hval]
  | true =>
    right
    rw [hp] at hval
    simp [hpromo hp, hval]

theorem simulate_move_drop (bs : BoardState) (m : Move) (h : m.is_drop = true) :
    simulate_move bs (Move.drop m.to_ m.drop_piece) = simulate_move bs m := by
  simp [simulate_move, Move.drop, h]

theorem validate_drop_move_drop (fuel : Nat) (bs : BoardState) (m : Move)
    (h : m.is_drop = true) :
    validate_drop_move fuel bs (Move.drop m.to_ m.drop_piece) = validate_drop_move fuel bs m := by
  cases fuel with
  | zero => rfl
  | succ n =>
    have hu : is_uchifuzume_violation_with (validate_drop_move n bs) bs
          (Move.drop m.to_ m.drop_piece) =
        is_uchifuzume_violation_with (validate_drop_move n bs) bs m := by
      unfold is_uchifuzume_violation_with
      rw [simulate_move_drop bs m h]
      rfl
    rw [validate_drop_move, validate_drop_move, hu]
    rfl

theorem validate_drop_move_value (fuel : Nat) (bs : BoardState) (m : Move) (b : Bool)
    (h : validate_drop_move fuel bs m = some (GameExpected.value b)) :
    m.to_.is_valid = true ∧ bs.get_hand_count bs.current_player m.drop_piece ≠ 0 := by
  cases fuel with
  | zero => simp [validate_drop_move] at h
  | succ n =>
    rw [validate_drop_move] at h
    by_cases c1 : (!m.to_.is_valid || m.drop_piece == PieceType.None) = true
    · simp [c1] at h
    simp only [c1, if_false] at h
    by_cases c2 : (!(bs.get_piece m.to_).is_empty) = true
    · simp [c2] at h
    simp only [c2, if_false] at h
    by_cases c3 : (bs.get_hand_count bs.current_player m.drop_piece == 0) = true
    · simp [c3] at h
    exact ⟨by simpa using (by simpa using c1 : m.to_.is_valid = true ∧ _).1, by simpa using c3⟩

theorem mem_drop_candidates (bs : BoardState) (player : Player) (to_ : Position)
    (kind : PieceType) (hv : to_.is_valid = true) (hh : bs.get_hand_count player kind ≠ 0) :
    Move.drop to_ kind ∈ drop_candidates bs player := by
  unfold drop_candidates
  rw [List.mem_flatMap]
  have key : ∀ i, i < 7 → piece_types.getD i PieceType.None = kind →
      (bs.get_hand player).getD i 0 ≠ 0 →
      ∃ a ∈ List.range 7, Move.drop to_ kind ∈
        (if (bs.get_hand player).getD a 0 > 0 then
          all_squares.map (fun t => Move.drop t (piece_types.getD a PieceType.None))
        else []) := by
    intro i hi hk hpos
    refine ⟨i, List.mem_range.mpr hi, ?_⟩
    rw [if_pos (Nat.pos_of_ne_zero hpos), List.mem_map]
    exact ⟨to_, mem_all_squares _ hv, by rw [hk]⟩
  cases kind <;>
    first
    | exact absurd rfl hh
    | exact key 0 (by decide) rfl hh
    | exact key 1 (by decide) rfl hh
    | exact key 2 (by decide) rfl hh
    | exact key 3 (by decide) rfl hh
    | exact key 4 (by decide) rfl hh
    | exact key 5 (by decide) rfl hh
    | exact key 6 (by decide) rfl hh

theorem collect_drops_mem (v : Move → Option GameExpected) (l : List Move) (m : Move)
    (r : GameExpected) (hm : m ∈ l) (hv : v m = some r) (hr : r.has_value = true) :
    ∀ drops, collect_drops v l = some drops → m ∈ drops := by
  induction l with
  | nil => simp at hm
  | cons a as ih =>
    intro drops h
    unfold collect_drops at h
    cases h1 : v a with
    | none => simp [h1] at h
    | some ra =>
      rw [h1] at h
      cases h2 : collect_drops v as with
      | none => simp [h2] at h
      | some rest =>
        rw [h2] at h
        simp only [Option.some.injEq] at h
        rcases List.mem_cons.mp hm with heq | hmem
        · subst heq
          rw [hv] at h1
          cases h1
          rw [hr] at h
          rw [← h]
          exact List.mem_cons_self _ _
        · have := ih hmem rest h2
          rw [← h]
          split
          · exact List.mem_cons_of_mem _ this
          · exact this

/-- Whenever `get_legal_moves` does return a list, the list holds, for every
move `make_move` accepts, a move with the same origin, destination and
promotion flag (normal move) or the same destination and kind (drop). -/
theorem get_legal_moves_complete (fuel fuel1 : Nat) (g g1 : GameLogic) (m : Move) (b : Bool)
    (moves : List Move)
    (hacc : make_move fuel g m = some (GameExpected.value b, g1))
    (hmoves : get_legal_moves fuel1 g = some moves) :
    ∃ m1 ∈ moves, m1.is_drop = m.is_drop ∧ m1.to_ = m.to_ ∧
      (m.is_drop = false → m1.from_ = m.from_ ∧ m1.is_promotion = m.is_promotion) ∧
      (m.is_drop = true → m1.drop_piece = m.drop_piece) := by
  unfold get_legal_moves generate_all_moves generate_all_moves_with at hmoves
  cases hcd : collect_drops (validate_drop_move fuel1 g.m_board_state)
      (drop_candidates g.m_board_state g.m_board_state.current_player) with
  | none => simp [hcd] at hmoves
  | some drops =>
    rw [hcd] at hmoves
    simp only [Option.some.injEq] at hmoves
    simp only [make_move] at hacc
    by_cases c1 : (g.m_game_result != GameResult.None) = true
    · simp [c1] at hacc
    simp only [c1, if_false] at hacc
    cases hd : m.is_drop with
    | false =>
      simp only [hd, Bool.false_eq_true, if_false] at hacc
      cases hv : validate_normal_move g.m_board_state m with
      | error e => simp [hv] at hacc
      | value bv =>
        refine ⟨Move.normal m.from_ m.to_ m.is_promotion, ?_, rfl, rfl, fun _ => ⟨rfl, rfl⟩,
          fun h => absurd h (by simp)⟩
        rw [← hmoves]
        exact List.mem_append_left _ (mem_generate_normal_moves _ m bv hv)
    | true =>
      simp only [hd, if_true] at hacc
      cases hv : validate_drop_move fuel g.m_board_state m with
      | none => simp [hv] at hacc
      | some r =>
        cases r with
        | error e => simp [hv] at hacc
        | value bv =>
          obtain ⟨hvalid, hhand⟩ := validate_drop_move_value fuel _ m bv hv
          have hcand := mem_drop_candidates g.m_board_state g.m_board_state.current_player
            m.to_ m.drop_piece hvalid hhand
          have hbig : validate_drop_move (max fuel fuel1) g.m_board_state
              (Move.drop m.to_ m.drop_piece) = some (GameExpected.value bv) := by
            rw [validate_drop_move_drop _ _ m hd]
            exact validate_drop_move_mono _ _ _ fuel _ (le_max_left _ _) hv
          have hcd2 := collect_drops_congr (validate_drop_move fuel1 g.m_board_state)
            (validate_drop_move (max fuel fuel1) g.m_board_state) _
            (fun x rx hx => validate_drop_move_mono _ _ _ fuel1 _ (le_max_right _ _) hx)
            drops hcd
          have hin := collect_drops_mem _ _ _ _ hcand hbig rfl drops hcd2
          refine ⟨Move.drop m.to_ m.drop_piece, ?_, rfl, rfl, fun h => absurd h (by simp),
            fun _ => rfl⟩
          rw [← hmoves]
          exact List.mem_append_right _ hin

end Shogi

namespace Shogi

open BoardState GameLogic

/-! ## Reachable states -/

theorem play_reachable (fuel : Nat) (ms : List Move) :
    ∀ g g1, Reachable g → play fuel g ms = some g1 → Reachable g1 := by
  induction ms with
  | nil =>
    intro g g1 hg h
    simp only [play, Option.some.injEq] at h
    exact h ▸ hg
  | cons m rest ih =>
    intro g g1 hg h
    unfold play at h
    cases hm : make_move fuel g m with
    | none => simp [hm] at h
    | some r =>
      obtain ⟨res, g2⟩ := r
      cases res with
      | error e => simp [hm] at h
      | value b =>
        simp only [hm] at h
        exact ih g2 g1 (Reachable.move fuel g g2 m _ hg hm) h

theorem initial_game_reachable : Reachable initial_game := Reachable.reset initial_game

theorem tokin_line_plays : play 1 initial_game tokin_line = some tokin_game := by decide!

theorem tokin_game_reachable : Reachable tokin_game :=
  play_reachable 1 tokin_line _ _ initial_game_reachable tokin_line_plays

theorem mate_line_plays : play 2 initial_game mate_line = some mate_game := by decide!

theorem mate_game_reachable : Reachable mate_game :=
  play_reachable 2 mate_line _ _ initial_game_reachable mate_line_plays

theorem c5_opening_plays : play 1 initial_game c5_opening = some c5_game := by decide!

theorem c5_game_reachable : Reachable c5_game :=
  play_reachable 1 c5_opening _ _ initial_game_reachable c5_opening_plays

/-- When `check_game_end` returns and leaves the result None, the move list of
the side to move was generated on the way (by `is_checkmate` when in check, by
`is_stalemate` otherwise). -/
theorem check_game_end_generates (fuel : Nat) (g g1 : GameLogic)
    (h : check_game_end fuel g = some g1) (hres : g1.m_game_result = GameResult.None) :
    g1 = g ∧ ∃ moves, get_legal_moves fuel g = some moves := by
  simp only [check_game_end] at h
  cases hc : is_checkmate fuel g.m_board_state g.m_board_state.current_player with
  | none => simp [hc] at h
  | some bc =>
    rw [hc] at h
    cases bc with
    | true =>
      simp only [Option.some.injEq] at h
      rw [← h] at hres
      exfalso
      revert hres
      simp only
      split <;> simp
    | false =>
      simp only at h
      cases hs : is_stalemate fuel g.m_board_state with
      | none => simp [hs] at h
      | some bs =>
        rw [hs] at h
        cases bs with
        | true =>
          simp only [Option.some.injEq] at h
          rw [← h] at hres
          simp at hres
        | false =>
          simp only [Option.some.injEq] at h
          refine ⟨h.symm, ?_⟩
          unfold get_legal_moves
          by_cases hchk : GameLogic.is_in_check g.m_board_state
              g.m_board_state.current_player = true
          · simp only [is_checkmate, hchk, Bool.not_true, Bool.false_eq_true, if_false] at hc
            cases hg : generate_all_moves fuel g.m_board_state
                g.m_board_state.current_player with
            | none => simp [hg] at hc
            | some moves => exact ⟨moves, rfl⟩
          · simp only [is_stalemate, hchk, if_false] at hs
            cases hg : generate_all_moves fuel g.m_board_state
                g.m_board_state.current_player with
            | none => simp [hg] at hs
            | some moves => exact ⟨moves, rfl⟩

theorem switch_player_current (bs : BoardState) :
    bs.switch_player.current_player = other_player bs.current_player := rfl

/-- On every reachable state whose result is None, `get_legal_moves` returns. -/
theorem get_legal_moves_returns (g : GameLogic) (hreach : Reachable g)
    (hres : g.m_game_result = GameResult.None) :
    ∃ fuel moves, get_legal_moves fuel g = some moves := by
  induction hreach with
  | reset g0 =>
    refine ⟨0, generate_normal_moves initial_position Player.First, ?_⟩
    rw [reset_game_eq]
    show generate_all_moves_with (validate_drop_move 0 initial_position) initial_position
      Player.First = _
    unfold generate_all_moves_with
    rw [initial_drop_candidates]
    simp [collect_drops]
  | move fuel g0 g1 m r _ hmove ih =>
    simp only [make_move] at hmove
    by_cases c1 : (g0.m_game_result != GameResult.None) = true
    · rw [if_pos c1] at hmove
      simp only [Option.some.injEq, Prod.mk.injEq] at hmove
      rw [← hmove.2] at hres
      simp [hres] at c1
    rw [if_neg c1] at hmove
    cases hv : (if m.is_drop = true then validate_drop_move fuel g0.m_board_state m
        else some (validate_normal_move g0.m_board_state m)) with
    | none => simp [hv] at hmove
    | some v =>
      rw [hv] at hmove
      cases v with
      | error e =>
        simp only [Option.some.injEq, Prod.mk.injEq] at hmove
        rw [← hmove.2] at hres ⊢
        exact ih hres
      | value b =>
        simp only at hmove
        by_cases c2 : would_be_in_check_after_move g0.m_board_state m
            g0.m_board_state.current_player = true
        · rw [if_pos c2] at hmove
          simp only [Option.some.injEq, Prod.mk.injEq] at hmove
          rw [← hmove.2] at hres ⊢
          exact ih hres
        · rw [if_neg c2] at hmove
          cases hce : check_game_end fuel
              { m_board_state := (execute_move g0.m_board_state m).switch_player,
                m_game_result := g0.m_game_result } with
          | none => simp [hce] at hmove
          | some g3 =>
            rw [hce] at hmove
            simp only [Option.some.injEq, Prod.mk.injEq] at hmove
            rw [← hmove.2] at hres ⊢
            obtain ⟨heq, moves, hmoves⟩ := check_game_end_generates fuel _ g3 hce hres
            rw [heq]
            exact ⟨fuel, moves, hmoves⟩

end Shogi

namespace Shogi

open BoardState GameLogic

/-! ## The claims on `GameLogic` -/

/-- A normal move that passes `validate_normal_move` but leaves the mover in
check is refused with `InCheck`, whatever the fuel. -/
theorem make_move_in_check (fuel : Nat) (g : GameLogic) (move : Move) (b : Bool)
    (hres : g.m_game_result = GameResult.None) (hdrop : move.is_drop = false)
    (hval : validate_normal_move g.m_board_state move = GameExpected.value b)
    (hchk : would_be_in_check_after_move g.m_board_state move
      g.m_board_state.current_player = true) :
    make_move fuel g move = some (GameExpected.error GameError.InCheck, g) := by
  simp [make_move, hres, hdrop, hval, hchk]

/-- C5 (the code departs from it): three accepted moves from the initial
position reach `c5_game`, whose result is None and where Second is in check;
`get_legal_moves` returns a list containing `c5_move`, and `make_move` refuses
`c5_move` with `InCheck` because it leaves Second's king attacked. -/
theorem C5_get_legal_moves_returns_self_check :
    play 1 initial_game c5_opening = some c5_game ∧
    c5_game.m_game_result = GameResult.None ∧
    (∃ moves, get_legal_moves 1 c5_game = some moves ∧ c5_move ∈ moves) ∧
    would_be_in_check_after_move c5_board c5_move Player.Second = true ∧
    (∀ fuel, make_move fuel c5_game c5_move =
      some (GameExpected.error GameError.InCheck, c5_game)) := by
  refine ⟨c5_opening_plays, by decide!, ⟨generate_normal_moves c5_board Player.Second,
    by decide!, by decide!⟩, by decide!, ?_⟩
  intro fuel
  exact make_move_in_check fuel c5_game c5_move true (by decide!) (by decide!) (by decide!)
    (by decide!)

/-- C6: on every state the engine can be in (reached from `reset_game` by
returning `make_move` calls) whose result is None, `get_legal_moves` returns a
list (the same for every fuel from some point on), and for every move that
`make_move` accepts the list holds a move with the same origin, destination
and promotion flag (normal move) or the same destination and kind (drop). -/
theorem C6_accepted_move_is_listed (g : GameLogic) (hreach : Reachable g)
    (hres : g.m_game_result = GameResult.None) (m : Move) (fuel : Nat) (b : Bool)
    (g1 : GameLogic) (hacc : make_move fuel g m = some (GameExpected.value b, g1)) :
    ∃ fuel0 moves, (∀ fuel1, fuel0 ≤ fuel1 → get_legal_moves fuel1 g = some moves) ∧
      ∃ m1 ∈ moves, m1.is_drop = m.is_drop ∧ m1.to_ = m.to_ ∧
        (m.is_drop = false → m1.from_ = m.from_ ∧ m1.is_promotion = m.is_promotion) ∧
        (m.is_drop = true → m1.drop_piece = m.drop_piece) := by
  obtain ⟨fuel0, moves, h⟩ := get_legal_moves_returns g hreach hres
  exact ⟨fuel0, moves,
    fun fuel1 hle => generate_all_moves_mono _ _ moves fuel0 fuel1 hle h,
    get_legal_moves_complete fuel fuel0 g g1 m b moves hacc h⟩

/-- C6 at `tokin_game`, reached by `tokin_line`, for the pawn drop on (4,4). -/
theorem C6_accepted_move_is_listed_witness :
    make_move 1 tokin_game c6_drop = some (GameExpected.value true,
      ⟨(execute_move tokin_board c6_drop).switch_player, GameResult.None⟩) ∧
    ∃ fuel0 moves, (∀ fuel1, fuel0 ≤ fuel1 → get_legal_moves fuel1 tokin_game = some moves) ∧
      ∃ m1 ∈ moves, m1.is_drop = c6_drop.is_drop ∧ m1.to_ = c6_drop.to_ ∧
        (c6_drop.is_drop = false →
          m1.from_ = c6_drop.from_ ∧ m1.is_promotion = c6_drop.is_promotion) ∧
        (c6_drop.is_drop = true → m1.drop_piece = c6_drop.drop_piece) :=
  have hacc : make_move 1 tokin_game c6_drop = some (GameExpected.value true,
      ⟨(execute_move tokin_board c6_drop).switch_player, GameResult.None⟩) := by decide!
  ⟨hacc, C6_accepted_move_is_listed tokin_game tokin_game_reachable rfl c6_drop 1 true _ hacc⟩

/-- Off the reachable states the list may never come: on `stuck_board` the
validation of `stuck_drop` re-enters itself for every fuel, `get_legal_moves`
never returns, and so no play reaches this state. -/
theorem stuck_board_unreachable :
    (∀ fuel, validate_drop_move fuel stuck_board stuck_drop = none) ∧
    (∀ fuel, get_legal_moves fuel ⟨stuck_board, GameResult.None⟩ = none) ∧
    ¬ Reachable ⟨stuck_board, GameResult.None⟩ := by
  have hdrop : ∀ fuel, validate_drop_move fuel stuck_board stuck_drop = none :=
    validate_drop_move_never_returns stuck_board stuck_drop (by decide!) (by decide!)
      (by decide!) (by decide!) (by decide!) (by decide!) (by decide!)
  have hgen : ∀ fuel, get_legal_moves fuel ⟨stuck_board, GameResult.None⟩ = none :=
    generate_all_moves_never_returns stuck_board Player.First stuck_drop (by decide!) hdrop
  refine ⟨hdrop, hgen, ?_⟩
  intro hr
  obtain ⟨fuel, moves, h⟩ := get_legal_moves_returns _ hr rfl
  rw [hgen fuel] at h
  exact absurd h (by simp)

theorem is_nifu_violation_of_pawn (bs : BoardState) (move : Move) (row : Int)
    (hkind : move.drop_piece = PieceType.Pawn) (h0 : 0 ≤ row) (h9 : row < 9)
    (hpawn : bs.get_piece ⟨row, move.to_.col⟩ = ⟨PieceType.Pawn, bs.current_player⟩) :
    is_nifu_violation bs move = true := by
  unfold is_nifu_violation
  simp only [hkind, bne_self_eq_false, Bool.false_eq_true, if_false]
  rw [List.any_eq_true]
  refine ⟨row.toNat, ?_, ?_⟩
  · rw [List.mem_range]; omega
  · have hr : ((row.toNat : Nat) : Int) = row := Int.toNat_of_nonneg h0
    simp [hr, hpawn]

/-- C7, amended: when the game is not over and a pawn drop lands on a valid,
empty square while the side to move holds a pawn, a file that already holds an
unpromoted pawn of the side to move makes `make_move` fail with `TwoPathRule`,
leaving the state as it was. -/
theorem C7_nifu_drop_rejected (fuel : Nat) (g : GameLogic) (move : Move) (row : Int)
    (hres : g.m_game_result = GameResult.None)
    (hdrop : move.is_drop = true) (hkind : move.drop_piece = PieceType.Pawn)
    (hvalid : move.to_.is_valid = true)
    (hempty : (g.m_board_state.get_piece move.to_).is_empty = true)
    (hhand : g.m_board_state.get_hand_count g.m_board_state.current_player PieceType.Pawn ≠ 0)
    (h0 : 0 ≤ row) (h9 : row < 9)
    (hpawn : g.m_board_state.get_piece ⟨row, move.to_.col⟩ =
      ⟨PieceType.Pawn, g.m_board_state.current_player⟩) :
    make_move (fuel + 1) g move = some (GameExpected.error GameError.TwoPathRule, g) := by
  have hn := is_nifu_violation_of_pawn g.m_board_state move row hkind h0 h9 hpawn
  have hv : validate_drop_move (fuel + 1) g.m_board_state move =
      some (GameExpected.error GameError.TwoPathRule) := by
    rw [validate_drop_move]
    simp [hvalid, hkind, hempty, hhand, hn]
  simp [make_move, hres, hdrop, hv]

/-- C7, amended, at `tokin_game`: First holds a pawn, has a pawn on (6,0), and
drops on the empty (5,0). -/
theorem C7_nifu_drop_rejected_witness :
    tokin_game.m_board_state.get_piece ⟨6, 0⟩ = ⟨PieceType.Pawn, Player.First⟩ ∧
    make_move 1 tokin_game c7_drop =
      some (GameExpected.error GameError.TwoPathRule, tokin_game) :=
  ⟨by decide!, C7_nifu_drop_rejected 0 tokin_game c7_drop 6 (by decide!) (by decide!)
    (by decide!) (by decide!) (by decide!) (by decide!) (by decide!) (by decide!) (by decide!)⟩

/-- C7 as stated fails. In the initial position First has a pawn on (6,0) and
none in hand: the pawn drop on the empty (5,0) is refused with `InvalidDrop`.
On `tokin_game` First holds a pawn: the drop on the occupied (6,0) is refused
with `InvalidDrop`, the drop off the board on column 0 with `InvalidPosition`.
On the finished `mated_game` Second has a pawn on (2,0): the drop on (3,0) is
refused with `GameOver`. None returns `TwoPathRule`. -/
theorem C7_counterexample :
    (initial_position.get_piece ⟨6, 0⟩ = ⟨PieceType.Pawn, initial_position.current_player⟩ ∧
      make_move 1 initial_game c7_drop =
        some (GameExpected.error GameError.InvalidDrop, initial_game)) ∧
    (tokin_board.get_piece ⟨6, 0⟩ = ⟨PieceType.Pawn, tokin_board.current_player⟩ ∧
      make_move 1 tokin_game c7_drop_occupied =
        some (GameExpected.error GameError.InvalidDrop, tokin_game) ∧
      make_move 1 tokin_game c7_drop_off_board =
        some (GameExpected.error GameError.InvalidPosition, tokin_game)) ∧
    (mated_game.m_board_state.get_piece ⟨2, 0⟩ =
        ⟨PieceType.Pawn, mated_game.m_board_state.current_player⟩ ∧
      make_move 1 mated_game c7_drop_game_over =
        some (GameExpected.error GameError.GameOver, mated_game)) := by
  decide!

theorem mate_drop_plays :
    make_move 2 mate_game c8_drop = some (GameExpected.value true, mated_game) := by decide!

/-- C8 (the code departs from it): twenty accepted moves from the initial
position reach `mate_game`. There First holds a pawn, (1,8) is empty and free
of nifu, and after the drop Second is in check with every available move
leaving the king attacked; yet `validate_drop_move` accepts the drop (never
`DropMateRule`), and `make_move` plays it and at once records the checkmate as
a win for First. -/
theorem C8_pawn_drop_mate_is_accepted :
    play 2 initial_game mate_line = some mate_game ∧
    mate_board.get_hand_count mate_board.current_player PieceType.Pawn = 1 ∧
    (mate_board.get_piece c8_drop.to_).is_empty = true ∧
    is_nifu_violation mate_board c8_drop = false ∧
    (simulate_move mate_board c8_drop).is_in_check Player.Second = true ∧
    no_escape (simulate_move mate_board c8_drop) Player.Second = true ∧
    validate_drop_move 2 mate_board c8_drop = some (GameExpected.value true) ∧
    (∀ fuel, validate_drop_move fuel mate_board c8_drop ≠
      some (GameExpected.error GameError.DropMateRule)) ∧
    make_move 2 mate_game c8_drop = some (GameExpected.value true, mated_game) ∧
    mated_game.m_game_result = GameResult.FirstPlayerWin := by
  have h2 : validate_drop_move 2 mate_board c8_drop = some (GameExpected.value true) := by
    decide!
  refine ⟨mate_line_plays, by decide!, by decide!, by decide!, by decide!, by decide!, h2, ?_,
    mate_drop_plays, rfl⟩
  intro fuel h
  have ha := validate_drop_move_mono mate_board c8_drop _ fuel (max fuel 2) (le_max_left _ _) h
  have hb := validate_drop_move_mono mate_board c8_drop _ 2 (max fuel 2) (le_max_right _ _) h2
  rw [ha] at hb
  exact absurd hb (by decide)

/-- C9 (the code departs from it): eight accepted moves from the initial
position reach `tokin_game`. The pawn dropped there on (1,4) gives check, but
Second's gold on (0,3) may take it (`c9_escape` is a valid move that leaves the
king unattacked, and `is_checkmate` on the position after the drop says no);
yet `validate_drop_move` and `make_move` refuse the drop with `DropMateRule`. -/
theorem C9_drop_mate_rule_without_mate :
    play 1 initial_game tokin_line = some tokin_game ∧
    (simulate_move tokin_board c9_drop).is_in_check Player.Second = true ∧
    validate_normal_move (simulate_move tokin_board c9_drop).switch_player c9_escape =
      GameExpected.value true ∧
    would_be_in_check_after_move (simulate_move tokin_board c9_drop).switch_player c9_escape
      Player.Second = false ∧
    no_escape (simulate_move tokin_board c9_drop) Player.Second = false ∧
    is_checkmate 1 (simulate_move tokin_board c9_drop).switch_player Player.Second =
      some false ∧
    (∀ fuel, validate_drop_move (fuel + 1) tokin_board c9_drop =
      some (GameExpected.error GameError.DropMateRule)) ∧
    (∀ fuel, make_move (fuel + 1) tokin_game c9_drop =
      some (GameExpected.error GameError.DropMateRule, tokin_game)) := by
  have h1 : validate_drop_move 1 tokin_board c9_drop =
      some (GameExpected.error GameError.DropMateRule) := by decide!
  have h2 : make_move 1 tokin_game c9_drop =
      some (GameExpected.error GameError.DropMateRule, tokin_game) := by decide!
  refine ⟨tokin_line_plays, by decide!, by decide!, by decide!, by decide!, by decide!, ?_, ?_⟩
  · intro fuel
    exact validate_drop_move_mono tokin_board c9_drop _ 1 (fuel + 1) (by omega) h1
  · intro fuel
    exact make_move_mono tokin_game c9_drop _ 1 (fuel + 1) (by omega) h2

end Shogi

namespace Shogi

open BoardState GameLogic

/-! ## More reachable states -/

theorem c15_line_plays : play 1 initial_game c15_line = some c15_game := by decide!

theorem c15_game_reachable : Reachable c15_game :=
  play_reachable 1 c15_line _ _ initial_game_reachable c15_line_plays

theorem c20_line_plays : play 1 initial_game c20_line = some c20_game := by decide!

theorem c20_game_reachable : Reachable c20_game :=
  play_reachable 1 c20_line _ _ initial_game_reachable c20_line_plays

theorem c11_line_plays : play 2 mate_game c11_line = some c11_game := by decide!

theorem c11_game_reachable : Reachable c11_game :=
  play_reachable 2 c11_line _ _ mate_game_reachable c11_line_plays

end Shogi

namespace Shogi

open BoardState GameLogic

/-! ## The tests of `validate_normal_move` and `validate_drop_move` -/

theorem get_piece_invalid (bs : BoardState) (pos : Position) (h : pos.is_valid = false) :
    bs.get_piece pos = Piece.empty := by
  simp [BoardState.get_piece, h]

/-- C12: for a move with valid origin and destination `validate_normal_move`
returns `PieceNotFound` when the origin is empty; else `WrongPlayer` when the
piece is not of the side to move; else `InvalidMove` when the destination is
not among `get_possible_moves`, or the promotion flag is set while
`can_promote` is false, or unset while `must_promote` is true; and a value in
every remaining case. -/
theorem C12_validate_normal_move_cases (bs : BoardState) (m : Move)
    (hfrom : m.from_.is_valid = true) (hto : m.to_.is_valid = true) :
    ((bs.get_piece m.from_).is_empty = true →
      validate_normal_move bs m = GameExpected.error GameError.PieceNotFound) ∧
    ((bs.get_piece m.from_).is_empty = false →
      (bs.get_piece m.from_).owner ≠ bs.current_player →
      validate_normal_move bs m = GameExpected.error GameError.WrongPlayer) ∧
    ((bs.get_piece m.from_).is_empty = false →
      (bs.get_piece m.from_).owner = bs.current_player →
      (m.to_ ∉ PieceMovement.get_possible_moves (bs.get_piece m.from_) m.from_ bs.get_board ∨
        (m.is_promotion = true ∧
          PieceMovement.can_promote (bs.get_piece m.from_) m.from_ m.to_ = false) ∨
        (m.is_promotion = false ∧
          PieceMovement.must_promote (bs.get_piece m.from_) m.to_ = true)) →
      validate_normal_move bs m = GameExpected.error GameError.InvalidMove) ∧
    ((bs.get_piece m.from_).is_empty = false →
      (bs.get_piece m.from_).owner = bs.current_player →
      m.to_ ∈ PieceMovement.get_possible_moves (bs.get_piece m.from_) m.from_ bs.get_board →
      (m.is_promotion = true →
        PieceMovement.can_promote (bs.get_piece m.from_) m.from_ m.to_ = true) →
      (m.is_promotion = false →
        PieceMovement.must_promote (bs.get_piece m.from_) m.to_ = false) →
      validate_normal_move bs m = GameExpected.value true) := by
  refine ⟨?_, ?_, ?_, ?_⟩
  · intro he
    simp [validate_normal_move, hfrom, hto, he]
  · intro he ho
    simp [validate_normal_move, hfrom, hto, he, ho]
  · intro he ho hbad
    unfold validate_normal_move
    simp only [hfrom, hto, he, ho, Bool.not_true, Bool.or_self, Bool.false_eq_true, if_false,
      bne_self_eq_false, PieceMovement.is_valid_move]
    by_cases hmem : m.to_ ∈ PieceMovement.get_possible_moves (bs.get_piece m.from_) m.from_
        bs.get_board
    · rcases hbad with h1 | ⟨hp, hc⟩ | ⟨hp, hm⟩
      · exact absurd hmem h1
      · simp [hmem, hp, hc]
      · simp [hmem, hp, hm]
    · simp [hmem]
  · intro he ho hmem hcan hmust
    unfold validate_normal_move
    simp only [hfrom, hto, he, ho, Bool.not_true, Bool.or_self, Bool.false_eq_true, if_false,
      bne_self_eq_false, PieceMovement.is_valid_move]
    cases hp : m.is_promotion with
    | true => simp [hmem, hcan hp]
    | false => simp [hmem, hmust hp]

/-- C12 on the initial position, for the pawn push (6,4) to (5,4). -/
theorem C12_validate_normal_move_cases_witness :
    validate_normal_move initial_position (Move.normal ⟨6, 4⟩ ⟨5, 4⟩ false) =
      GameExpected.value true :=
  (C12_validate_normal_move_cases initial_position (Move.normal ⟨6, 4⟩ ⟨5, 4⟩ false)
    (by decide!) (by decide!)).2.2.2 (by decide!) (by decide!) (by decide!) (by decide!)
    (by decide!)

end Shogi

namespace Shogi

open BoardState GameLogic

/-- C11, amended: when the game is not over, a normal move without the
promotion flag of a pawn or lance of the side to move onto a square of its
farthest rank, or of a knight of the side to move onto a square of its farthest
two ranks, makes `make_move` fail with `InvalidMove`, leaving the state as it was. -/
theorem C11_unpromoted_move_to_last_rank_rejected (fuel : Nat) (g : GameLogic) (move : Move)
    (hres : g.m_game_result = GameResult.None)
    (hdrop : move.is_drop = false) (hpromo : move.is_promotion = false)
    (hto : move.to_.is_valid = true)
    (howner : (g.m_board_state.get_piece move.from_).owner = g.m_board_state.current_player)
    (hkind :
      (((g.m_board_state.get_piece move.from_).type = PieceType.Pawn ∨
          (g.m_board_state.get_piece move.from_).type = PieceType.Lance) ∧
        move.to_.row = farthest_rank g.m_board_state.current_player) ∨
      ((g.m_board_state.get_piece move.from_).type = PieceType.Knight ∧
        in_farthest_two_ranks g.m_board_state.current_player move.to_.row)) :
    make_move fuel g move = some (GameExpected.error GameError.InvalidMove, g) := by
  have hfrom : move.from_.is_valid = true := by
    cases hv : move.from_.is_valid with
    | true => rfl
    | false =>
      rw [get_piece_invalid _ _ hv] at hkind
      simp [Piece.empty] at hkind
  have hne : (g.m_board_state.get_piece move.from_).is_empty = false := by
    unfold Piece.is_empty
    rcases hkind with ⟨h | h, _⟩ | ⟨h, _⟩ <;> rw [h] <;> rfl
  have hmust : PieceMovement.must_promote (g.m_board_state.get_piece move.from_) move.to_
      = true := by
    unfold PieceMovement.must_promote
    rw [howner]
    cases hc : g.m_board_state.current_player with
    | First =>
      rw [hc] at hkind
      rcases hkind with ⟨h | h, hr⟩ | ⟨h, hr⟩
      · simp [h, hr, farthest_rank]
      · simp [h, hr, farthest_rank]
      · simp only [in_farthest_two_ranks] at hr
        simp [h, hr]
    | Second =>
      rw [hc] at hkind
      rcases hkind with ⟨h | h, hr⟩ | ⟨h, hr⟩
      · simp [h, hr, farthest_rank]
      · simp [h, hr, farthest_rank]
      · simp only [in_farthest_two_ranks] at hr
        simp [h, hr]
  have hv : validate_normal_move g.m_board_state move =
      GameExpected.error GameError.InvalidMove := by
    unfold validate_normal_move
    simp only [hfrom, hto, hne, howner, Bool.not_true, Bool.or_self, Bool.false_eq_true,
      if_false, bne_self_eq_false, hpromo, hmust, if_true]
    split <;> rfl
  simp [make_move, hres, hdrop, hv]

/-- C11, amended, at `c11_game`, reached from `mate_game`: First's lance steps
from (1,4) to the empty (0,4) without the promotion flag. -/
theorem C11_unpromoted_move_to_last_rank_rejected_witness :
    validate_normal_move c11_board { c11_move with is_promotion := true } =
      GameExpected.value true ∧
    make_move 1 c11_game c11_move = some (GameExpected.error GameError.InvalidMove, c11_game) :=
  ⟨by decide!, C11_unpromoted_move_to_last_rank_rejected 1 c11_game c11_move (by decide!)
    (by decide!) (by decide!) (by decide!) (by decide!) (Or.inl ⟨Or.inr (by decide!),
      by decide!⟩)⟩

/-- C11 as stated fails on a finished game: on `mated_game` Second is to move
and has a pawn on (2,0); its move to (8,0), Second's farthest rank, without the
promotion flag is refused with `GameOver`, not `InvalidMove`. -/
theorem C11_counterexample :
    mated_game.m_board_state.get_piece c11_move_game_over.from_ =
      ⟨PieceType.Pawn, mated_game.m_board_state.current_player⟩ ∧
    c11_move_game_over.to_.row = farthest_rank mated_game.m_board_state.current_player ∧
    c11_move_game_over.is_promotion = false ∧
    make_move 1 mated_game c11_move_game_over =
      some (GameExpected.error GameError.GameOver, mated_game) := by
  decide!

/-- The kinds no hand has a counter for are counted as zero. -/
theorem get_hand_count_no_slot (bs : BoardState) (player : Player) (kind : PieceType)
    (h : piece_to_hand_index kind = 7) : bs.get_hand_count player kind = 0 := by
  simp [BoardState.get_hand_count, h]

/-- C13, amended: for a drop of a kind other than `None` on a valid square,
`validate_drop_move` returns `InvalidDrop` whenever the square is occupied and
whenever the side to move holds none of the kind, which is the case for the
king and for every promoted kind. -/
theorem C13_occupied_or_not_held_is_invalid_drop (fuel : Nat) (bs : BoardState) (m : Move)
    (hto : m.to_.is_valid = true) (hkind : m.drop_piece ≠ PieceType.None)
    (h : (bs.get_piece m.to_).is_empty = false ∨
      bs.get_hand_count bs.current_player m.drop_piece = 0 ∨
      m.drop_piece = PieceType.King ∨
      (Piece.mk m.drop_piece bs.current_player).is_promoted = true) :
    validate_drop_move (fuel + 1) bs m = some (GameExpected.error GameError.InvalidDrop) := by
  have h2 : (bs.get_piece m.to_).is_empty = false ∨
      bs.get_hand_count bs.current_player m.drop_piece = 0 := by
    rcases h with h | h | h | h
    · exact Or.inl h
    · exact Or.inr h
    · exact Or.inr (get_hand_count_no_slot _ _ _ (by rw [h]; rfl))
    · refine Or.inr (get_hand_count_no_slot _ _ _ ?_)
      revert h
      cases m.drop_piece <;> simp [Piece.is_promoted, piece_to_hand_index]
  rw [validate_drop_move]
  rcases h2 with h | h
  · simp [hto, hkind, h]
  · cases he : (bs.get_piece m.to_).is_empty <;> simp [hto, hkind, h, he]

/-- C13, amended, on the initial position: First holds no pawn and drops one on the empty (4,4). -/
theorem C13_occupied_or_not_held_is_invalid_drop_witness :
    (initial_position.get_piece c13_drop.to_).is_empty = true ∧
    validate_drop_move 1 initial_position c13_drop =
      some (GameExpected.error GameError.InvalidDrop) :=
  ⟨by decide!, C13_occupied_or_not_held_is_invalid_drop 0 initial_position c13_drop (by decide!)
    (by decide!) (Or.inr (Or.inl (by decide!)))⟩

/-- C13 as stated fails for the kind `None`: on the initial position the side
to move holds zero of it and (4,4) is a valid square, yet `validate_drop_move`
returns `InvalidPosition`, on the empty (4,4) and on the occupied (6,0) alike. -/
theorem C13_counterexample :
    c13_drop_none.to_.is_valid = true ∧
    initial_position.get_hand_count initial_position.current_player
      c13_drop_none.drop_piece = 0 ∧
    validate_drop_move 1 initial_position c13_drop_none =
      some (GameExpected.error GameError.InvalidPosition) ∧
    (initial_position.get_piece ⟨6, 0⟩).is_empty = false ∧
    validate_drop_move 1 initial_position (Move.drop ⟨6, 0⟩ PieceType.None) =
      some (GameExpected.error GameError.InvalidPosition) := by
  decide!

end Shogi

namespace Shogi

open BoardState GameLogic

/-! ## Drops that could never move -/

/-- The state `make_move` leaves with an error is the state it was called on. -/
theorem make_move_error_state (fuel : Nat) (g g1 : GameLogic) (move : Move) (e : GameError)
    (h : make_move fuel g move = some (GameExpected.error e, g1)) : g1 = g := by
  unfold make_move at h
  split at h
  · simp at h; exact h.2.symm
  · split at h
    · simp at h
    · simp at h; exact h.2.symm
    · split at h
      · simp at h; exact h.2.symm
      · simp only at h
        split at h <;> simp at h

theorem drop_rank_check_last_rank (bs : BoardState) (m : Move)
    (hrank :
      ((m.drop_piece = PieceType.Pawn ∨ m.drop_piece = PieceType.Lance) ∧
        m.to_.row = farthest_rank bs.current_player) ∨
      (m.drop_piece = PieceType.Knight ∧ in_farthest_two_ranks bs.current_player m.to_.row)) :
    drop_rank_check bs m = GameExpected.error GameError.InvalidDrop := by
  unfold drop_rank_check
  cases hc : bs.current_player with
  | First =>
    rw [hc] at hrank
    rcases hrank with ⟨h | h, hr⟩ | ⟨h, hr⟩
    · simp [h, hr, farthest_rank]
    · simp [h, hr, farthest_rank]
    · simp only [in_farthest_two_ranks] at hr
      simp [h, hr]
  | Second =>
    rw [hc] at hrank
    rcases hrank with ⟨h | h, hr⟩ | ⟨h, hr⟩
    · simp [h, hr, farthest_rank]
    · simp [h, hr, farthest_rank]
    · simp only [in_farthest_two_ranks] at hr
      simp [h, hr]

/-- Whatever `validate_drop_move` returns for a pawn or lance on the farthest
rank, or a knight on the farthest two, it is an error. -/
theorem validate_drop_move_last_rank (fuel : Nat) (bs : BoardState) (m : Move)
    (r : GameExpected)
    (hrank :
      ((m.drop_piece = PieceType.Pawn ∨ m.drop_piece = PieceType.Lance) ∧
        m.to_.row = farthest_rank bs.current_player) ∨
      (m.drop_piece = PieceType.Knight ∧ in_farthest_two_ranks bs.current_player m.to_.row))
    (h : validate_drop_move fuel bs m = some r) : r.has_value = false := by
  have hd := drop_rank_check_last_rank bs m hrank
  cases fuel with
  | zero => simp [validate_drop_move] at h
  | succ n =>
    rw [validate_drop_move, hd] at h
    split at h
    · simp only [Option.some.injEq] at h; rw [← h]; rfl
    · split at h
      · simp only [Option.some.injEq] at h; rw [← h]; rfl
      · split at h
        · simp only [Option.some.injEq] at h; rw [← h]; rfl
        · split at h
          · simp only [Option.some.injEq] at h; rw [← h]; rfl
          · split at h
            · split at h
              · simp at h
              · simp only [Option.some.injEq] at h; rw [← h]; rfl
              · simp only [Option.some.injEq] at h; rw [← h]; rfl
            · simp only [Option.some.injEq] at h; rw [← h]; rfl

theorem collect_drops_returns (v : Move → Option GameExpected) (l : List Move) (m : Move)
    (hm : m ∈ l) : ∀ drops, collect_drops v l = some drops → ∃ r, v m = some r := by
  induction l with
  | nil => simp at hm
  | cons a as ih =>
    intro drops h
    unfold collect_drops at h
    cases h1 : v a with
    | none => simp [h1] at h
    | some ra =>
      rw [h1] at h
      cases h2 : collect_drops v as with
      | none => simp [h2] at h
      | some rest =>
        rcases List.mem_cons.mp hm with heq | hmem
        · exact ⟨ra, by rw [heq]; exact h1⟩
        · exact ih hmem rest h2

/-- On every reachable state whose result is None, `validate_drop_move` returns
for every drop submitted to it. -/
theorem validate_drop_move_returns (g : GameLogic) (hreach : Reachable g)
    (hres : g.m_game_result = GameResult.None) (m : Move) (hdrop : m.is_drop = true) :
    ∃ fuel r, validate_drop_move fuel g.m_board_state m = some r := by
  by_cases hc : m.to_.is_valid = true ∧
      g.m_board_state.get_hand_count g.m_board_state.current_player m.drop_piece ≠ 0
  · obtain ⟨fuel, moves, h⟩ := get_legal_moves_returns g hreach hres
    unfold get_legal_moves generate_all_moves generate_all_moves_with at h
    cases hcd : collect_drops (validate_drop_move fuel g.m_board_state)
        (drop_candidates g.m_board_state g.m_board_state.current_player) with
    | none => simp [hcd] at h
    | some drops =>
      obtain ⟨r, hr⟩ := collect_drops_returns _ _ _
        (mem_drop_candidates g.m_board_state g.m_board_state.current_player m.to_ m.drop_piece
          hc.1 hc.2) drops hcd
      rw [validate_drop_move_drop _ _ m hdrop] at hr
      exact ⟨fuel, r, hr⟩
  · refine ⟨1, ?_⟩
    rw [validate_drop_move]
    by_cases c1 : (!m.to_.is_valid || m.drop_piece == PieceType.None) = true
    · exact ⟨_, by rw [if_pos c1]⟩
    rw [if_neg c1]
    by_cases c2 : (!(g.m_board_state.get_piece m.to_).is_empty) = true
    · exact ⟨_, by rw [if_pos c2]⟩
    rw [if_neg c2]
    by_cases c3 : (g.m_board_state.get_hand_count g.m_board_state.current_player m.drop_piece
        == 0) = true
    · exact ⟨_, by rw [if_pos c3]⟩
    exfalso
    apply hc
    refine ⟨?_, by simpa using c3⟩
    cases hv : m.to_.is_valid with
    | true => rfl
    | false => simp [hv] at c1

/-- C14: on every state the engine can be in, a drop of a pawn or lance on the
dropping player's farthest rank, or of a knight on its farthest two ranks, is
rejected: `make_move` returns an error (the same for every fuel from some point
on) and leaves the state, and so the board, as it was; on no state at all does
`make_move` return a success for such a drop. -/
theorem C14_immobile_drop_rejected (g : GameLogic) (hreach : Reachable g) (m : Move)
    (hdrop : m.is_drop = true)
    (hrank :
      ((m.drop_piece = PieceType.Pawn ∨ m.drop_piece = PieceType.Lance) ∧
        m.to_.row = farthest_rank g.m_board_state.current_player) ∨
      (m.drop_piece = PieceType.Knight ∧
        in_farthest_two_ranks g.m_board_state.current_player m.to_.row)) :
    (∃ fuel0 e, ∀ fuel, fuel0 ≤ fuel →
      make_move fuel g m = some (GameExpected.error e, g)) ∧
    (∀ fuel r g1, make_move fuel g m = some (r, g1) → r.has_value = false ∧ g1 = g) := by
  have hsafe : ∀ fuel r g1, make_move fuel g m = some (r, g1) → r.has_value = false ∧ g1 = g := by
    intro fuel r g1 h
    have hr : r.has_value = false := by
      simp only [make_move] at h
      by_cases c1 : (g.m_game_result != GameResult.None) = true
      · rw [if_pos c1] at h
        simp only [Option.some.injEq, Prod.mk.injEq] at h
        rw [← h.1]; rfl
      rw [if_neg c1] at h
      simp only [hdrop, if_true] at h
      cases hv : validate_drop_move fuel g.m_board_state m with
      | none => simp [hv] at h
      | some v =>
        have hvv := validate_drop_move_last_rank fuel _ m v hrank hv
        rw [hv] at h
        cases v with
        | error e =>
          simp only [Option.some.injEq, Prod.mk.injEq] at h
          rw [← h.1]; rfl
        | value b => simp [GameExpected.has_value] at hvv
    refine ⟨hr, ?_⟩
    cases r with
    | error e => exact make_move_error_state fuel g g1 m e h
    | value b => simp [GameExpected.has_value] at hr
  refine ⟨?_, hsafe⟩
  by_cases c1 : g.m_game_result = GameResult.None
  · obtain ⟨fuel0, v, hv⟩ := validate_drop_move_returns g hreach c1 m hdrop
    have hvv := validate_drop_move_last_rank fuel0 _ m v hrank hv
    cases v with
    | value b => simp [GameExpected.has_value] at hvv
    | error e =>
      have h0 : make_move fuel0 g m = some (GameExpected.error e, g) := by
        simp [make_move, c1, hdrop, hv]
      exact ⟨fuel0, e, fun fuel hle => make_move_mono g m _ fuel0 fuel hle h0⟩
  · refine ⟨0, GameError.GameOver, fun fuel _ => ?_⟩
    simp [make_move, c1]

/-- C14 at `mate_game`: First holds a lance and drops it on the empty (0,4). -/
theorem C14_immobile_drop_rejected_witness :
    (mate_board.get_piece c14_drop.to_).is_empty = true ∧
    mate_board.get_hand_count Player.First PieceType.Lance = 1 ∧
    make_move 1 mate_game c14_drop =
      some (GameExpected.error GameError.InvalidDrop, mate_game) ∧
    (∃ fuel0 e, ∀ fuel, fuel0 ≤ fuel →
      make_move fuel mate_game c14_drop = some (GameExpected.error e, mate_game)) :=
  ⟨by decide!, by decide!, by decide!,
    (C14_immobile_drop_rejected mate_game mate_game_reachable c14_drop (by decide!)
      (Or.inl ⟨Or.inr (by decide!), by decide!⟩)).1⟩

end Shogi

namespace Shogi

open BoardState GameLogic

/-! ## The self-check test and the end of the game -/

/-- The board `would_be_in_check_after_move` looks at is the board the move leaves when played. -/
theorem simulate_move_eq_execute_move (bs : BoardState) (m : Move) :
    simulate_move bs m = execute_move bs m := by
  unfold simulate_move execute_move execute_drop_move execute_normal_move
  rfl

/-- In a game that is not over, for a move that passes the applicable
validation: if `make_move` returns, it returns `InCheck` exactly when the
mover's king is attacked on the board the move leaves. -/
theorem make_move_in_check_iff (fuel : Nat) (g : GameLogic) (m : Move) (b : Bool)
    (r : GameExpected) (g1 : GameLogic) (hres : g.m_game_result = GameResult.None)
    (hval : applicable_validation fuel g.m_board_state m = some (GameExpected.value b))
    (h : make_move fuel g m = some (r, g1)) :
    (r = GameExpected.error GameError.InCheck ↔
      (execute_move g.m_board_state m).is_in_check g.m_board_state.current_player = true) ∧
    ((execute_move g.m_board_state m).is_in_check g.m_board_state.current_player = false →
      r = GameExpected.value true) := by
  unfold applicable_validation at hval
  simp only [make_move, hres, bne_self_eq_false, Bool.false_eq_true, if_false] at h
  rw [hval] at h
  simp only [would_be_in_check_after_move, simulate_move_eq_execute_move] at h
  cases hc : (execute_move g.m_board_state m).is_in_check g.m_board_state.current_player with
  | true =>
    simp only [hc, if_true, Option.some.injEq, Prod.mk.injEq] at h
    simp [← h.1]
  | false =>
    simp only [hc, Bool.false_eq_true, if_false] at h
    cases hce : check_game_end fuel
        { m_board_state := (execute_move g.m_board_state m).switch_player,
          m_game_result := GameResult.None } with
    | none => simp [hce] at h
    | some g3 =>
      rw [hce] at h
      simp only [Option.some.injEq, Prod.mk.injEq] at h
      simp [← h.1]

/-- When the move list of the new side to move never comes, `make_move` does
not return for a move that passes both of its tests. -/
theorem make_move_never_returns (g : GameLogic) (m : Move) (b : Bool)
    (hres : g.m_game_result = GameResult.None) (hdrop : m.is_drop = false)
    (hval : validate_normal_move g.m_board_state m = GameExpected.value b)
    (hchk : would_be_in_check_after_move g.m_board_state m g.m_board_state.current_player
      = false)
    (hgen : ∀ fuel, generate_all_moves fuel (execute_move g.m_board_state m).switch_player
      ((execute_move g.m_board_state m).switch_player).current_player = none) :
    ∀ fuel, make_move fuel g m = none := by
  intro fuel
  have hce : check_game_end fuel
      { m_board_state := (execute_move g.m_board_state m).switch_player,
        m_game_result := GameResult.None } = none := by
    cases hnot : ((execute_move g.m_board_state m).switch_player).is_in_check
        ((execute_move g.m_board_state m).switch_player).current_player <;>
      simp [check_game_end, is_checkmate, is_stalemate, GameLogic.is_in_check, hnot, hgen fuel]
  simp [make_move, hres, hdrop, hval, hchk, hce]

/-- C15 (the code departs from it): six accepted moves from the initial
position reach `c15_game` (result None). There `c15_move`, the rook taking the
pawn on (4,4), passes `validate_normal_move` and leaves First's king
unattacked, yet `make_move` does not succeed: it never returns, for any fuel.
After the capture both sides hold a pawn and Second could drop one on (7,4)
with check, so the move list `check_game_end` asks for runs into the unbounded
recursion of the pawn-drop test. -/
theorem C15_unattacked_move_never_returns :
    play 1 initial_game c15_line = some c15_game ∧
    c15_game.m_game_result = GameResult.None ∧
    validate_normal_move c15_board c15_move = GameExpected.value true ∧
    (execute_move c15_board c15_move).is_in_check Player.First = false ∧
    c15_after.get_hand Player.First = [0, 0, 0, 0, 0, 0, 1] ∧
    c15_after.get_hand Player.Second = [0, 0, 0, 0, 0, 0, 1] ∧
    (∀ fuel, validate_drop_move fuel c15_after c15_drop = none) ∧
    (∀ fuel, make_move fuel c15_game c15_move = none) := by
  have hdrop : ∀ fuel, validate_drop_move fuel c15_after c15_drop = none :=
    validate_drop_move_never_returns c15_after c15_drop (by decide!) (by decide!) (by decide!)
      (by decide!) (by decide!) (by decide!) (by decide!)
  have hgen : ∀ fuel, generate_all_moves fuel c15_after c15_after.current_player = none :=
    generate_all_moves_never_returns c15_after _ c15_drop (by decide!) hdrop
  refine ⟨c15_line_plays, rfl, by decide!, by decide!, by decide!, by decide!, hdrop, ?_⟩
  exact make_move_never_returns c15_game c15_move true rfl (by decide!) (by decide!)
    (by decide!) hgen

end Shogi

namespace Shogi

open BoardState GameLogic

theorem make_move_game_over (fuel : Nat) (g : GameLogic) (m : Move)
    (hres : g.m_game_result ≠ GameResult.None) :
    make_move fuel g m = some (GameExpected.error GameError.GameOver, g) := by
  simp [make_move, hres]

theorem make_moves_game_over (fuel : Nat) (g : GameLogic)
    (hres : g.m_game_result ≠ GameResult.None) (ms : List Move) :
    make_moves fuel g ms = some g := by
  induction ms with
  | nil => rfl
  | cons m rest ih =>
    unfold make_moves
    rw [make_move_game_over fuel g m hres]
    exact ih

theorem make_moves_append (fuel : Nat) (pre suf : List Move) :
    ∀ g0 g, make_moves fuel g0 pre = some g →
      make_moves fuel g0 (pre ++ suf) = make_moves fuel g suf := by
  induction pre with
  | nil =>
    intro g0 g h
    simp only [make_moves, Option.some.injEq] at h
    simp [h]
  | cons m rest ih =>
    intro g0 g h
    simp only [List.cons_append, make_moves] at h ⊢
    cases hm : make_move fuel g0 m with
    | none => simp [hm] at h
    | some r =>
      simp only [hm] at h ⊢
      exact ih _ g h

/-- C16: once a run of `make_move` calls has brought the result to a value other
than None, every further `make_move`, with any move, returns `GameOver` and
leaves the state (the result included) as it is, so any continuation of the run
ends in that same state; `reset_game` sets the result to None. -/
theorem C16_result_is_final (fuel : Nat) (g0 g : GameLogic) (pre : List Move)
    (hrun : make_moves fuel g0 pre = some g) (hres : g.m_game_result ≠ GameResult.None) :
    (∀ m, make_move fuel g m = some (GameExpected.error GameError.GameOver, g)) ∧
    (∀ suf, make_moves fuel g0 (pre ++ suf) = some g) ∧
    (∀ g2 : GameLogic, (reset_game g2).m_game_result = GameResult.None) := by
  refine ⟨fun m => make_move_game_over fuel g m hres, fun suf => ?_, fun _ => rfl⟩
  rw [make_moves_append fuel pre suf g0 g hrun]
  exact make_moves_game_over fuel g hres suf

/-- C16 at `mated_game`, which the pawn drop `c8_drop` reaches from `mate_game`. -/
theorem C16_result_is_final_witness :
    make_moves 2 mate_game [c8_drop] = some mated_game ∧
    mated_game.m_game_result = GameResult.FirstPlayerWin ∧
    (∀ m, make_move 2 mated_game m = some (GameExpected.error GameError.GameOver, mated_game)) :=
  have hrun : make_moves 2 mate_game [c8_drop] = some mated_game := by
    simp [make_moves, mate_drop_plays]
  ⟨hrun, rfl, (C16_result_is_final 2 mate_game mated_game [c8_drop] hrun (by decide)).1⟩

theorem set_piece_current (bs : BoardState) (pos : Position) (piece : Piece) :
    (bs.set_piece pos piece).m_current_player = bs.m_current_player := by
  unfold BoardState.set_piece
  split
  · rfl
  · split <;> rfl

theorem add_to_hand_current (bs : BoardState) (player : Player) (kind : PieceType) :
    (bs.add_to_hand player kind).m_current_player = bs.m_current_player := by
  unfold BoardState.add_to_hand
  simp only
  split
  · cases player <;> rfl
  · rfl

theorem remove_from_hand_current (bs : BoardState) (player : Player) (kind : PieceType) :
    (bs.remove_from_hand player kind).2.m_current_player = bs.m_current_player := by
  unfold BoardState.remove_from_hand
  simp only
  split
  · rfl
  · split
    · cases player <;> rfl
    · rfl

/-- Playing a move on the board does not change whose turn the board records;
`make_move` switches the player afterwards. -/
theorem execute_move_current (bs : BoardState) (m : Move) :
    (execute_move bs m).current_player = bs.current_player := by
  unfold execute_move execute_drop_move execute_normal_move BoardState.current_player
    BoardState.clear_piece
  split
  · simp only [set_piece_current, remove_from_hand_current]
  · simp only [set_piece_current]
    split
    · exact add_to_hand_current _ _ _
    · rfl

/-- C17: after a successful `make_move` the side to move is the other player
`p`, `is_checkmate(p)` has returned, and the result is the win of the player
who just moved if it returned true; otherwise `is_stalemate()` has returned and
the result is Draw if it returned true and None if not. -/
theorem C17_result_after_move (fuel : Nat) (g g1 : GameLogic) (m : Move) (b : Bool)
    (hacc : make_move fuel g m = some (GameExpected.value b, g1)) :
    g1.m_board_state.current_player = other_player g.m_board_state.current_player ∧
    ∃ c, is_checkmate fuel g1.m_board_state g1.m_board_state.current_player = some c ∧
      (c = true → g1.m_game_result = win_of g.m_board_state.current_player) ∧
      (c = false → ∃ s, is_stalemate fuel g1.m_board_state = some s ∧
        (s = true → g1.m_game_result = GameResult.Draw) ∧
        (s = false → g1.m_game_result = GameResult.None)) := by
  simp only [make_move] at hacc
  by_cases c1 : (g.m_game_result != GameResult.None) = true
  · rw [if_pos c1] at hacc
    simp at hacc
  rw [if_neg c1] at hacc
  have hres : g.m_game_result = GameResult.None := by simpa using c1
  cases hv : (if m.is_drop = true then validate_drop_move fuel g.m_board_state m
      else some (validate_normal_move g.m_board_state m)) with
  | none => simp [hv] at hacc
  | some v =>
    rw [hv] at hacc
    cases v with
    | error e => simp at hacc
    | value bv =>
      simp only at hacc
      by_cases c2 : would_be_in_check_after_move g.m_board_state m
          g.m_board_state.current_player = true
      · rw [if_pos c2] at hacc
        simp at hacc
      rw [if_neg c2] at hacc
      cases hce : check_game_end fuel
          { m_board_state := (execute_move g.m_board_state m).switch_player,
            m_game_result := g.m_game_result } with
      | none => simp [hce] at hacc
      | some g3 =>
        rw [hce] at hacc
        simp only [Option.some.injEq, Prod.mk.injEq] at hacc
        rw [← hacc.2]
        have hcur : ((execute_move g.m_board_state m).switch_player).current_player =
            other_player g.m_board_state.current_player := by
          rw [switch_player_current, execute_move_current]
        simp only [check_game_end] at hce
        cases hc : is_checkmate fuel (execute_move g.m_board_state m).switch_player
            ((execute_move g.m_board_state m).switch_player).current_player with
        | none => simp [hc] at hce
        | some c =>
          rw [hc] at hce
          cases c with
          | true =>
            simp only [Option.some.injEq] at hce
            rw [← hce]
            refine ⟨hcur, true, hc, fun _ => ?_, fun h => absurd h (by simp)⟩
            simp only [hcur]
            cases g.m_board_state.current_player <;> simp [other_player, win_of]
          | false =>
            simp only at hce
            cases hs : is_stalemate fuel (execute_move g.m_board_state m).switch_player with
            | none => simp [hs] at hce
            | some s =>
              rw [hs] at hce
              cases s with
              | true =>
                simp only [Option.some.injEq] at hce
                rw [← hce]
                exact ⟨hcur, false, hc, fun h => absurd h (by simp), fun _ =>
                  ⟨true, hs, fun _ => rfl, fun h => absurd h (by simp)⟩⟩
              | false =>
                simp only [Option.some.injEq] at hce
                rw [← hce]
                exact ⟨hcur, false, hc, fun h => absurd h (by simp), fun _ =>
                  ⟨false, hs, fun h => absurd h (by simp), fun _ => hres⟩⟩

/-- C17 at the pawn drop `c8_drop` on `mate_game`: Second, the new side to move,
is checkmated and the result is the win of First. -/
theorem C17_result_after_move_witness :
    make_move 2 mate_game c8_drop = some (GameExpected.value true, mated_game) ∧
    is_checkmate 2 mated_game.m_board_state Player.Second = some true ∧
    mated_game.m_game_result = win_of Player.First :=
  have h := C17_result_after_move 2 mate_game mated_game c8_drop true mate_drop_plays
  ⟨mate_drop_plays, by
    obtain ⟨_, c, hc, hwin, hrest⟩ := h
    cases c with
    | true => exact hc
    | false =>
      obtain ⟨s, _, h1, h2⟩ := hrest rfl
      cases s with
      | true => exact absurd (h1 rfl) (by decide)
      | false => exact absurd (h2 rfl) (by decide), rfl⟩

end Shogi

namespace Shogi

open BoardState GameLogic

/-! ## The move list against the legal moves -/

theorem simulate_move_normal (bs : BoardState) (m : Move) (h : m.is_drop = false) :
    simulate_move bs (Move.normal m.from_ m.to_ m.is_promotion) = simulate_move bs m := by
  simp [simulate_move, Move.normal, h]

/-- Every move that passes the applicable validation has a twin in the list
`generate_all_moves` returns for the side to move: a listed move that leaves
the same board when played. -/
theorem listed_of_validated (fuel fuel1 : Nat) (bs : BoardState) (m : Move) (b : Bool)
    (moves : List Move)
    (hv : applicable_validation fuel bs m = some (GameExpected.value b))
    (hmoves : generate_all_moves fuel1 bs bs.current_player = some moves) :
    ∃ m1 ∈ moves, simulate_move bs m1 = simulate_move bs m := by
  unfold generate_all_moves generate_all_moves_with at hmoves
  cases hcd : collect_drops (validate_drop_move fuel1 bs)
      (drop_candidates bs bs.current_player) with
  | none => simp [hcd] at hmoves
  | some drops =>
    rw [hcd] at hmoves
    simp only [Option.some.injEq] at hmoves
    unfold applicable_validation at hv
    cases hd : m.is_drop with
    | false =>
      simp only [hd, Bool.false_eq_true, if_false, Option.some.injEq] at hv
      refine ⟨Move.normal m.from_ m.to_ m.is_promotion, ?_, simulate_move_normal bs m hd⟩
      rw [← hmoves]
      exact List.mem_append_left _ (mem_generate_normal_moves _ m b hv)
    | true =>
      simp only [hd, if_true] at hv
      obtain ⟨hvalid, hhand⟩ := validate_drop_move_value fuel _ m b hv
      have hcand := mem_drop_candidates bs bs.current_player m.to_ m.drop_piece hvalid hhand
      have hbig : validate_drop_move (max fuel fuel1) bs (Move.drop m.to_ m.drop_piece) =
          some (GameExpected.value b) := by
        rw [validate_drop_move_drop _ _ m hd]
        exact validate_drop_move_mono _ _ _ fuel _ (le_max_left _ _) hv
      have hcd2 := collect_drops_congr (validate_drop_move fuel1 bs)
        (validate_drop_move (max fuel fuel1) bs) _
        (fun x rx hx => validate_drop_move_mono _ _ _ fuel1 _ (le_max_right _ _) hx)
        drops hcd
      have hin := collect_drops_mem _ _ _ _ hcand hbig rfl drops hcd2
      refine ⟨Move.drop m.to_ m.drop_piece, ?_, simulate_move_drop bs m hd⟩
      rw [← hmoves]
      exact List.mem_append_right _ hin

theorem has_value_iff (r : GameExpected) : r.has_value = true ↔ ∃ b, r = GameExpected.value b := by
  cases r with
  | error e => simp [GameExpected.has_value]
  | value b => simp [GameExpected.has_value]

theorem generate_normal_moves_sound (bs : BoardState) (player : Player) (m : Move)
    (h : m ∈ generate_normal_moves bs player) :
    m.is_drop = false ∧ (validate_normal_move bs m).has_value = true := by
  unfold generate_normal_moves at h
  rw [List.mem_flatMap] at h
  obtain ⟨from_, _, h⟩ := h
  simp only at h
  split at h
  · simp at h
  · rw [List.mem_flatMap] at h
    obtain ⟨to_, _, h⟩ := h
    rw [List.mem_append] at h
    rcases h with h | h
    · split at h
      · rename_i hv
        simp only [List.mem_singleton] at h
        rw [h]
        exact ⟨rfl, hv⟩
      · simp at h
    · split at h
      · split at h
        · rename_i hv
          simp only [List.mem_singleton] at h
          rw [h]
          exact ⟨rfl, hv⟩
        · simp at h
      · simp at h

theorem drop_candidates_is_drop (bs : BoardState) (player : Player) (m : Move)
    (h : m ∈ drop_candidates bs player) : m.is_drop = true := by
  unfold drop_candidates at h
  rw [List.mem_flatMap] at h
  obtain ⟨i, _, h⟩ := h
  split at h
  · rw [List.mem_map] at h
    obtain ⟨t, _, h⟩ := h
    rw [← h]
    rfl
  · simp at h

theorem collect_drops_sound (v : Move → Option GameExpected) (l : List Move) (m : Move) :
    ∀ drops, collect_drops v l = some drops → m ∈ drops →
      m ∈ l ∧ ∃ r, v m = some r ∧ r.has_value = true := by
  induction l with
  | nil =>
    intro drops h hm
    simp only [collect_drops, Option.some.injEq] at h
    rw [← h] at hm
    simp at hm
  | cons a as ih =>
    intro drops h hm
    unfold collect_drops at h
    cases h1 : v a with
    | none => simp [h1] at h
    | some ra =>
      rw [h1] at h
      cases h2 : collect_drops v as with
      | none => simp [h2] at h
      | some rest =>
        rw [h2] at h
        simp only [Option.some.injEq] at h
        by_cases hra : ra.has_value = true
        · rw [if_pos hra] at h
          rw [← h] at hm
          rcases List.mem_cons.mp hm with heq | hmem
          · exact ⟨by rw [heq]; exact List.mem_cons_self _ _, ra, by rw [heq]; exact h1, hra⟩
          · obtain ⟨hl, hr⟩ := ih rest h2 hmem
            exact ⟨List.mem_cons_of_mem _ hl, hr⟩
        · rw [if_neg hra] at h
          rw [← h] at hm
          obtain ⟨hl, hr⟩ := ih rest h2 hm
          exact ⟨List.mem_cons_of_mem _ hl, hr⟩

/-- Every move in the list `generate_all_moves` returns passes the applicable validation. -/
theorem validated_of_listed (fuel : Nat) (bs : BoardState) (player : Player) (m : Move)
    (moves : List Move) (hmoves : generate_all_moves fuel bs player = some moves)
    (hm : m ∈ moves) : ∃ b, applicable_validation fuel bs m = some (GameExpected.value b) := by
  unfold generate_all_moves generate_all_moves_with at hmoves
  cases hcd : collect_drops (validate_drop_move fuel bs) (drop_candidates bs player) with
  | none => simp [hcd] at hmoves
  | some drops =>
    rw [hcd] at hmoves
    simp only [Option.some.injEq] at hmoves
    rw [← hmoves, List.mem_append] at hm
    unfold applicable_validation
    rcases hm with hm | hm
    · obtain ⟨hd, hv⟩ := generate_normal_moves_sound bs player m hm
      obtain ⟨b, hb⟩ := (has_value_iff _).mp hv
      exact ⟨b, by simp [hd, hb]⟩
    · obtain ⟨hl, r, hr, hv⟩ := collect_drops_sound _ _ m drops hcd hm
      obtain ⟨b, hb⟩ := (has_value_iff _).mp hv
      have hd := drop_candidates_is_drop bs player m hl
      exact ⟨b, by simp [hd, hr, hb]⟩

/-- With the list of the side to move at hand, every listed move leaves the
mover in check exactly when there is no legal move. -/
theorem all_listed_in_check_iff (fuel : Nat) (bs : BoardState) (moves : List Move)
    (hmoves : generate_all_moves fuel bs bs.current_player = some moves) :
    (moves.all (fun move => would_be_in_check_after_move bs move bs.current_player)) = true ↔
      ¬ ∃ m, legal_move bs m := by
  constructor
  · intro hall hex
    obtain ⟨m, ⟨f1, b, hv⟩, hchk⟩ := hex
    obtain ⟨m1, hm1, hsim⟩ := listed_of_validated f1 fuel bs m b moves hv hmoves
    have h1 := List.all_eq_true.mp hall m1 hm1
    unfold would_be_in_check_after_move at h1 hchk
    rw [hsim, hchk] at h1
    exact absurd h1 (by simp)
  · intro hno
    rw [List.all_eq_true]
    intro m hm
    cases hc : would_be_in_check_after_move bs m bs.current_player with
    | true => rfl
    | false =>
      exfalso
      obtain ⟨b, hb⟩ := validated_of_listed fuel bs _ m moves hmoves hm
      exact hno ⟨m, ⟨fuel, b, hb⟩, hc⟩

/-- Whenever the move list of the side to move `p` comes, `is_checkmate(p)`
returns, and it returns true exactly when `p` is in check and no move is legal. -/
theorem is_checkmate_iff (fuel0 : Nat) (bs : BoardState) (moves : List Move)
    (hmoves : generate_all_moves fuel0 bs bs.current_player = some moves) :
    ∃ c, (∀ fuel, fuel0 ≤ fuel → is_checkmate fuel bs bs.current_player = some c) ∧
      (c = true ↔ (bs.is_in_check bs.current_player = true ∧ ¬ ∃ m, legal_move bs m)) := by
  have hiff := all_listed_in_check_iff fuel0 bs moves hmoves
  cases hc : bs.is_in_check bs.current_player with
  | false =>
    refine ⟨false, fun fuel hle => ?_, by simp⟩
    simp [is_checkmate, GameLogic.is_in_check, hc]
  | true =>
    refine ⟨moves.all (fun move => would_be_in_check_after_move bs move bs.current_player),
      fun fuel hle => ?_, ?_⟩
    · apply is_checkmate_mono _ _ _ fuel0 fuel hle
      simp [is_checkmate, GameLogic.is_in_check, hc, hmoves]
    · rw [hiff]
      simp

/-- C18: on every state the engine can be in whose result is None, with `p` the
side to move, `is_checkmate(p)` returns (the same for every fuel from some
point on), and it returns true exactly when `p` is in check and no move is
legal, that is, passes validation without leaving `p` in check. -/
theorem C18_checkmate_iff_no_legal_move (g : GameLogic) (hreach : Reachable g)
    (hres : g.m_game_result = GameResult.None) :
    ∃ fuel0 c,
      (∀ fuel, fuel0 ≤ fuel →
        is_checkmate fuel g.m_board_state g.m_board_state.current_player = some c) ∧
      (c = true ↔
        (g.m_board_state.is_in_check g.m_board_state.current_player = true ∧
          ¬ ∃ m, legal_move g.m_board_state m)) := by
  obtain ⟨fuel0, moves, hmoves⟩ := get_legal_moves_returns g hreach hres
  exact ⟨fuel0, is_checkmate_iff fuel0 g.m_board_state moves hmoves⟩

/-- C18 at `c5_game`, where Second is in check from the bishop on (2,2). -/
theorem C18_checkmate_iff_no_legal_move_witness :
    c5_board.is_in_check Player.Second = true ∧
    ∃ fuel0 c,
      (∀ fuel, fuel0 ≤ fuel → is_checkmate fuel c5_board Player.Second = some c) ∧
      (c = true ↔
        (c5_board.is_in_check Player.Second = true ∧ ¬ ∃ m, legal_move c5_board m)) :=
  ⟨by decide!, C18_checkmate_iff_no_legal_move c5_game c5_game_reachable rfl⟩

end Shogi

namespace Shogi

open BoardState GameLogic

/-- C19 (the code departs from it): on `c19_board` First, to move, is not in
check and has no legal move, since each of the three steps of its bare king
lands on a square a rook attacks; yet `is_stalemate` returns false, for every
fuel, because the list of `generate_all_moves` holds those three steps and is
not empty. -/
theorem C19_stalemate_not_detected :
    c19_board.is_in_check c19_board.current_player = false ∧
    (¬ ∃ m, legal_move c19_board m) ∧
    generate_all_moves 0 c19_board Player.First =
      some [Move.normal ⟨8, 8⟩ ⟨7, 8⟩ false, Move.normal ⟨8, 8⟩ ⟨8, 7⟩ false,
        Move.normal ⟨8, 8⟩ ⟨7, 7⟩ false] ∧
    (∀ fuel, make_move fuel c19_game (Move.normal ⟨8, 8⟩ ⟨7, 8⟩ false) =
        some (GameExpected.error GameError.InCheck, c19_game)) ∧
    (∀ fuel, is_stalemate fuel c19_board = some false) := by
  have hmoves : generate_all_moves 0 c19_board c19_board.current_player =
      some [Move.normal ⟨8, 8⟩ ⟨7, 8⟩ false, Move.normal ⟨8, 8⟩ ⟨8, 7⟩ false,
        Move.normal ⟨8, 8⟩ ⟨7, 7⟩ false] := by decide!
  have hs : is_stalemate 0 c19_board = some false := by decide!
  refine ⟨by decide!, ?_, hmoves, ?_, ?_⟩
  · rw [← all_listed_in_check_iff 0 c19_board _ hmoves]
    decide!
  · intro fuel
    exact make_move_in_check fuel c19_game _ true rfl rfl (by decide!) (by decide!)
  · intro fuel
    exact is_stalemate_mono c19_board false 0 fuel (Nat.zero_le _) hs

/-- C20 (the code departs from it): eight accepted moves from the initial
position reach `c20_game`, where First's silver stands on (2,2). Its step to
(1,2) with the promotion flag is accepted (`can_promote` holds), the origin is
left empty, but the destination holds a plain `Silver` of First, not a
`PromotedSilver`: `promoted_type` maps `Silver` to `Silver`. -/
theorem C20_promoted_silver_stays_silver :
    play 1 initial_game c20_line = some c20_game ∧
    c20_board.get_piece c20_move.from_ = ⟨PieceType.Silver, Player.First⟩ ∧
    c20_move.is_promotion = true ∧
    PieceMovement.can_promote (c20_board.get_piece c20_move.from_) c20_move.from_
      c20_move.to_ = true ∧
    (Piece.mk PieceType.Silver Player.First).promoted_type = PieceType.Silver ∧
    (make_move 1 c20_game c20_move).map
        (fun r => (r.1, r.2.m_board_state.get_piece c20_move.to_,
          r.2.m_board_state.get_piece c20_move.from_)) =
      some (GameExpected.value true, ⟨PieceType.Silver, Player.First⟩, Piece.empty) := by
  refine ⟨c20_line_plays, by decide!, rfl, by decide!, rfl, by decide!⟩

end Shogi

/-! ## Promotion tables -/

namespace Shogi

open BoardState GameLogic

/-- C21 (the code departs from it): `promoted_type` is not the inverse of
`base_type` on silvers. The base kind of PromotedSilver is Silver, but
`promoted_type` of a Silver is Silver again, which is not a promoted kind; so
PromotedSilver is the promoted kind of no base kind. On the other five promoted
kinds `promoted_type` undoes `base_type`, on the other five promotable kinds
`promoted_type` gives a promoted kind with that base, and King and Gold are
left unchanged. -/
theorem C21_promoted_type_misses_promoted_silver (owner : Player) :
    Piece.base_type ⟨PieceType.PromotedSilver, owner⟩ = PieceType.Silver ∧
    Piece.promoted_type ⟨Piece.base_type ⟨PieceType.PromotedSilver, owner⟩, owner⟩
      = PieceType.Silver ∧
    Piece.promoted_type ⟨Piece.base_type ⟨PieceType.PromotedSilver, owner⟩, owner⟩
      ≠ PieceType.PromotedSilver ∧
    Piece.is_promoted ⟨Piece.promoted_type ⟨PieceType.Silver, owner⟩, owner⟩ = false ∧
    (∀ b ∈ promotable_kinds, Piece.promoted_type ⟨b, owner⟩ ≠ PieceType.PromotedSilver) ∧
    (∀ p ∈ promoted_kinds, p ≠ PieceType.PromotedSilver →
      Piece.promoted_type ⟨Piece.base_type ⟨p, owner⟩, owner⟩ = p) ∧
    (∀ b ∈ promotable_kinds, b ≠ PieceType.Silver →
      Piece.is_promoted ⟨Piece.promoted_type ⟨b, owner⟩, owner⟩ = true ∧
      Piece.base_type ⟨Piece.promoted_type ⟨b, owner⟩, owner⟩ = b) ∧
    Piece.promoted_type ⟨PieceType.King, owner⟩ = PieceType.King ∧
    Piece.promoted_type ⟨PieceType.Gold, owner⟩ = PieceType.Gold := by
  refine ⟨rfl, rfl, ?_, rfl, ?_, ?_, ?_, rfl, rfl⟩
  · cases owner <;> decide
  · intro b hb
    simp only [promotable_kinds, List.mem_cons, List.mem_singleton, List.not_mem_nil,
      or_false] at hb
    rcases hb with rfl | rfl | rfl | rfl | rfl | rfl <;> cases owner <;> decide
  · intro p hp hne
    simp only [promoted_kinds, List.mem_cons, List.mem_singleton, List.not_mem_nil,
      or_false] at hp
    rcases hp with rfl | rfl | rfl | rfl | rfl | rfl <;> first | rfl | exact absurd rfl hne
  · intro b hb hne
    simp only [promotable_kinds, List.mem_cons, List.mem_singleton, List.not_mem_nil,
      or_false] at hb
    rcases hb with rfl | rfl | rfl | rfl | rfl | rfl <;>
      first | exact ⟨rfl, rfl⟩ | exact absurd rfl hne

end Shogi

namespace ShogiCore

/-- C22: for `shogi::core::Piece`. A piece that can promote is promoted by
`promote` to a promoted piece of the same owner, and `demote` brings it back;
a promoted piece is demoted by `demote` to an unpromoted piece of the same
owner, and `promote` brings it back; `canPromote` is false exactly for the
empty piece, King, Gold and the promoted pieces, and `promote` leaves those
unchanged. -/
theorem C22_promote_demote_inverse (x : Piece) :
    (x.canPromote = true →
      x.isEmpty = false ∧ x.promote.isPromoted = true ∧
      x.promote.getPlayer = x.getPlayer ∧ x.promote.demote = x) ∧
    (x.isPromoted = true →
      x.demote.isPromoted = false ∧ x.demote.getPlayer = x.getPlayer ∧
      x.demote.promote = x) ∧
    (x.canPromote = false ↔
      (x.isEmpty = true ∨ x.getType = PieceType.King ∨ x.getType = PieceType.Gold ∨
        x.isPromoted = true)) ∧
    (x.canPromote = false → x.promote = x) := by
  obtain ⟨t, p⟩ := x
  cases t <;> cases p <;> decide

/-- An instance of C22: Gote's silver promotes to Gote's promoted silver and
demotes back. -/
theorem C22_promote_demote_inverse_witness :
    Piece.canPromote ⟨PieceType.Silver, Player.Gote⟩ = true ∧
    Piece.promote ⟨PieceType.Silver, Player.Gote⟩ = ⟨PieceType.PromotedSilver, Player.Gote⟩ ∧
    Piece.demote (Piece.promote ⟨PieceType.Silver, Player.Gote⟩)
      = ⟨PieceType.Silver, Player.Gote⟩ :=
  ⟨by decide, by decide,
   ((C22_promote_demote_inverse ⟨PieceType.Silver, Player.Gote⟩).1 (by decide)).2.2.2⟩

end ShogiCore

namespace Shogi

open BoardState GameLogic

/-! ## The promotion zone -/

theorem is_promotion_zone_iff (pos : Position) (player : Player) (h : pos.is_valid = true) :
    PieceMovement.is_promotion_zone pos player = true ↔ in_zone_rows player pos.row := by
  simp only [Position.is_valid, BOARD_ROWS, BOARD_COLS, Bool.and_eq_true, decide_eq_true_eq] at h
  cases player <;> simp only [PieceMovement.is_promotion_zone, in_zone_rows, decide_eq_true_eq] <;>
    omega

/-- C24 (for squares of the board): for valid `from` and `to`, `can_promote` is
true exactly when the kind is Rook, Bishop, Silver, Knight, Lance or Pawn and
`from` or `to` lies in rows 0 to 2 (owner First) or rows 6 to 8 (owner Second). -/
theorem C24_can_promote_iff (piece : Piece) (from_ to_ : Position)
    (hfrom : from_.is_valid = true) (hto : to_.is_valid = true) :
    PieceMovement.can_promote piece from_ to_ = true ↔
      (piece.type ∈ promotable_kinds ∧
        (in_zone_rows piece.owner from_.row ∨ in_zone_rows piece.owner to_.row)) := by
  rw [← is_promotion_zone_iff from_ piece.owner hfrom, ← is_promotion_zone_iff to_ piece.owner hto]
  obtain ⟨t, o⟩ := piece
  cases t <;>
    simp [PieceMovement.can_promote, Piece.can_promote, Piece.is_promoted, promotable_kinds]

/-- An instance of C24: First's pawn stepping from (3,4) to (2,4) may promote. -/
theorem C24_can_promote_iff_witness :
    PieceMovement.can_promote ⟨PieceType.Pawn, Player.First⟩ ⟨3, 4⟩ ⟨2, 4⟩ = true :=
  (C24_can_promote_iff ⟨PieceType.Pawn, Player.First⟩ ⟨3, 4⟩ ⟨2, 4⟩ (by decide) (by decide)).2
    ⟨by decide, Or.inr ⟨by decide, by decide⟩⟩

/-- C24 as stated fails off the board: with `from` the invalid square (-1,-1)
(the origin every drop move carries) and `to` = (5,5), neither square lies in
rows 0 to 2, yet `can_promote` is true for First's pawn, because
`is_promotion_zone` only tests `row <= 2`. -/
theorem C24_counterexample :
    PieceMovement.can_promote ⟨PieceType.Pawn, Player.First⟩ INVALID_POSITION ⟨5, 5⟩ = true ∧
    ¬ (in_zone_rows Player.First INVALID_POSITION.row ∨
       in_zone_rows Player.First (5 : Int)) := by
  refine ⟨by decide, ?_⟩
  simp [in_zone_rows, INVALID_POSITION]

end Shogi

namespace Shogi

open BoardState GameLogic

/-! ## Sliding moves -/

theorem is_valid_iff (p : Position) :
    p.is_valid = true ↔ (0 ≤ p.row ∧ p.row < 9 ∧ 0 ≤ p.col ∧ p.col < 9) := by
  simp [Position.is_valid, BOARD_ROWS, BOARD_COLS, and_assoc]

theorem ray_square_zero (cur : Position) (d : Int × Int) : ray_square cur d 0 = cur := by
  simp [ray_square]

theorem ray_square_succ (cur : Position) (d : Int × Int) (j : Nat) :
    ray_square cur d (j + 1) = ray_square ⟨cur.row + d.1, cur.col + d.2⟩ d j := by
  simp only [ray_square, Position.mk.injEq]
  constructor <;> push_cast <;> ring

/-- The squares `slide_loop` collects from `cur` on: the `k`-th square of the
walk, when the walk is on the board up to it, every earlier square is empty,
and the square itself is empty or holds an opposing piece. -/
theorem mem_slide_loop (board : List Piece) (player : Player) (dir : Direction) (d : Int × Int)
    (happ : ∀ p, PieceMovement.apply_direction p dir player = ⟨p.row + d.1, p.col + d.2⟩) :
    ∀ (n : Nat) (cur s : Position), s ∈ PieceMovement.slide_loop board player dir n cur ↔
      ∃ k, k < n ∧ s = ray_square cur d k ∧
        (∀ j, j ≤ k → (ray_square cur d j).is_valid = true) ∧
        (∀ j, j < k → square_empty board (ray_square cur d j)) ∧
        (square_empty board s ∨ holds_enemy board s player) := by
  intro n
  induction n with
  | zero => intro cur s; simp [PieceMovement.slide_loop]
  | succ n ih =>
    intro cur s
    rw [PieceMovement.slide_loop]
    by_cases hv : cur.is_valid = true
    · rw [if_pos hv]
      by_cases he : (board.getD (pos_to_index cur) Piece.empty).is_empty = true
      · simp only [he, if_true, List.mem_cons, happ, ih]
        constructor
        · rintro (rfl | ⟨k, hk, rfl, hval, hemp, hland⟩)
          · refine ⟨0, by omega, (ray_square_zero _ _).symm, ?_, ?_, Or.inl he⟩
            · intro j hj
              have : j = 0 := by omega
              rw [this, ray_square_zero]; exact hv
            · intro j hj; omega
          · refine ⟨k + 1, by omega, (ray_square_succ _ _ _).symm, ?_, ?_, ?_⟩
            · intro j hj
              cases j with
              | zero => rw [ray_square_zero]; exact hv
              | succ i => rw [ray_square_succ]; exact hval i (by omega)
            · intro j hj
              cases j with
              | zero => rw [ray_square_zero]; exact he
              | succ i => rw [ray_square_succ]; exact hemp i (by omega)
            · exact hland
        · rintro ⟨k, hk, rfl, hval, hemp, hland⟩
          cases k with
          | zero => left; exact ray_square_zero _ _
          | succ i =>
            right
            refine ⟨i, by omega, ray_square_succ _ _ _, ?_, ?_, hland⟩
            · intro j hj
              rw [← ray_square_succ]; exact hval (j + 1) (by omega)
            · intro j hj
              rw [← ray_square_succ]; exact hemp (j + 1) (by omega)
      · have hcur : ¬ square_empty board cur := he
        have he1 : (board.getD (pos_to_index cur) Piece.empty).is_empty = false := by
          simpa using he
        simp only [he1, Bool.false_eq_true, if_false]
        have hk0 : ∀ k, (∀ j, j < k → square_empty board (ray_square cur d j)) → k = 0 := by
          intro k hemp
          by_contra hne
          have := hemp 0 (by omega)
          rw [ray_square_zero] at this
          exact hcur this
        by_cases ho : ((board.getD (pos_to_index cur) Piece.empty).owner != player) = true
        · simp only [ho, if_true, List.mem_singleton]
          constructor
          · rintro rfl
            refine ⟨0, by omega, (ray_square_zero _ _).symm, ?_, ?_, Or.inr ⟨?_, ?_⟩⟩
            · intro j hj
              have : j = 0 := by omega
              rw [this, ray_square_zero]; exact hv
            · intro j hj; omega
            · exact he1
            · simpa [piece_at] using ho
          · rintro ⟨k, hk, rfl, hval, hemp, hland⟩
            rw [hk0 k hemp, ray_square_zero]
        · have ho1 : ((board.getD (pos_to_index cur) Piece.empty).owner != player) = false := by
            simpa using ho
          simp only [ho1, Bool.false_eq_true, if_false, List.not_mem_nil, false_iff]
          rintro ⟨k, hk, rfl, hval, hemp, hland⟩
          rw [hk0 k hemp, ray_square_zero] at hland
          rcases hland with h | ⟨_, h⟩
          · exact hcur h
          · apply ho
            simpa [piece_at] using h
    · rw [if_neg hv]
      simp only [List.not_mem_nil, false_iff]
      rintro ⟨k, hk, rfl, hval, hemp, hland⟩
      have := hval 0 (by omega)
      rw [ray_square_zero] at this
      exact hv this

theorem apply_direction_step (p : Position) (dir : Direction) (player : Player) :
    PieceMovement.apply_direction p dir player =
      ⟨p.row + (dir.step player).1, p.col + (dir.step player).2⟩ := rfl

/-- One direction of `get_sliding_moves`, for a step of at most one row and one
column that is not zero: the squares collected are those reached by sliding. -/
theorem mem_slide_loop_nine (board : List Piece) (player : Player) (dir : Direction)
    (from_ s : Position) (hfrom : from_.is_valid = true)
    (h1 : (dir.step player).1 = -1 ∨ (dir.step player).1 = 0 ∨ (dir.step player).1 = 1)
    (h2 : (dir.step player).2 = -1 ∨ (dir.step player).2 = 0 ∨ (dir.step player).2 = 1)
    (h0 : (dir.step player).1 ≠ 0 ∨ (dir.step player).2 ≠ 0) :
    s ∈ PieceMovement.slide_loop board player dir 9
        (PieceMovement.apply_direction from_ dir player) ↔
      slide_reaches board player from_ (dir.step player) s := by
  rw [mem_slide_loop board player dir (dir.step player) (fun p => apply_direction_step p dir player),
    apply_direction_step]
  generalize dir.step player = d at h1 h2 h0
  obtain ⟨d1, d2⟩ := d
  simp only at h1 h2 h0
  have hf := (is_valid_iff from_).mp hfrom
  constructor
  · rintro ⟨k, hk, rfl, hval, hemp, hland⟩
    refine ⟨k + 1, by omega, (ray_square_succ _ _ _).symm, ?_, ?_, ?_⟩
    · exact hval k (le_refl k)
    · intro j hj1 hj2
      obtain ⟨i, rfl⟩ : ∃ i, j = i + 1 := ⟨j - 1, by omega⟩
      rw [ray_square_succ]
      exact hemp i (by omega)
    · exact hland
  · rintro ⟨n, hn, rfl, hvalid, hemp, hland⟩
    obtain ⟨k, rfl⟩ : ∃ k, n = k + 1 := ⟨n - 1, by omega⟩
    have hs := (is_valid_iff _).mp hvalid
    simp only [ray_square] at hs
    refine ⟨k, ?_, ray_square_succ _ _ _, ?_, ?_, hland⟩
    · rcases h1 with rfl | rfl | rfl <;> rcases h2 with rfl | rfl | rfl <;>
        simp only [mul_neg, mul_one, mul_zero, add_zero, Nat.cast_add, Nat.cast_one] at hs <;>
        omega
    · intro j hj
      rw [← ray_square_succ, is_valid_iff]
      simp only [ray_square]
      rcases h1 with rfl | rfl | rfl <;> rcases h2 with rfl | rfl | rfl <;>
        simp only [mul_neg, mul_one, mul_zero, add_zero, Nat.cast_add, Nat.cast_one] at hs ⊢ <;>
        omega
    · intro j hj
      rw [← ray_square_succ]
      exact hemp (j + 1) (by omega) (by omega)

/-- The squares `get_sliding_moves` returns: those reached by sliding along the
oriented step of one of the directions. -/
theorem mem_get_sliding_moves (board : List Piece) (player : Player) (dirs : List Direction)
    (from_ s : Position) (hfrom : from_.is_valid = true)
    (hdirs : ∀ dir ∈ dirs,
      ((dir.step player).1 = -1 ∨ (dir.step player).1 = 0 ∨ (dir.step player).1 = 1) ∧
      ((dir.step player).2 = -1 ∨ (dir.step player).2 = 0 ∨ (dir.step player).2 = 1) ∧
      ((dir.step player).1 ≠ 0 ∨ (dir.step player).2 ≠ 0)) :
    s ∈ PieceMovement.get_sliding_moves from_ dirs board player ↔
      ∃ dir ∈ dirs, slide_reaches board player from_ (dir.step player) s := by
  simp only [PieceMovement.get_sliding_moves, List.mem_flatMap]
  constructor
  · rintro ⟨dir, hdir, h⟩
    obtain ⟨a, b, c⟩ := hdirs dir hdir
    exact ⟨dir, hdir, (mem_slide_loop_nine board player dir from_ s hfrom a b c).mp h⟩
  · rintro ⟨dir, hdir, h⟩
    obtain ⟨a, b, c⟩ := hdirs dir hdir
    exact ⟨dir, hdir, (mem_slide_loop_nine board player dir from_ s hfrom a b c).mpr h⟩

theorem exists_step_iff (dirs : List Direction) (steps : List (Int × Int)) (player : Player)
    (P : Int × Int → Prop) (h1 : ∀ dir ∈ dirs, dir.step player ∈ steps)
    (h2 : ∀ d ∈ steps, ∃ dir ∈ dirs, dir.step player = d) :
    (∃ dir ∈ dirs, P (dir.step player)) ↔ ∃ d ∈ steps, P d := by
  constructor
  · rintro ⟨dir, hdir, h⟩
    exact ⟨_, h1 dir hdir, h⟩
  · rintro ⟨d, hd, h⟩
    obtain ⟨dir, hdir, rfl⟩ := h2 d hd
    exact ⟨dir, hdir, h⟩

theorem mem_get_rook_moves (board : List Piece) (player : Player) (from_ s : Position)
    (hfrom : from_.is_valid = true) :
    s ∈ PieceMovement.get_rook_moves from_ board player ↔
      ∃ d ∈ orthogonals, slide_reaches board player from_ d s := by
  unfold PieceMovement.get_rook_moves
  rw [mem_get_sliding_moves board player _ from_ s hfrom
    (by intro dir hdir; simp only [List.mem_cons, List.mem_singleton, List.not_mem_nil,
          or_false] at hdir
        rcases hdir with rfl | rfl | rfl | rfl <;> cases player <;> decide)]
  exact exists_step_iff _ orthogonals player (fun d => slide_reaches board player from_ d s)
    (by cases player <;> decide) (by cases player <;> decide)

theorem mem_get_bishop_moves (board : List Piece) (player : Player) (from_ s : Position)
    (hfrom : from_.is_valid = true) :
    s ∈ PieceMovement.get_bishop_moves from_ board player ↔
      ∃ d ∈ diagonals, slide_reaches board player from_ d s := by
  unfold PieceMovement.get_bishop_moves
  rw [mem_get_sliding_moves board player _ from_ s hfrom
    (by intro dir hdir; simp only [List.mem_cons, List.mem_singleton, List.not_mem_nil,
          or_false] at hdir
        rcases hdir with rfl | rfl | rfl | rfl <;> cases player <;> decide)]
  exact exists_step_iff _ diagonals player (fun d => slide_reaches board player from_ d s)
    (by cases player <;> decide) (by cases player <;> decide)

theorem mem_get_lance_moves (board : List Piece) (player : Player) (from_ s : Position)
    (hfrom : from_.is_valid = true) :
    s ∈ PieceMovement.get_lance_moves from_ board player ↔
      slide_reaches board player from_ (forward player, 0) s := by
  unfold PieceMovement.get_lance_moves
  rw [mem_get_sliding_moves board player _ from_ s hfrom
    (by intro dir hdir; simp only [List.mem_cons, List.mem_singleton, List.not_mem_nil,
          or_false] at hdir
        subst hdir; cases player <;> decide)]
  cases player <;> simp [forward, Direction.step, UP]

end Shogi

namespace Shogi

open BoardState GameLogic

/-- C25: for a Rook, Bishop or Lance of `player` on a valid square `from`, on
any board: a square is among the destinations `get_possible_moves` returns
exactly when it lies on one of the kind's rays from `from` on the board, every
square strictly between is empty, and the square itself is empty or holds a
piece of the other player. -/
theorem C25_sliding_destinations (kind : PieceType) (player : Player) (from_ s : Position)
    (board : List Piece)
    (hkind : kind = PieceType.Rook ∨ kind = PieceType.Bishop ∨ kind = PieceType.Lance)
    (hfrom : from_.is_valid = true) :
    s ∈ PieceMovement.get_possible_moves ⟨kind, player⟩ from_ board ↔
      ∃ d ∈ rays kind player, slide_reaches board player from_ d s := by
  rcases hkind with rfl | rfl | rfl
  · simp only [PieceMovement.get_possible_moves, Piece.is_empty, hfrom, rays]
    exact mem_get_rook_moves board player from_ s hfrom
  · simp only [PieceMovement.get_possible_moves, Piece.is_empty, hfrom, rays]
    exact mem_get_bishop_moves board player from_ s hfrom
  · simp only [PieceMovement.get_possible_moves, Piece.is_empty, hfrom, rays]
    rw [show (∃ d ∈ [(forward player, (0 : Int))], slide_reaches board player from_ d s) ↔
      slide_reaches board player from_ (forward player, 0) s by simp]
    exact mem_get_lance_moves board player from_ s hfrom

/-- An instance of C25 on the initial position: First's rook on (7,1) reaches
(7,3) along the row, past the empty (7,2). -/
theorem C25_sliding_destinations_witness :
    ∃ d ∈ rays PieceType.Rook Player.First,
      slide_reaches initial_position.m_board Player.First ⟨7, 1⟩ d ⟨7, 3⟩ :=
  (C25_sliding_destinations PieceType.Rook Player.First ⟨7, 1⟩ ⟨7, 3⟩ initial_position.m_board
    (Or.inl rfl) (by decide)).mp (by decide!)

/-! ## Stepping moves -/

theorem is_enemy_or_empty_iff (board : List Piece) (player : Player) (s : Position) :
    PieceMovement.is_enemy_or_empty s board player = true ↔ can_land board player s := by
  unfold PieceMovement.is_enemy_or_empty can_land square_empty holds_enemy piece_at
  generalize board.getD (pos_to_index s) Piece.empty = pc
  cases hv : s.is_valid with
  | false => simp
  | true =>
    cases he : pc.is_empty <;> simp [he]

theorem mem_get_single_step_moves (board : List Piece) (player : Player) (dirs : List Direction)
    (from_ s : Position) :
    s ∈ PieceMovement.get_single_step_moves from_ dirs board player ↔
      ∃ dir ∈ dirs, s = step_square from_ (dir.step player) ∧ can_land board player s := by
  simp only [PieceMovement.get_single_step_moves, List.mem_filter, List.mem_map,
    is_enemy_or_empty_iff, apply_direction_step, step_square]
  constructor
  · rintro ⟨⟨dir, hdir, rfl⟩, hland⟩
    exact ⟨dir, hdir, rfl, hland⟩
  · rintro ⟨dir, hdir, rfl, hland⟩
    exact ⟨⟨dir, hdir, rfl⟩, hland⟩

/-- C26: for a stepping piece of `player` on a valid square `from`, on any
board: the destinations `get_possible_moves` returns are exactly the squares
`from + d`, with `d` in the direction set of the kind oriented for `player`,
that are on the board and are empty or hold an opposing piece. -/
theorem C26_stepping_destinations (kind : PieceType) (player : Player) (from_ s : Position)
    (board : List Piece) (hkind : kind ∈ stepping_kinds) (hfrom : from_.is_valid = true) :
    s ∈ PieceMovement.get_possible_moves ⟨kind, player⟩ from_ board ↔
      ∃ d ∈ steps kind player, s = step_square from_ d ∧ can_land board player s := by
  simp only [stepping_kinds, List.mem_cons, List.mem_singleton, List.not_mem_nil,
    or_false] at hkind
  have hpm : PieceMovement.get_possible_moves ⟨kind, player⟩ from_ board =
      PieceMovement.get_single_step_moves from_
        (match kind with
         | PieceType.King => [UP, DOWN, LEFT, RIGHT, UP_LEFT, UP_RIGHT, DOWN_LEFT, DOWN_RIGHT]
         | PieceType.Silver => [UP, UP_LEFT, UP_RIGHT, DOWN_LEFT, DOWN_RIGHT]
         | PieceType.Knight => [KNIGHT_UP_LEFT, KNIGHT_UP_RIGHT]
         | PieceType.Pawn => [UP]
         | _ => [UP, DOWN, LEFT, RIGHT, UP_LEFT, UP_RIGHT]) board player := by
    rcases hkind with rfl | rfl | rfl | rfl | rfl | rfl | rfl | rfl | rfl <;>
      simp [PieceMovement.get_possible_moves, Piece.is_empty, hfrom,
        PieceMovement.get_king_moves, PieceMovement.get_gold_moves,
        PieceMovement.get_silver_moves, PieceMovement.get_knight_moves,
        PieceMovement.get_pawn_moves]
  rw [hpm, mem_get_single_step_moves]
  refine exists_step_iff _ _ player
    (fun d => s = step_square from_ d ∧ can_land board player s) ?_ ?_ <;>
  rcases hkind with rfl | rfl | rfl | rfl | rfl | rfl | rfl | rfl | rfl <;>
  cases player <;> decide

/-- An instance of C26 on the initial position: First's knight on (8,1) has no
destination, because both leaps land on First's own pawns. -/
theorem C26_stepping_destinations_witness :
    ¬ ∃ d ∈ steps PieceType.Knight Player.First,
      (⟨6, 2⟩ : Position) = step_square ⟨8, 1⟩ d ∧
        can_land initial_position.m_board Player.First ⟨6, 2⟩ :=
  fun h => absurd
    ((C26_stepping_destinations PieceType.Knight Player.First ⟨8, 1⟩ ⟨6, 2⟩
      initial_position.m_board (by decide) (by decide)).mpr h) (by decide!)

end Shogi

namespace Shogi

open BoardState GameLogic

/-! ## The promoted rook and the promoted bishop -/

theorem position_less_iff (a b : Position) :
    PieceMovement.position_less a b = true ↔
      (a.row < b.row ∨ (a.row = b.row ∧ a.col < b.col)) := by
  unfold PieceMovement.position_less
  by_cases h : a.row = b.row
  · simp [h]
  · simp [h]

theorem mem_sorted_insert (p s : Position) (l : List Position) :
    s ∈ PieceMovement.sorted_insert p l ↔ s = p ∨ s ∈ l := by
  induction l with
  | nil => simp [PieceMovement.sorted_insert]
  | cons q qs ih =>
    unfold PieceMovement.sorted_insert
    split
    · simp only [List.mem_cons, ih]
      tauto
    · simp only [List.mem_cons]

theorem mem_sort_positions (s : Position) (l : List Position) :
    s ∈ PieceMovement.sort_positions l ↔ s ∈ l := by
  induction l with
  | nil => simp [PieceMovement.sort_positions]
  | cons p ps ih =>
    simp only [PieceMovement.sort_positions, mem_sorted_insert, ih, List.mem_cons]

theorem mem_unique_positions (s : Position) :
    ∀ l : List Position, s ∈ PieceMovement.unique_positions l ↔ s ∈ l
  | [] => by simp [PieceMovement.unique_positions]
  | [p] => by simp [PieceMovement.unique_positions]
  | p :: q :: rest => by
    have ih := mem_unique_positions s (q :: rest)
    unfold PieceMovement.unique_positions
    split
    · rename_i h
      rw [ih, h]
      simp only [List.mem_cons]
      tauto
    · simp only [List.mem_cons, ih]

/-- The list is in the order of `position_less`, equal squares allowed. -/
theorem sorted_insert_sorted (p : Position) (l : List Position)
    (h : l.Pairwise (fun a b => PieceMovement.position_less b a = false)) :
    (PieceMovement.sorted_insert p l).Pairwise
      (fun a b => PieceMovement.position_less b a = false) := by
  induction l with
  | nil => simp [PieceMovement.sorted_insert]
  | cons q qs ih =>
    unfold PieceMovement.sorted_insert
    rw [List.pairwise_cons] at h
    split
    · rename_i hlt
      rw [List.pairwise_cons]
      refine ⟨?_, ih h.2⟩
      intro x hx
      rcases (mem_sorted_insert p x qs).mp hx with rfl | hx
      · cases hc : PieceMovement.position_less x q with
        | false => rfl
        | true =>
          rw [position_less_iff] at hlt hc
          omega
      · exact h.1 x hx
    · rename_i hlt
      have hlt1 : PieceMovement.position_less q p = false := by simpa using hlt
      rw [List.pairwise_cons]
      refine ⟨?_, List.pairwise_cons.mpr h⟩
      intro x hx
      rcases List.mem_cons.mp hx with rfl | hx
      · exact hlt1
      · have hqx := h.1 x hx
        cases hc : PieceMovement.position_less x p with
        | false => rfl
        | true =>
          have h1 : ¬ PieceMovement.position_less q p = true := by simp [hlt1]
          have h2 : ¬ PieceMovement.position_less x q = true := by simp [hqx]
          rw [position_less_iff] at hc h1 h2
          omega

theorem sort_positions_sorted (l : List Position) :
    (PieceMovement.sort_positions l).Pairwise
      (fun a b => PieceMovement.position_less b a = false) := by
  induction l with
  | nil => simp [PieceMovement.sort_positions]
  | cons p ps ih => exact sorted_insert_sorted p _ ih

/-- On a list in the order of `position_less`, dropping consecutive duplicates
leaves a strictly increasing list. -/
theorem unique_positions_strict :
    ∀ l : List Position, l.Pairwise (fun a b => PieceMovement.position_less b a = false) →
      (PieceMovement.unique_positions l).Pairwise
        (fun a b => PieceMovement.position_less a b = true)
  | [], _ => by simp [PieceMovement.unique_positions]
  | [p], _ => by simp [PieceMovement.unique_positions]
  | p :: q :: rest, h => by
    have hq := List.pairwise_cons.mp h
    have ih := unique_positions_strict (q :: rest) hq.2
    unfold PieceMovement.unique_positions
    split
    · exact ih
    · rename_i hne
      rw [List.pairwise_cons]
      refine ⟨?_, ih⟩
      intro x hx
      have hx1 : x ∈ q :: rest := (mem_unique_positions x _).mp hx
      have hpq : PieceMovement.position_less p q = true := by
        have h1 : ¬ PieceMovement.position_less q p = true := by
          simp [hq.1 q (List.mem_cons_self _ _)]
        rw [position_less_iff] at h1 ⊢
        have hrc : ¬ (p.row = q.row ∧ p.col = q.col) := by
          rintro ⟨h3, h4⟩
          apply hne
          cases p; cases q
          simp only at h3 h4
          rw [h3, h4]
        omega
      rcases List.mem_cons.mp hx1 with rfl | hx2
      · exact hpq
      · have hqx : ¬ PieceMovement.position_less x q = true := by
          simp [(List.pairwise_cons.mp hq.2).1 x hx2]
        rw [position_less_iff] at hpq hqx ⊢
        omega

theorem unique_sort_nodup (l : List Position) :
    (PieceMovement.unique_positions (PieceMovement.sort_positions l)).Nodup := by
  have h := unique_positions_strict _ (sort_positions_sorted l)
  unfold List.Nodup
  refine h.imp ?_
  intro a b hlt heq
  rw [heq, position_less_iff] at hlt
  omega

theorem mem_unique_sort (s : Position) (l : List Position) :
    s ∈ PieceMovement.unique_positions (PieceMovement.sort_positions l) ↔ s ∈ l := by
  rw [mem_unique_positions, mem_sort_positions]

/-- A single step to a square a piece may land on is a slide of length one. -/
theorem slide_reaches_of_step (board : List Piece) (player : Player) (from_ s : Position)
    (d : Int × Int) (hs : s = step_square from_ d) (hland : can_land board player s) :
    slide_reaches board player from_ d s := by
  refine ⟨1, le_refl 1, ?_, hland.1, ?_, hland.2⟩
  · rw [hs]
    simp [step_square, ray_square]
  · intro j h1 h2
    omega

theorem mem_get_king_moves (board : List Piece) (player : Player) (from_ s : Position) :
    s ∈ PieceMovement.get_king_moves from_ board player ↔
      ∃ d ∈ neighbours, s = step_square from_ d ∧ can_land board player s := by
  unfold PieceMovement.get_king_moves
  rw [mem_get_single_step_moves]
  exact exists_step_iff _ neighbours player
    (fun d => s = step_square from_ d ∧ can_land board player s)
    (by cases player <;> decide) (by cases player <;> decide)

/-- C27: for every board, owner and valid square, the squares returned for a
PromotedRook are those returned for a Rook together with the single steps on
the four diagonals, the squares returned for a PromotedBishop are those
returned for a Bishop together with the single steps on the four orthogonals,
and neither list holds a square twice. -/
theorem C27_promoted_rook_and_bishop (player : Player) (from_ : Position) (board : List Piece)
    (hfrom : from_.is_valid = true) :
    (∀ s, s ∈ PieceMovement.get_possible_moves ⟨PieceType.PromotedRook, player⟩ from_ board ↔
      (s ∈ PieceMovement.get_possible_moves ⟨PieceType.Rook, player⟩ from_ board ∨
        ∃ d ∈ diagonals, s = step_square from_ d ∧ can_land board player s)) ∧
    (∀ s, s ∈ PieceMovement.get_possible_moves ⟨PieceType.PromotedBishop, player⟩ from_ board ↔
      (s ∈ PieceMovement.get_possible_moves ⟨PieceType.Bishop, player⟩ from_ board ∨
        ∃ d ∈ orthogonals, s = step_square from_ d ∧ can_land board player s)) ∧
    (PieceMovement.get_possible_moves ⟨PieceType.PromotedRook, player⟩ from_ board).Nodup ∧
    (PieceMovement.get_possible_moves ⟨PieceType.PromotedBishop, player⟩ from_ board).Nodup := by
  have hR : PieceMovement.get_possible_moves ⟨PieceType.PromotedRook, player⟩ from_ board =
      PieceMovement.get_promoted_rook_moves from_ board player := by
    simp [PieceMovement.get_possible_moves, Piece.is_empty, hfrom]
  have hB : PieceMovement.get_possible_moves ⟨PieceType.PromotedBishop, player⟩ from_ board =
      PieceMovement.get_promoted_bishop_moves from_ board player := by
    simp [PieceMovement.get_possible_moves, Piece.is_empty, hfrom]
  have hr : PieceMovement.get_possible_moves ⟨PieceType.Rook, player⟩ from_ board =
      PieceMovement.get_rook_moves from_ board player := by
    simp [PieceMovement.get_possible_moves, Piece.is_empty, hfrom]
  have hb : PieceMovement.get_possible_moves ⟨PieceType.Bishop, player⟩ from_ board =
      PieceMovement.get_bishop_moves from_ board player := by
    simp [PieceMovement.get_possible_moves, Piece.is_empty, hfrom]
  rw [hR, hB, hr, hb]
  refine ⟨?_, ?_, unique_sort_nodup _, unique_sort_nodup _⟩
  · intro s
    unfold PieceMovement.get_promoted_rook_moves
    rw [mem_unique_sort, List.mem_append, mem_get_king_moves, mem_get_rook_moves _ _ _ _ hfrom]
    constructor
    · rintro (h | ⟨d, hd, hs, hland⟩)
      · exact Or.inl h
      · simp only [neighbours, List.mem_append] at hd
        rcases hd with hd | hd
        · exact Or.inl ⟨d, hd, slide_reaches_of_step board player from_ s d hs hland⟩
        · exact Or.inr ⟨d, hd, hs, hland⟩
    · rintro (h | ⟨d, hd, hs, hland⟩)
      · exact Or.inl h
      · exact Or.inr ⟨d, by simp only [neighbours, List.mem_append]; exact Or.inr hd, hs, hland⟩
  · intro s
    unfold PieceMovement.get_promoted_bishop_moves
    rw [mem_unique_sort, List.mem_append, mem_get_king_moves, mem_get_bishop_moves _ _ _ _ hfrom]
    constructor
    · rintro (h | ⟨d, hd, hs, hland⟩)
      · exact Or.inl h
      · simp only [neighbours, List.mem_append] at hd
        rcases hd with hd | hd
        · exact Or.inr ⟨d, hd, hs, hland⟩
        · exact Or.inl ⟨d, hd, slide_reaches_of_step board player from_ s d hs hland⟩
    · rintro (h | ⟨d, hd, hs, hland⟩)
      · exact Or.inl h
      · exact Or.inr ⟨d, by simp only [neighbours, List.mem_append]; exact Or.inl hd, hs, hland⟩

/-- An instance of C27: on an empty board First's promoted rook on (4,4) has
twenty destinations, sixteen along the row and the column and the four
diagonal neighbours, each listed once. -/
theorem C27_promoted_rook_and_bishop_witness :
    (PieceMovement.get_possible_moves ⟨PieceType.PromotedRook, Player.First⟩ ⟨4, 4⟩
      (List.replicate 81 Piece.empty)).Nodup :=
  (C27_promoted_rook_and_bishop Player.First ⟨4, 4⟩ (List.replicate 81 Piece.empty)
    (by decide)).2.2.1

end Shogi

namespace Shogi

open BoardState GameLogic

/-! ## The two players move as mirror images -/

theorem mirror_mirror (p : Position) : mirror (mirror p) = p := by
  simp [mirror]

theorem mirror_is_valid (p : Position) : (mirror p).is_valid = p.is_valid := by
  rw [Bool.eq_iff_iff, is_valid_iff, is_valid_iff]
  simp only [mirror]
  omega

theorem mirror_apply_direction (p : Position) (dir : Direction) :
    PieceMovement.apply_direction (mirror p) dir Player.Second =
      mirror (PieceMovement.apply_direction p dir Player.First) := by
  simp only [PieceMovement.apply_direction, mirror, if_true, Position.mk.injEq]
  constructor
  · simp only [reduceCtorEq, if_false]; ring
  · trivial

theorem piece_at_mirror_board (board : List Piece) (p : Position) (h : p.is_valid = true) :
    piece_at (mirror_board board) (mirror p) = swap_owner (piece_at board p) := by
  have hv := (is_valid_iff p).mp h
  obtain ⟨r, hr⟩ : ∃ r : Nat, p.row = r := ⟨p.row.toNat, by omega⟩
  obtain ⟨c, hc⟩ : ∃ c : Nat, p.col = c := ⟨p.col.toNat, by omega⟩
  have hr9 : r < 9 := by omega
  have hc9 : c < 9 := by omega
  have hi : pos_to_index (mirror p) = (8 - r) * 9 + c := by
    simp only [pos_to_index, mirror, BOARD_COLS, hr, hc]
    omega
  have hj : pos_to_index p = r * 9 + c := by
    simp only [pos_to_index, BOARD_COLS, hr, hc]
    omega
  have hlt : (8 - r) * 9 + c < 81 := by omega
  unfold piece_at mirror_board
  rw [hi, hj, List.getD_eq_getElem _ _ (by simpa using hlt), List.getElem_map,
    List.getElem_range]
  congr 2
  omega

theorem swap_owner_is_empty (pc : Piece) : (swap_owner pc).is_empty = pc.is_empty := rfl

theorem swap_owner_enemy (pc : Piece) :
    ((swap_owner pc).owner != Player.Second) = (pc.owner != Player.First) := by
  obtain ⟨t, o⟩ := pc
  cases o <;> rfl

theorem mirror_slide_loop (board : List Piece) (dir : Direction) :
    ∀ (n : Nat) (cur : Position),
      PieceMovement.slide_loop (mirror_board board) Player.Second dir n (mirror cur) =
        (PieceMovement.slide_loop board Player.First dir n cur).map mirror := by
  intro n
  induction n with
  | zero => intro cur; rfl
  | succ n ih =>
    intro cur
    rw [PieceMovement.slide_loop, PieceMovement.slide_loop, mirror_is_valid]
    by_cases hv : cur.is_valid = true
    · have hp := piece_at_mirror_board board cur hv
      unfold piece_at at hp
      rw [if_pos hv, if_pos hv]
      simp only [hp, swap_owner_is_empty, swap_owner_enemy, mirror_apply_direction, ih]
      generalize board.getD (pos_to_index cur) Piece.empty = pc
      cases h1 : pc.is_empty <;> cases h2 : (pc.owner != Player.First) <;> simp
    · rw [if_neg hv, if_neg hv]
      rfl

theorem mirror_get_sliding_moves (board : List Piece) (dirs : List Direction)
    (from_ : Position) :
    PieceMovement.get_sliding_moves (mirror from_) dirs (mirror_board board) Player.Second =
      (PieceMovement.get_sliding_moves from_ dirs board Player.First).map mirror := by
  simp only [PieceMovement.get_sliding_moves, mirror_apply_direction, mirror_slide_loop,
    List.map_flatMap]

theorem mirror_is_enemy_or_empty (board : List Piece) (s : Position) :
    PieceMovement.is_enemy_or_empty (mirror s) (mirror_board board) Player.Second =
      PieceMovement.is_enemy_or_empty s board Player.First := by
  unfold PieceMovement.is_enemy_or_empty
  rw [mirror_is_valid]
  by_cases hv : s.is_valid = true
  · have hp := piece_at_mirror_board board s hv
    unfold piece_at at hp
    simp only [hv, Bool.not_true, Bool.false_eq_true, if_false, hp, swap_owner_is_empty,
      swap_owner_enemy]
  · simp [hv]

theorem mirror_get_single_step_moves (board : List Piece) (dirs : List Direction)
    (from_ : Position) :
    PieceMovement.get_single_step_moves (mirror from_) dirs (mirror_board board) Player.Second =
      (PieceMovement.get_single_step_moves from_ dirs board Player.First).map mirror := by
  unfold PieceMovement.get_single_step_moves
  induction dirs with
  | nil => rfl
  | cons d ds ih =>
    simp only [mirror_apply_direction] at ih
    simp only [List.map_cons, List.filter_cons, mirror_apply_direction,
      mirror_is_enemy_or_empty]
    split
    · simp only [List.map_cons, ih]
    · exact ih

theorem mem_map_mirror (s : Position) (l : List Position) :
    s ∈ l.map mirror ↔ mirror s ∈ l := by
  rw [List.mem_map]
  constructor
  · rintro ⟨t, ht, rfl⟩
    rw [mirror_mirror]; exact ht
  · intro h
    exact ⟨mirror s, h, mirror_mirror s⟩

/-- C28: movement is mirrored between the players. With `mirror` sending
(row, col) to (8 - row, col) and `mirror_board` the board mirrored with every
owner swapped, for every kind, square and board the destinations of Second's
piece on the mirrored square of the mirrored board are the mirror images of the
destinations of First's piece; `is_promotion_zone` and `must_promote` agree on
mirrored squares in the same way. -/
theorem C28_movement_is_mirrored (kind : PieceType) (from_ : Position) (board : List Piece) :
    (∀ s, s ∈ PieceMovement.get_possible_moves ⟨kind, Player.Second⟩ (mirror from_)
          (mirror_board board) ↔
        s ∈ (PieceMovement.get_possible_moves ⟨kind, Player.First⟩ from_ board).map mirror) ∧
    (∀ pos, PieceMovement.is_promotion_zone (mirror pos) Player.Second =
        PieceMovement.is_promotion_zone pos Player.First) ∧
    (∀ to_, PieceMovement.must_promote ⟨kind, Player.Second⟩ (mirror to_) =
        PieceMovement.must_promote ⟨kind, Player.First⟩ to_) := by
  refine ⟨?_, ?_, ?_⟩
  · intro s
    unfold PieceMovement.get_possible_moves
    simp only [mirror_is_valid, Piece.is_empty]
    by_cases hc : (kind == PieceType.None || !from_.is_valid) = true
    · simp [hc]
    · rw [if_neg hc, if_neg hc]
      cases kind <;>
        simp only [PieceMovement.get_king_moves, PieceMovement.get_rook_moves,
          PieceMovement.get_bishop_moves, PieceMovement.get_gold_moves,
          PieceMovement.get_silver_moves, PieceMovement.get_knight_moves,
          PieceMovement.get_lance_moves, PieceMovement.get_pawn_moves,
          PieceMovement.get_promoted_rook_moves, PieceMovement.get_promoted_bishop_moves,
          mirror_get_sliding_moves, mirror_get_single_step_moves, mem_map_mirror,
          mem_unique_sort, List.mem_append, List.not_mem_nil]
  · intro pos
    rw [Bool.eq_iff_iff]
    simp only [PieceMovement.is_promotion_zone, mirror, decide_eq_true_eq]
    omega
  · intro to_
    rw [Bool.eq_iff_iff]
    simp only [PieceMovement.must_promote, mirror]
    split <;> (try split) <;> simp only [decide_eq_true_eq] <;> omega

end Shogi

namespace Shogi

open BoardState GameLogic

/-! ## Captures and the hands -/

theorem slide_reaches_can_land (board : List Piece) (player : Player) (from_ s : Position)
    (d : Int × Int) (h : slide_reaches board player from_ d s) : can_land board player s := by
  obtain ⟨n, _, _, hvalid, _, hland⟩ := h
  exact ⟨hvalid, hland⟩

/-- Every destination `get_possible_moves` returns is on the board and is empty
or holds a piece of the other player. -/
theorem possible_move_can_land (piece : Piece) (from_ s : Position) (board : List Piece)
    (h : s ∈ PieceMovement.get_possible_moves piece from_ board) :
    can_land board piece.owner s := by
  obtain ⟨kind, player⟩ := piece
  unfold PieceMovement.get_possible_moves at h
  by_cases hc : ((⟨kind, player⟩ : Piece).is_empty || !from_.is_valid) = true
  · rw [if_pos hc] at h
    simp at h
  · rw [if_neg hc] at h
    have hfrom : from_.is_valid = true := by
      cases hv : from_.is_valid with
      | true => rfl
      | false => simp [hv] at hc
    have hstep : ∀ dirs, s ∈ PieceMovement.get_single_step_moves from_ dirs board player →
        can_land board player s := by
      intro dirs hs
      obtain ⟨_, _, _, hland⟩ := (mem_get_single_step_moves board player dirs from_ s).mp hs
      exact hland
    have hrook : s ∈ PieceMovement.get_rook_moves from_ board player →
        can_land board player s := by
      intro hs
      obtain ⟨d, _, hd⟩ := (mem_get_rook_moves board player from_ s hfrom).mp hs
      exact slide_reaches_can_land board player from_ s d hd
    have hbishop : s ∈ PieceMovement.get_bishop_moves from_ board player →
        can_land board player s := by
      intro hs
      obtain ⟨d, _, hd⟩ := (mem_get_bishop_moves board player from_ s hfrom).mp hs
      exact slide_reaches_can_land board player from_ s d hd
    cases kind <;> simp only at h
    · simp at h
    · exact hstep _ h
    · exact hrook h
    · exact hbishop h
    · exact hstep _ h
    · exact hstep _ h
    · exact hstep _ h
    · exact slide_reaches_can_land board player from_ s _
        ((mem_get_lance_moves board player from_ s hfrom).mp h)
    · exact hstep _ h
    · unfold PieceMovement.get_promoted_rook_moves at h
      rw [mem_unique_sort, List.mem_append] at h
      rcases h with h | h
      · exact hrook h
      · exact hstep _ h
    · unfold PieceMovement.get_promoted_bishop_moves at h
      rw [mem_unique_sort, List.mem_append] at h
      rcases h with h | h
      · exact hbishop h
      · exact hstep _ h
    · exact hstep _ h
    · exact hstep _ h
    · exact hstep _ h
    · exact hstep _ h

theorem countP_set (p : Piece → Bool) (x : Piece) :
    ∀ (l : List Piece) (i : Nat), i < l.length →
      (l.set i x).countP p + (if p (l.getD i Piece.empty) then 1 else 0) =
        l.countP p + (if p x then 1 else 0)
  | [], i, h => by simp at h
  | a :: as, 0, _ => by
    simp only [List.set_cons_zero, List.countP_cons, List.getD_cons_zero]
    omega
  | a :: as, i + 1, h => by
    have ih := countP_set p x as i (by simpa using h)
    simp only [List.set_cons_succ, List.countP_cons, List.getD_cons_succ]
    omega

theorem sum_set (v : Nat) :
    ∀ (l : List Nat) (i : Nat), i < l.length →
      (l.set i v).sum + l.getD i 0 = l.sum + v
  | [], i, h => by simp at h
  | a :: as, 0, _ => by
    simp only [List.set_cons_zero, List.sum_cons, List.getD_cons_zero]
    omega
  | a :: as, i + 1, h => by
    have ih := sum_set v as i (by simpa using h)
    simp only [List.set_cons_succ, List.sum_cons, List.getD_cons_succ]
    omega

theorem getD_le_sum : ∀ (l : List Nat) (i : Nat), l.getD i 0 ≤ l.sum
  | [], i => by simp
  | a :: as, 0 => by simp
  | a :: as, i + 1 => by
    have ih := getD_le_sum as i
    simp only [List.getD_cons_succ, List.sum_cons]
    omega

theorem pos_to_index_lt (pos : Position) (h : pos.is_valid = true) : pos_to_index pos < 81 := by
  have hv := (is_valid_iff pos).mp h
  unfold pos_to_index BOARD_COLS
  omega

theorem get_piece_eq (bs : BoardState) (pos : Position) (h : pos.is_valid = true) :
    bs.get_piece pos = piece_at bs.m_board pos := by
  have hlt := pos_to_index_lt pos h
  simp [BoardState.get_piece, h, BoardState.is_valid_index, BOARD_SIZE, hlt, piece_at]

theorem set_piece_eq (bs : BoardState) (pos : Position) (piece : Piece)
    (h : pos.is_valid = true) :
    bs.set_piece pos piece = { bs with m_board := bs.m_board.set (pos_to_index pos) piece } := by
  have hlt := pos_to_index_lt pos h
  simp [BoardState.set_piece, h, BoardState.is_valid_index, BOARD_SIZE, hlt]

/-- The count of a square: one when it holds a piece. -/
theorem material_set_piece (bs : BoardState) (pos : Position) (piece : Piece)
    (h : pos.is_valid = true) (hlen : bs.m_board.length = 81) :
    material (bs.set_piece pos piece) + (if !(bs.get_piece pos).is_empty then 1 else 0) =
      material bs + (if !piece.is_empty then 1 else 0) := by
  have hlt := pos_to_index_lt pos h
  rw [set_piece_eq bs pos piece h, get_piece_eq bs pos h]
  have hc := countP_set (fun p => !p.is_empty) piece bs.m_board (pos_to_index pos)
    (by omega)
  unfold material piece_at
  simp only at hc ⊢
  omega

theorem set_piece_shape (bs : BoardState) (pos : Position) (piece : Piece) :
    (bs.set_piece pos piece).m_board.length = bs.m_board.length ∧
    (bs.set_piece pos piece).m_hands_first = bs.m_hands_first ∧
    (bs.set_piece pos piece).m_hands_second = bs.m_hands_second := by
  unfold BoardState.set_piece
  split
  · exact ⟨rfl, rfl, rfl⟩
  · split
    · exact ⟨rfl, rfl, rfl⟩
    · exact ⟨by simp, rfl, rfl⟩

/-- The function `add_to_hand` with its `switch` written as `base_type`. -/
theorem add_to_hand_eq (bs : BoardState) (player : Player) (kind : PieceType) :
    bs.add_to_hand player kind =
      if piece_to_hand_index (Piece.base_type ⟨kind, player⟩) < 7 then
        bs.set_hand player ((bs.get_hand player).set
          (piece_to_hand_index (Piece.base_type ⟨kind, player⟩))
          (((bs.get_hand player).getD
            (piece_to_hand_index (Piece.base_type ⟨kind, player⟩)) 0 + 1) % 256))
      else bs := by
  cases kind <;> rfl

theorem set_hand_material (bs : BoardState) (player : Player) (i v : Nat) :
    (bs.set_hand player ((bs.get_hand player).set i v)).m_board = bs.m_board ∧
    (bs.set_hand player ((bs.get_hand player).set i v)).m_hands_first.length
      = bs.m_hands_first.length ∧
    (bs.set_hand player ((bs.get_hand player).set i v)).m_hands_second.length
      = bs.m_hands_second.length ∧
    (i < (bs.get_hand player).length →
      material (bs.set_hand player ((bs.get_hand player).set i v)) +
        (bs.get_hand player).getD i 0 = material bs + v) := by
  cases player
  · simp only [BoardState.set_hand, BoardState.get_hand, List.length_set, material]
    refine ⟨trivial, trivial, trivial, ?_⟩
    intro hl
    have hs := sum_set v bs.m_hands_first i hl
    omega
  · simp only [BoardState.set_hand, BoardState.get_hand, List.length_set, material]
    refine ⟨trivial, trivial, trivial, ?_⟩
    intro hl
    have hs := sum_set v bs.m_hands_second i hl
    omega

theorem add_to_hand_shape (bs : BoardState) (player : Player) (kind : PieceType) :
    (bs.add_to_hand player kind).m_board = bs.m_board ∧
    (bs.add_to_hand player kind).m_hands_first.length = bs.m_hands_first.length ∧
    (bs.add_to_hand player kind).m_hands_second.length = bs.m_hands_second.length ∧
    material (bs.add_to_hand player kind) ≤ material bs + 1 := by
  rw [add_to_hand_eq]
  generalize piece_to_hand_index (Piece.base_type ⟨kind, player⟩) = idx
  split
  · obtain ⟨h1, h2, h3, h4⟩ := set_hand_material bs player idx
      (((bs.get_hand player).getD idx 0 + 1) % 256)
    refine ⟨h1, h2, h3, ?_⟩
    by_cases hl : idx < (bs.get_hand player).length
    · have hm := Nat.mod_le ((bs.get_hand player).getD idx 0 + 1) 256
      have := h4 hl
      omega
    · rw [List.set_eq_of_length_le (by omega)]
      cases player <;> simp [BoardState.set_hand, BoardState.get_hand, material]
  · exact ⟨rfl, rfl, rfl, by omega⟩

theorem remove_from_hand_shape (bs : BoardState) (player : Player) (kind : PieceType) :
    (bs.remove_from_hand player kind).2.m_board = bs.m_board ∧
    (bs.remove_from_hand player kind).2.m_hands_first.length = bs.m_hands_first.length ∧
    (bs.remove_from_hand player kind).2.m_hands_second.length = bs.m_hands_second.length ∧
    (bs.get_hand_count player kind ≠ 0 → (bs.get_hand player).length = 7 →
      material (bs.remove_from_hand player kind).2 + 1 = material bs) := by
  unfold BoardState.remove_from_hand BoardState.get_hand_count
  simp only
  generalize piece_to_hand_index kind = idx
  by_cases h7 : idx ≥ 7
  · simp [h7]
  · simp only [h7, if_false]
    by_cases hpos : (bs.get_hand player).getD idx 0 > 0
    · simp only [hpos, if_true]
      obtain ⟨h1, h2, h3, h4⟩ := set_hand_material bs player idx
        ((bs.get_hand player).getD idx 0 - 1)
      refine ⟨h1, h2, h3, ?_⟩
      intro _ hlen
      have := h4 (by omega)
      omega
    · simp only [hpos, if_false]
      refine ⟨trivial, trivial, trivial, ?_⟩
      intro hne
      omega

theorem well_formed_hand_length (bs : BoardState) (h : well_formed bs) (player : Player) :
    (bs.get_hand player).length = 7 := by
  cases player
  · exact h.2.1
  · exact h.2.2.1

theorem well_formed_hand_bound (bs : BoardState) (h : well_formed bs) (player : Player)
    (i : Nat) : (bs.get_hand player).getD i 0 ≤ 40 := by
  have hs := getD_le_sum (bs.get_hand player) i
  have hm := h.2.2.2
  unfold material at hm
  cases player <;> simp only [BoardState.get_hand] at hs ⊢ <;> omega

/-- A normal move that passes `validate_normal_move` leaves the arrays in shape
and puts no new piece in play. -/
theorem execute_normal_move_well_formed (bs : BoardState) (m : Move) (b : Bool)
    (hwf : well_formed bs) (hval : validate_normal_move bs m = GameExpected.value b) :
    well_formed (execute_normal_move bs m) := by
  obtain ⟨hfrom, hne, _, hmem, _⟩ := validate_normal_move_value bs m b hval
  obtain ⟨hto, hland⟩ := possible_move_can_land _ _ _ _ hmem
  obtain ⟨hlen, hf, hs, hmat⟩ := hwf
  have hpf := get_piece_eq bs m.from_ hfrom
  have hpt := get_piece_eq bs m.to_ hto
  unfold execute_normal_move BoardState.clear_piece
  simp only
  generalize hpc : (if (m.is_promotion && (bs.get_piece m.from_).can_promote) = true then
      (⟨(bs.get_piece m.from_).promoted_type, (bs.get_piece m.from_).owner⟩ : Piece)
    else bs.get_piece m.from_) = newpiece
  -- the board after the capture is counted
  have hbs1 : ∀ bs1 : BoardState, bs1.m_board = bs.m_board →
      bs1.m_hands_first.length = 7 → bs1.m_hands_second.length = 7 →
      material bs1 ≤ material bs + (if !(bs.get_piece m.to_).is_empty then 1 else 0) →
      well_formed ((bs1.set_piece m.from_ Piece.empty).set_piece m.to_ newpiece) := by
    intro bs1 hb1 hf1 hs1 hm1
    have hlen1 : bs1.m_board.length = 81 := by rw [hb1]; exact hlen
    have e1 := material_set_piece bs1 m.from_ Piece.empty hfrom hlen1
    have sh1 := set_piece_shape bs1 m.from_ Piece.empty
    have hlen2 : (bs1.set_piece m.from_ Piece.empty).m_board.length = 81 := by
      rw [sh1.1]; exact hlen1
    have e2 := material_set_piece (bs1.set_piece m.from_ Piece.empty) m.to_ newpiece hto hlen2
    have sh2 := set_piece_shape (bs1.set_piece m.from_ Piece.empty) m.to_ newpiece
    have hp1 : bs1.get_piece m.from_ = bs.get_piece m.from_ := by
      rw [get_piece_eq bs1 _ hfrom, hb1, ← hpf]
    have hidx : pos_to_index m.to_ ≠ pos_to_index m.from_ := by
      intro heq
      have hsame : piece_at bs.m_board m.to_ = piece_at bs.m_board m.from_ := by
        unfold piece_at; rw [heq]
      rw [← hpf] at hsame
      rcases hland with he | ⟨_, ho⟩
      · unfold square_empty at he
        show False
        rw [show bs.get_board = bs.m_board from rfl, hsame, hne] at he
        exact Bool.noConfusion he
      · apply ho
        rw [show bs.get_board = bs.m_board from rfl, hsame]
    have hp2 : (bs1.set_piece m.from_ Piece.empty).get_piece m.to_ = bs.get_piece m.to_ := by
      rw [get_piece_eq _ _ hto, set_piece_eq bs1 _ _ hfrom, hpt]
      unfold piece_at
      simp only
      rw [hb1, List.getD_eq_getElem?_getD, List.getElem?_set_ne (Ne.symm hidx),
        ← List.getD_eq_getElem?_getD]
    have c1 : (if (!(bs1.get_piece m.from_).is_empty) = true then 1 else 0) = 1 := by
      rw [hp1, hne]; rfl
    have c2 : (if (!Piece.empty.is_empty) = true then 1 else 0) = 0 := rfl
    rw [c1, c2] at e1
    rw [hp2] at e2
    refine ⟨by rw [sh2.1]; exact hlen2, by rw [sh2.2.1, sh1.2.1]; exact hf1,
      by rw [sh2.2.2, sh1.2.2]; exact hs1, ?_⟩
    have hnp : (if (!newpiece.is_empty) = true then 1 else 0) ≤ 1 := by split <;> omega
    omega
  split
  · obtain ⟨a1, a2, a3, a4⟩ := add_to_hand_shape bs (bs.get_piece m.from_).owner
      (bs.get_piece m.to_).type
    apply hbs1 _ a1 (by rw [a2]; exact hf) (by rw [a3]; exact hs)
    rename_i hcap
    simp only [hcap, if_true]
    exact a4
  · exact hbs1 bs rfl hf hs (by omega)

/-- A drop that passes `validate_drop_move` leaves the arrays in shape and puts
no new piece in play. -/
theorem execute_drop_move_well_formed (fuel : Nat) (bs : BoardState) (m : Move) (b : Bool)
    (hwf : well_formed bs) (hval : validate_drop_move fuel bs m = some (GameExpected.value b)) :
    well_formed (execute_drop_move bs m) := by
  obtain ⟨hto, hcount⟩ := validate_drop_move_value fuel bs m b hval
  have hhl := well_formed_hand_length bs hwf bs.current_player
  obtain ⟨hlen, hf, hs, hmat⟩ := hwf
  unfold execute_drop_move
  simp only
  obtain ⟨r1, r2, r3, r4⟩ := remove_from_hand_shape bs bs.current_player m.drop_piece
  have hm1 := r4 hcount hhl
  have hlen1 : (bs.remove_from_hand bs.current_player m.drop_piece).2.m_board.length = 81 := by
    rw [r1]; exact hlen
  have e := material_set_piece (bs.remove_from_hand bs.current_player m.drop_piece).2 m.to_
    ⟨m.drop_piece, bs.current_player⟩ hto hlen1
  have sh := set_piece_shape (bs.remove_from_hand bs.current_player m.drop_piece).2 m.to_
    ⟨m.drop_piece, bs.current_player⟩
  refine ⟨by rw [sh.1]; exact hlen1, by rw [sh.2.1, r2]; exact hf,
    by rw [sh.2.2, r3]; exact hs, ?_⟩
  have hnp : (if (!(⟨m.drop_piece, bs.current_player⟩ : Piece).is_empty) = true then 1 else 0)
      ≤ 1 := by split <;> omega
  omega

theorem check_game_end_board_state (fuel : Nat) (g g1 : GameLogic)
    (h : check_game_end fuel g = some g1) : g1.m_board_state = g.m_board_state := by
  unfold check_game_end at h
  simp only at h
  split at h
  · simp at h
  · simp only [Option.some.injEq] at h
    rw [← h]
  · split at h
    · simp at h
    · simp only [Option.some.injEq] at h
      rw [← h]
    · simp only [Option.some.injEq] at h
      rw [← h]

/-- What a successful `make_move` has done: the game was not over, the move
passed the applicable validation and the self-check test, and the board is the
one `execute_move` leaves, with the player switched. -/
theorem make_move_value_state (fuel : Nat) (g g1 : GameLogic) (m : Move) (b : Bool)
    (h : make_move fuel g m = some (GameExpected.value b, g1)) :
    g.m_game_result = GameResult.None ∧
    (∃ b0, applicable_validation fuel g.m_board_state m = some (GameExpected.value b0)) ∧
    would_be_in_check_after_move g.m_board_state m g.m_board_state.current_player = false ∧
    g1.m_board_state = (execute_move g.m_board_state m).switch_player := by
  unfold make_move at h
  by_cases c1 : (g.m_game_result != GameResult.None) = true
  · rw [if_pos c1] at h
    simp at h
  rw [if_neg c1] at h
  have hres : g.m_game_result = GameResult.None := by simpa using c1
  cases hv : (if m.is_drop = true then validate_drop_move fuel g.m_board_state m
      else some (validate_normal_move g.m_board_state m)) with
  | none => simp [hv] at h
  | some v =>
    rw [hv] at h
    cases v with
    | error e => simp at h
    | value b0 =>
      simp only at h
      by_cases c2 : would_be_in_check_after_move g.m_board_state m
          g.m_board_state.current_player = true
      · rw [if_pos c2] at h
        simp at h
      · rw [if_neg c2] at h
        cases hce : check_game_end fuel
            { m_board_state := (execute_move g.m_board_state m).switch_player,
              m_game_result := g.m_game_result } with
        | none => simp [hce] at h
        | some g3 =>
          rw [hce] at h
          simp only [Option.some.injEq, Prod.mk.injEq] at h
          refine ⟨hres, ⟨b0, hv⟩, by simpa using c2, ?_⟩
          rw [← h.2]
          exact check_game_end_board_state fuel _ g3 hce

theorem initial_position_well_formed : well_formed initial_position := by
  refine ⟨by decide, by decide, by decide, by decide⟩

theorem execute_move_well_formed (fuel : Nat) (bs : BoardState) (m : Move) (b : Bool)
    (hwf : well_formed bs)
    (hval : applicable_validation fuel bs m = some (GameExpected.value b)) :
    well_formed (execute_move bs m) := by
  unfold applicable_validation at hval
  unfold execute_move
  by_cases hd : m.is_drop = true
  · rw [if_pos hd] at hval ⊢
    exact execute_drop_move_well_formed fuel bs m b hwf hval
  · rw [if_neg hd] at hval ⊢
    simp only [Option.some.injEq] at hval
    exact execute_normal_move_well_formed bs m b hwf hval

/-- In every state a game reaches the arrays are in shape and at most forty
pieces are in play; in particular no hand counter is near 255. -/
theorem reachable_well_formed (g : GameLogic) (h : Reachable g) :
    well_formed g.m_board_state := by
  induction h with
  | reset g0 =>
    rw [reset_game_eq]
    exact initial_position_well_formed
  | move fuel g0 g1 m r _ hmove ih =>
    cases r with
    | error e =>
      rw [make_move_error_state fuel g0 g1 m e hmove]
      exact ih
    | value b =>
      obtain ⟨_, ⟨b0, hval⟩, _, hbs⟩ := make_move_value_state fuel g0 g1 m b hmove
      rw [hbs]
      exact execute_move_well_formed fuel _ m b0 ih hval

theorem piece_to_hand_index_inj (a b : PieceType) (ha : piece_to_hand_index a < 7)
    (h : piece_to_hand_index a = piece_to_hand_index b) : a = b := by
  cases a <;> cases b <;> first | rfl | (exfalso; revert ha h; decide)

theorem base_type_hand_index (kind : PieceType) (owner : Player) (h1 : kind ≠ PieceType.None)
    (h2 : kind ≠ PieceType.King) : piece_to_hand_index (Piece.base_type ⟨kind, owner⟩) < 7 := by
  cases kind <;> first | exact absurd rfl h1 | exact absurd rfl h2 | (cases owner <;> decide)

theorem base_type_owner (kind : PieceType) (o1 o2 : Player) :
    Piece.base_type ⟨kind, o1⟩ = Piece.base_type ⟨kind, o2⟩ := by
  cases kind <;> rfl

theorem get_hand_set_hand (bs : BoardState) (player other : Player) (h : Hand) :
    (bs.set_hand player h).get_hand other = if other = player then h else bs.get_hand other := by
  cases player <;> cases other <;> rfl

theorem getD_set (l : List Nat) (i j v : Nat) (h : i < l.length) :
    (l.set i v).getD j 0 = if j = i then v else l.getD j 0 := by
  rw [List.getD_eq_getElem?_getD, List.getD_eq_getElem?_getD]
  by_cases hij : j = i
  · subst hij
    simp [h]
  · rw [if_neg hij, List.getElem?_set_ne (Ne.symm hij)]

/-- The counters after `add_to_hand` for a kind other than None and King, when
the counter raised is not at the top of its range. -/
theorem add_to_hand_count (bs : BoardState) (player : Player) (kind : PieceType)
    (hlen : (bs.get_hand player).length = 7)
    (hbound : ∀ i, (bs.get_hand player).getD i 0 ≤ 40)
    (h1 : kind ≠ PieceType.None) (h2 : kind ≠ PieceType.King)
    (other : Player) (k : PieceType) :
    (bs.add_to_hand player kind).get_hand_count other k =
      bs.get_hand_count other k +
        (if other = player ∧ k = Piece.base_type ⟨kind, player⟩ then 1 else 0) := by
  have hidx := base_type_hand_index kind player h1 h2
  rw [add_to_hand_eq, if_pos hidx]
  unfold BoardState.get_hand_count
  simp only
  by_cases h7 : piece_to_hand_index k ≥ 7
  · have hne : k ≠ Piece.base_type ⟨kind, player⟩ := by
      intro heq
      rw [heq] at h7
      omega
    simp [h7, hne]
  · simp only [h7, if_false, get_hand_set_hand]
    by_cases ho : other = player
    · subst ho
      simp only [if_true, true_and]
      rw [getD_set _ _ _ _ (by omega)]
      have hb := hbound (piece_to_hand_index (Piece.base_type ⟨kind, other⟩))
      by_cases hk : k = Piece.base_type ⟨kind, other⟩
      · subst hk
        simp only [if_true]
        omega
      · have hne : piece_to_hand_index k ≠
            piece_to_hand_index (Piece.base_type ⟨kind, other⟩) := by
          intro heq
          exact hk (piece_to_hand_index_inj _ _ (by omega) heq)
        simp only [hne, hk, if_false]
        omega
    · simp [ho]

theorem set_piece_get_hand (bs : BoardState) (pos : Position) (piece : Piece)
    (player : Player) : (bs.set_piece pos piece).get_hand player = bs.get_hand player := by
  have h := set_piece_shape bs pos piece
  cases player
  · exact h.2.1
  · exact h.2.2

theorem get_hand_count_congr (bs1 bs2 : BoardState)
    (h : ∀ player, bs1.get_hand player = bs2.get_hand player) (player : Player)
    (k : PieceType) : bs1.get_hand_count player k = bs2.get_hand_count player k := by
  unfold BoardState.get_hand_count
  rw [h]

/-- For `GameLogic::make_move`: when a successful normal move lands on a square
holding a piece other than a King, the mover's counter for the base kind of
that piece goes up by one and no other counter of either hand changes. -/
theorem make_move_capture_hands (g : GameLogic) (hreach : Reachable g) (fuel : Nat) (m : Move)
    (b : Bool) (g1 : GameLogic)
    (hmove : make_move fuel g m = some (GameExpected.value b, g1))
    (hnormal : m.is_drop = false)
    (hocc : (g.m_board_state.get_piece m.to_).is_empty = false)
    (hking : (g.m_board_state.get_piece m.to_).type ≠ PieceType.King)
    (player : Player) (k : PieceType) :
    g1.m_board_state.get_hand_count player k =
      g.m_board_state.get_hand_count player k +
        (if player = g.m_board_state.current_player ∧
            k = (g.m_board_state.get_piece m.to_).base_type then 1 else 0) := by
  have hwf := reachable_well_formed g hreach
  obtain ⟨_, ⟨b0, hval⟩, _, hbs⟩ := make_move_value_state fuel g g1 m b hmove
  unfold applicable_validation at hval
  simp only [hnormal, Bool.false_eq_true, if_false, Option.some.injEq] at hval
  obtain ⟨_, _, hown, _, _⟩ := validate_normal_move_value g.m_board_state m b0 hval
  have hnone : (g.m_board_state.get_piece m.to_).type ≠ PieceType.None := by
    intro hn
    simp [Piece.is_empty, hn] at hocc
  have hstep : g1.m_board_state.get_hand_count player k =
      (g.m_board_state.add_to_hand g.m_board_state.current_player
        (g.m_board_state.get_piece m.to_).type).get_hand_count player k := by
    apply get_hand_count_congr
    intro p
    rw [hbs]
    unfold execute_move execute_normal_move BoardState.clear_piece
    simp only [hnormal, Bool.false_eq_true, if_false, hocc, Bool.not_false, if_true, hown]
    show ((_ : BoardState).set_piece _ _).get_hand p = _
    rw [set_piece_get_hand, set_piece_get_hand]
  rw [hstep, add_to_hand_count _ _ _ (well_formed_hand_length _ hwf _)
    (well_formed_hand_bound _ hwf _) hnone hking]
  have hb : Piece.base_type ⟨(g.m_board_state.get_piece m.to_).type,
      g.m_board_state.current_player⟩ = (g.m_board_state.get_piece m.to_).base_type :=
    base_type_owner _ _ _
  rw [hb]

end Shogi

namespace ShogiCore

open Board

theorem setPiece_hands (b : Board) (pos : Position) (piece : Piece) :
    (b.setPiece pos piece).senteHand_ = b.senteHand_ ∧
    (b.setPiece pos piece).goteHand_ = b.goteHand_ ∧
    (b.setPiece pos piece).currentPlayer_ = b.currentPlayer_ := by
  unfold Board.setPiece
  split <;> exact ⟨rfl, rfl, rfl⟩

theorem toInt_inj (a b : PieceType) (h : a.toInt = b.toInt) : a = b := by
  cases a <;> cases b <;> first | rfl | (exfalso; revert h; decide)

theorem getD_set_int (l : List Int) (i j : Nat) (v : Int) (h : i < l.length) :
    (l.set i v).getD j 0 = if j = i then v else l.getD j 0 := by
  rw [List.getD_eq_getElem?_getD, List.getD_eq_getElem?_getD]
  by_cases hij : j = i
  · subst hij
    simp [h]
  · rw [if_neg hij, List.getElem?_set_ne (Ne.symm hij)]

theorem getHand_setHand (b : Board) (player other : Player) (h : List Int) :
    (b.setHand player h).getHand other =
      if same_hand other player = true then h else b.getHand other := by
  cases player <;> cases other <;> rfl

theorem getHand_same_hand (b : Board) (player other : Player)
    (h : same_hand other player = true) : b.getHand other = b.getHand player := by
  cases player <;> cases other <;> first | rfl | (exfalso; revert h; decide)

/-- The counters after `addToHand` for a kind other than None and King. -/
theorem addToHand_count (b : Board) (player : Player) (kind : PieceType)
    (hwf : hands_well_formed b) (h1 : kind ≠ PieceType.None) (h2 : kind ≠ PieceType.King)
    (other : Player) (k : PieceType) (hk : k ∈ hand_kinds) :
    hand_count (b.addToHand player kind) other k =
      if same_hand other player = true ∧ k = (Piece.demote ⟨kind, player⟩).getType
        then wrap_int (hand_count b other k + 1) else hand_count b other k := by
  have hbase : (if kind.toInt ≥ PieceType.PromotedPawn.toInt then
      (Piece.demote ⟨kind, player⟩).getType else kind) = (Piece.demote ⟨kind, player⟩).getType := by
    cases kind <;> rfl
  have hrange : 1 ≤ (Piece.demote ⟨kind, player⟩).getType.toInt ∧
      (Piece.demote ⟨kind, player⟩).getType.toInt ≤ 7 := by
    cases kind <;> first | exact absurd rfl h1 | exact absurd rfl h2 |
      (cases player <;> decide)
  have hkr : 1 ≤ k.toInt ∧ k.toInt ≤ 7 := by
    simp only [hand_kinds, List.mem_cons, List.mem_singleton, List.not_mem_nil,
      or_false] at hk
    rcases hk with rfl | rfl | rfl | rfl | rfl | rfl | rfl <;> decide
  have hlen : (b.getHand player).length = 7 := by
    unfold Board.getHand
    split
    · exact hwf.1
    · exact hwf.2
  unfold Board.addToHand
  simp only [hbase]
  rw [if_neg (by simp [h1, h2])]
  generalize (Piece.demote ⟨kind, player⟩).getType = base at hrange ⊢
  rw [if_pos (by omega)]
  unfold hand_count
  rw [getHand_setHand]
  by_cases hs : same_hand other player = true
  · rw [if_pos hs, getD_set_int _ _ _ _ (by omega), getHand_same_hand b player other hs]
    by_cases hkb : k = base
    · subst hkb
      simp [hs]
    · have hne : (k.toInt - 1).toNat ≠ (base.toInt - 1).toNat := by
        intro heq
        apply hkb
        apply toInt_inj
        omega
      rw [if_neg hne, if_neg (fun h => hkb h.2)]
  · simp [hs]

theorem hand_count_congr (b1 b2 : Board) (hs : b1.senteHand_ = b2.senteHand_)
    (hg : b1.goteHand_ = b2.goteHand_) (player : Player) (k : PieceType) :
    hand_count b1 player k = hand_count b2 player k := by
  unfold hand_count Board.getHand
  rw [hs, hg]

theorem demote_type_player (kind : PieceType) (p1 p2 : Player) :
    (Piece.demote ⟨kind, p1⟩).getType = (Piece.demote ⟨kind, p2⟩).getType := by
  cases kind <;> rfl

/-- For `core::Board::makeMove`: when a successful normal move lands on a square
holding a piece other than a King, the mover's counter for the demoted kind of
that piece is incremented as an `int` and no other counter of either hand changes. -/
theorem makeMove_capture_hands (board board1 : Board) (move : Move)
    (hwf : hands_well_formed board) (hmove : board.makeMove move = (true, board1))
    (hnormal : move.isDrop = false)
    (hocc : (board.getPiece move.getTo).isEmpty = false)
    (hking : (board.getPiece move.getTo).getType ≠ PieceType.King)
    (player : Player) (k : PieceType) (hk : k ∈ hand_kinds) :
    hand_count board1 player k =
      if same_hand player board.getCurrentPlayer = true ∧
          k = (board.getPiece move.getTo).demote.getType
        then wrap_int (hand_count board player k + 1) else hand_count board player k := by
  have hnone : (board.getPiece move.getTo).getType ≠ PieceType.None := by
    intro hn
    simp [Piece.isEmpty, Piece.getType] at hocc hn
    exact hocc hn
  obtain ⟨B2, hB2⟩ : ∃ B2, B2 = (board.setPiece move.getTo
      (if (move.isPromotion && (board.getPiece move.getFrom).canPromote) = true then
        (board.getPiece move.getFrom).promote else board.getPiece move.getFrom)).setPiece
      move.getFrom Piece.empty := ⟨_, rfl⟩
  have hB2s : B2.senteHand_ = board.senteHand_ := by
    rw [hB2, (setPiece_hands _ _ _).1, (setPiece_hands _ _ _).1]
  have hB2g : B2.goteHand_ = board.goteHand_ := by
    rw [hB2, (setPiece_hands _ _ _).2.1, (setPiece_hands _ _ _).2.1]
  have hB2c : B2.currentPlayer_ = board.currentPlayer_ := by
    rw [hB2, (setPiece_hands _ _ _).2.2, (setPiece_hands _ _ _).2.2]
  have hwf2 : hands_well_formed B2 := by
    unfold hands_well_formed
    rw [hB2s, hB2g]
    exact hwf
  have hb1 : hand_count board1 player k =
      hand_count (B2.addToHand B2.currentPlayer_ (board.getPiece move.getTo).getType)
        player k := by
    unfold Board.makeMove at hmove
    simp only [hnormal, Bool.false_eq_true, if_false] at hmove
    split at hmove
    · simp only [hocc, Bool.not_false, if_true, Prod.mk.injEq, true_and, ← hB2] at hmove
      rw [← hmove]
      rfl
    · simp at hmove
  rw [hb1, addToHand_count B2 _ _ hwf2 hnone hking player k hk, hB2c,
    hand_count_congr B2 board hB2s hB2g]
  have hdem : (Piece.demote ⟨(board.getPiece move.getTo).getType, board.currentPlayer_⟩).getType
      = (board.getPiece move.getTo).demote.getType :=
    demote_type_player _ _ _
  rw [hdem]
  rfl

theorem wrap_int_of_range (x : Int) (h1 : INT_MIN ≤ x) (h2 : x ≤ INT_MAX) : wrap_int x = x := by
  unfold INT_MIN at h1
  unfold INT_MAX at h2
  unfold wrap_int
  omega

/-- The same with the mover's counter below `INT_MAX`: the counter goes up by exactly one. -/
theorem makeMove_capture_hands_bounded (board board1 : Board) (move : Move)
    (hwf : hands_well_formed board) (hmove : board.makeMove move = (true, board1))
    (hnormal : move.isDrop = false)
    (hocc : (board.getPiece move.getTo).isEmpty = false)
    (hking : (board.getPiece move.getTo).getType ≠ PieceType.King)
    (hlow : INT_MIN ≤ hand_count board board.getCurrentPlayer
      (board.getPiece move.getTo).demote.getType)
    (hhigh : hand_count board board.getCurrentPlayer
      (board.getPiece move.getTo).demote.getType < INT_MAX)
    (player : Player) (k : PieceType) (hk : k ∈ hand_kinds) :
    hand_count board1 player k =
      hand_count board player k +
        (if same_hand player board.getCurrentPlayer = true ∧
            k = (board.getPiece move.getTo).demote.getType then 1 else 0) := by
  rw [makeMove_capture_hands board board1 move hwf hmove hnormal hocc hking player k hk]
  by_cases hc : same_hand player board.getCurrentPlayer = true ∧
      k = (board.getPiece move.getTo).demote.getType
  · rw [if_pos hc, if_pos hc]
    have heq : hand_count board player k = hand_count board board.getCurrentPlayer
        (board.getPiece move.getTo).demote.getType := by
      unfold hand_count
      rw [getHand_same_hand board board.getCurrentPlayer player hc.1, hc.2]
    rw [heq]
    apply wrap_int_of_range
    · unfold INT_MIN at hlow ⊢
      omega
    · omega
  · rw [if_neg hc, if_neg hc, add_zero]

end ShogiCore

namespace Shogi

open BoardState GameLogic

/-- C23: when a successful normal move lands on a square holding a piece of a
kind other than King, the mover's hand counter for the unpromoted base kind of
that piece goes up by exactly one and every other counter of both hands is
unchanged. For `GameLogic::make_move` this is proved on every state a game
reaches (there no counter is near the top of its `uint8_t` range). For
`core::Board::makeMove` it is proved on every board, its two hand arrays
holding their seven counters, for the seven kinds a hand has a counter for:
the mover's counter is incremented as an `int`, which is one more whenever the
counter is an `int` below `INT_MAX`. -/
theorem C23_capture_goes_to_hand :
    (∀ (g : GameLogic) (fuel : Nat) (m : Move) (b : Bool) (g1 : GameLogic),
      Reachable g → make_move fuel g m = some (GameExpected.value b, g1) →
      m.is_drop = false → (g.m_board_state.get_piece m.to_).is_empty = false →
      (g.m_board_state.get_piece m.to_).type ≠ PieceType.King →
      ∀ (player : Player) (k : PieceType),
        g1.m_board_state.get_hand_count player k =
          g.m_board_state.get_hand_count player k +
            (if player = g.m_board_state.current_player ∧
                k = (g.m_board_state.get_piece m.to_).base_type then 1 else 0)) ∧
    (∀ (board board1 : ShogiCore.Board) (move : ShogiCore.Move),
      ShogiCore.hands_well_formed board → board.makeMove move = (true, board1) →
      move.isDrop = false → (board.getPiece move.getTo).isEmpty = false →
      (board.getPiece move.getTo).getType ≠ ShogiCore.PieceType.King →
      (∀ (player : ShogiCore.Player) (k : ShogiCore.PieceType), k ∈ ShogiCore.hand_kinds →
        ShogiCore.hand_count board1 player k =
          if ShogiCore.same_hand player board.getCurrentPlayer = true ∧
              k = (board.getPiece move.getTo).demote.getType
            then ShogiCore.wrap_int (ShogiCore.hand_count board player k + 1)
            else ShogiCore.hand_count board player k) ∧
      (ShogiCore.INT_MIN ≤ ShogiCore.hand_count board board.getCurrentPlayer
          (board.getPiece move.getTo).demote.getType →
        ShogiCore.hand_count board board.getCurrentPlayer
          (board.getPiece move.getTo).demote.getType < ShogiCore.INT_MAX →
        ∀ (player : ShogiCore.Player) (k : ShogiCore.PieceType), k ∈ ShogiCore.hand_kinds →
          ShogiCore.hand_count board1 player k =
            ShogiCore.hand_count board player k +
              (if ShogiCore.same_hand player board.getCurrentPlayer = true ∧
                  k = (board.getPiece move.getTo).demote.getType then 1 else 0))) := by
  refine ⟨?_, ?_⟩
  · intro g fuel m b g1 hreach hmove hnormal hocc hking player k
    exact make_move_capture_hands g hreach fuel m b g1 hmove hnormal hocc hking player k
  · intro board board1 move hwf hmove hnormal hocc hking
    refine ⟨?_, ?_⟩
    · intro player k hk
      exact ShogiCore.makeMove_capture_hands board board1 move hwf hmove hnormal hocc hking
        player k hk
    · intro hlow hhigh player k hk
      exact ShogiCore.makeMove_capture_hands_bounded board board1 move hwf hmove hnormal hocc
        hking hlow hhigh player k hk

/-- Two instances of C23. On `tokin_game` First's promoted pawn takes the pawn
on (2,3) and First's pawn counter goes from one to two; on `c1_board` Sente's
gold takes Gote's promoted pawn and Sente's pawn counter goes from zero to one. -/
theorem C23_capture_goes_to_hand_witness :
    make_move 1 tokin_game c23_move = some (GameExpected.value true, c23_after) ∧
    tokin_game.m_board_state.get_hand_count Player.First PieceType.Pawn = 1 ∧
    c23_after.m_board_state.get_hand_count Player.First PieceType.Pawn = 2 ∧
    ShogiCore.hand_count ShogiCore.c1_board ShogiCore.Player.Sente ShogiCore.PieceType.Pawn = 0 ∧
    ShogiCore.hand_count (ShogiCore.c1_board.makeMove ShogiCore.c1_move).2
      ShogiCore.Player.Sente ShogiCore.PieceType.Pawn = 1 :=
  have hplay : make_move 1 tokin_game c23_move = some (GameExpected.value true, c23_after) := by
    decide!
  ⟨hplay, by decide,
   (C23_capture_goes_to_hand.1 tokin_game 1 c23_move true c23_after tokin_game_reachable hplay
      (by decide) (by decide) (by decide) Player.First PieceType.Pawn).trans (by decide),
   by decide,
   ((C23_capture_goes_to_hand.2 ShogiCore.c1_board
      (ShogiCore.c1_board.makeMove ShogiCore.c1_move).2
      ShogiCore.c1_move ⟨by decide, by decide⟩ (by decide) (by decide) (by decide)
      (by decide)).2 (by decide) (by decide)
      ShogiCore.Player.Sente ShogiCore.PieceType.Pawn (by decide)).trans (by decide)⟩

/-- The claim C23 fails for `core::Board::makeMove` when the mover's counter is
`INT_MAX`: on `c23_full_board` Sente's gold takes Gote's promoted pawn, the move
succeeds, and Sente's pawn counter, 2147483647 before, is -2147483648 after,
not one more. -/
theorem C23_counterexample :
    ShogiCore.hands_well_formed ShogiCore.c23_full_board ∧
    (ShogiCore.c23_full_board.makeMove ShogiCore.c1_move).1 = true ∧
    ShogiCore.c1_move.isDrop = false ∧
    (ShogiCore.c23_full_board.getPiece ShogiCore.c1_move.getTo).getType
      = ShogiCore.PieceType.PromotedPawn ∧
    (ShogiCore.c23_full_board.getPiece ShogiCore.c1_move.getTo).demote.getType
      = ShogiCore.PieceType.Pawn ∧
    ShogiCore.c23_full_board.getCurrentPlayer = ShogiCore.Player.Sente ∧
    ShogiCore.hand_count ShogiCore.c23_full_board ShogiCore.Player.Sente
      ShogiCore.PieceType.Pawn = 2147483647 ∧
    ShogiCore.hand_count (ShogiCore.c23_full_board.makeMove ShogiCore.c1_move).2
      ShogiCore.Player.Sente ShogiCore.PieceType.Pawn = -2147483648 ∧
    ShogiCore.hand_count (ShogiCore.c23_full_board.makeMove ShogiCore.c1_move).2
      ShogiCore.Player.Sente ShogiCore.PieceType.Pawn ≠
        ShogiCore.hand_count ShogiCore.c23_full_board ShogiCore.Player.Sente
          ShogiCore.PieceType.Pawn + 1 :=
  ⟨⟨by decide, by decide⟩, by decide, by decide, by decide, by decide, by decide, by decide,
    by decide, by decide⟩

end Shogi

namespace Shogi

open BoardState GameLogic

/-! ## The two queries for the user interface -/

theorem c29_line_plays : play 1 initial_game c29_line = some c29_game := by decide!

theorem c29_game_reachable : Reachable c29_game :=
  play_reachable 1 c29_line initial_game c29_game initial_game_reachable c29_line_plays

/-- When the move list of the new side to move never comes, `make_move` does
not return for a drop that passes both of its tests. -/
theorem make_move_drop_never_returns (g : GameLogic) (m : Move) (b : Bool) (fuel0 : Nat)
    (hres : g.m_game_result = GameResult.None) (hdrop : m.is_drop = true)
    (hval : validate_drop_move fuel0 g.m_board_state m = some (GameExpected.value b))
    (hchk : would_be_in_check_after_move g.m_board_state m g.m_board_state.current_player
      = false)
    (hgen : ∀ fuel, generate_all_moves fuel (execute_move g.m_board_state m).switch_player
      ((execute_move g.m_board_state m).switch_player).current_player = none) :
    ∀ fuel, make_move fuel g m = none := by
  intro fuel
  have hce : check_game_end fuel
      { m_board_state := (execute_move g.m_board_state m).switch_player,
        m_game_result := GameResult.None } = none := by
    cases hnot : ((execute_move g.m_board_state m).switch_player).is_in_check
        ((execute_move g.m_board_state m).switch_player).current_player <;>
      simp [check_game_end, is_checkmate, is_stalemate, GameLogic.is_in_check, hnot, hgen fuel]
  cases hv : validate_drop_move fuel g.m_board_state m with
  | none => simp [make_move, hres, hdrop, hv]
  | some r =>
    have h1 := validate_drop_move_mono _ _ _ fuel (max fuel fuel0) (le_max_left _ _) hv
    have h2 := validate_drop_move_mono _ _ _ fuel0 (max fuel fuel0) (le_max_right _ _) hval
    rw [h1] at h2
    simp only [Option.some.injEq] at h2
    subst h2
    simp [make_move, hres, hdrop, hv, hchk, hce]

/-- What `droppable_loop` keeps when it returns: the kinds of the slots that
hold something, for which the validator returned a value and the drop does not
leave the mover's king attacked. -/
theorem mem_droppable_loop (v : Move → Option GameExpected) (bs : BoardState) (to_ : Position)
    (k : PieceType) :
    ∀ (slots : List Nat) (kinds : List PieceType),
      droppable_loop v bs to_ slots = some kinds →
      (k ∈ kinds ↔ ∃ i ∈ slots, (bs.get_hand bs.current_player).getD i 0 > 0 ∧
        piece_types.getD i PieceType.None = k ∧
        (∃ b, v (Move.drop to_ k) = some (GameExpected.value b)) ∧
        would_be_in_check_after_move bs (Move.drop to_ k) bs.current_player = false) := by
  intro slots
  induction slots with
  | nil =>
    intro kinds h
    simp only [droppable_loop, Option.some.injEq] at h
    simp [← h]
  | cons i rest ih =>
    intro kinds h
    unfold droppable_loop at h
    by_cases hh : (bs.get_hand bs.current_player).getD i 0 > 0
    · rw [if_pos hh] at h
      simp only at h
      cases hv : v (Move.drop to_ (piece_types.getD i PieceType.None)) with
      | none =>
        rw [hv] at h
        simp at h
      | some r =>
        rw [hv] at h
        cases hl : droppable_loop v bs to_ rest with
        | none =>
          rw [hl] at h
          simp at h
        | some kinds1 =>
          rw [hl] at h
          simp only [Option.some.injEq] at h
          have ih1 := ih kinds1 hl
          by_cases hc : (r.has_value && !would_be_in_check_after_move bs
              (Move.drop to_ (piece_types.getD i PieceType.None)) bs.current_player) = true
          · rw [if_pos hc] at h
            rw [← h, List.mem_cons, ih1]
            simp only [Bool.and_eq_true, has_value_iff, Bool.not_eq_true'] at hc
            constructor
            · rintro (rfl | ⟨j, hj, hrest⟩)
              · refine ⟨i, List.mem_cons_self _ _, hh, rfl, ?_, hc.2⟩
                obtain ⟨b, hb⟩ := hc.1
                exact ⟨b, by rw [hv, hb]⟩
              · exact ⟨j, List.mem_cons_of_mem _ hj, hrest⟩
            · rintro ⟨j, hj, hrest⟩
              rcases List.mem_cons.mp hj with rfl | hj
              · exact Or.inl hrest.2.1.symm
              · exact Or.inr ⟨j, hj, hrest⟩
          · rw [if_neg hc] at h
            rw [← h, ih1]
            constructor
            · rintro ⟨j, hj, hrest⟩
              exact ⟨j, List.mem_cons_of_mem _ hj, hrest⟩
            · rintro ⟨j, hj, hrest⟩
              rcases List.mem_cons.mp hj with rfl | hj
              · exfalso
                apply hc
                obtain ⟨_, hk, ⟨b, hb⟩, hchk⟩ := hrest
                rw [← hk] at hb hchk
                rw [hv] at hb
                simp only [Option.some.injEq] at hb
                rw [hb, hchk]
                rfl
              · exact ⟨j, hj, hrest⟩
    · rw [if_neg hh] at h
      rw [ih kinds h]
      constructor
      · rintro ⟨j, hj, hrest⟩
        exact ⟨j, List.mem_cons_of_mem _ hj, hrest⟩
      · rintro ⟨j, hj, hrest⟩
        rcases List.mem_cons.mp hj with rfl | hj
        · exact absurd hrest.1 hh
        · exact ⟨j, hj, hrest⟩

/-- When `get_droppable_pieces` returns, every kind it lists is one of the
seven kinds of `piece_types`, the drop has passed `validate_drop_move` and it
does not leave the mover's king attacked. -/
theorem get_droppable_pieces_sound (fuel : Nat) (g : GameLogic) (to_ : Position)
    (kinds : List PieceType) (k : PieceType)
    (h : get_droppable_pieces fuel g to_ = some kinds) (hk : k ∈ kinds) :
    k ∈ piece_types ∧
    (∃ b, validate_drop_move fuel g.m_board_state (Move.drop to_ k)
      = some (GameExpected.value b)) ∧
    would_be_in_check_after_move g.m_board_state (Move.drop to_ k)
      g.m_board_state.current_player = false := by
  unfold get_droppable_pieces at h
  by_cases he : (!(g.m_board_state.get_piece to_).is_empty) = true
  · rw [if_pos he] at h
    simp only [Option.some.injEq] at h
    rw [← h] at hk
    simp at hk
  · rw [if_neg he] at h
    obtain ⟨i, hi, _, hkind, hval, hchk⟩ :=
      (mem_droppable_loop _ _ _ k _ kinds h).mp hk
    refine ⟨?_, hval, hchk⟩
    rw [← hkind]
    simp only [List.mem_range] at hi
    have h7 : i = 0 ∨ i = 1 ∨ i = 2 ∨ i = 3 ∨ i = 4 ∨ i = 5 ∨ i = 6 := by omega
    rcases h7 with rfl | rfl | rfl | rfl | rfl | rfl | rfl <;> decide

/-- On an occupied square `get_droppable_pieces` returns the empty list. -/
theorem get_droppable_pieces_occupied (fuel : Nat) (g : GameLogic) (to_ : Position)
    (h : (g.m_board_state.get_piece to_).is_empty = false) :
    get_droppable_pieces fuel g to_ = some [] := by
  simp [get_droppable_pieces, h]

theorem droppable_loop_invalid (fuel : Nat) (bs : BoardState) (to_ : Position)
    (h : to_.is_valid = false) :
    ∀ slots, droppable_loop (validate_drop_move (fuel + 1) bs) bs to_ slots = some [] := by
  intro slots
  induction slots with
  | nil => rfl
  | cons i rest ih =>
    unfold droppable_loop
    have hv : ∀ kind, validate_drop_move (fuel + 1) bs (Move.drop to_ kind) =
        some (GameExpected.error GameError.InvalidPosition) := by
      intro kind
      rw [validate_drop_move]
      simp [Move.drop, h]
    split
    · simp only [hv, ih]
      rfl
    · exact ih

/-- On a square off the board `get_droppable_pieces` returns the empty list. -/
theorem get_droppable_pieces_invalid (fuel : Nat) (g : GameLogic) (to_ : Position)
    (h : to_.is_valid = false) :
    get_droppable_pieces (fuel + 1) g to_ = some [] := by
  unfold get_droppable_pieces
  rw [get_piece_invalid _ _ h]
  exact droppable_loop_invalid fuel _ to_ h _

/-- The squares `get_legal_destinations` lists: the destinations of the piece
whose move without the promotion flag passes `validate_normal_move` and does
not leave the mover's king attacked. -/
theorem mem_get_legal_destinations (g : GameLogic) (from_ to_ : Position) :
    to_ ∈ get_legal_destinations g from_ ↔
      ((∃ b, validate_normal_move g.m_board_state (Move.normal from_ to_ false)
        = GameExpected.value b) ∧
       would_be_in_check_after_move g.m_board_state (Move.normal from_ to_ false)
        g.m_board_state.current_player = false) := by
  unfold get_legal_destinations
  simp only
  by_cases hc : ((g.m_board_state.get_piece from_).is_empty ||
      (g.m_board_state.get_piece from_).owner != g.m_board_state.current_player) = true
  · rw [if_pos hc]
    simp only [List.not_mem_nil, false_iff]
    rintro ⟨⟨b, hb⟩, _⟩
    obtain ⟨_, hne, hown, _, _⟩ := validate_normal_move_value _ _ b hb
    simp only [Move.normal] at hne hown
    simp [hne, hown] at hc
  · rw [if_neg hc, List.mem_filter]
    simp only [Bool.and_eq_true, has_value_iff, Bool.not_eq_true']
    constructor
    · rintro ⟨_, hval, hchk⟩
      exact ⟨hval, hchk⟩
    · rintro ⟨⟨b, hb⟩, hchk⟩
      obtain ⟨_, _, _, hmem, _⟩ := validate_normal_move_value _ _ b hb
      exact ⟨hmem, ⟨b, hb⟩, hchk⟩

/-- C29 (the code departs from it): ten accepted moves from the initial
position reach `c29_game` (result None, First to move, First holds two pawns,
Second one). There `get_droppable_pieces` on the empty (4,4) returns the list
with Pawn alone: the drop passes `validate_drop_move` and leaves First's king
unattacked. Yet `make_move` of that drop does not succeed: it never returns,
for any fuel. After the drop both sides hold a pawn and Second could drop one
on (7,4) with check, so the move list `check_game_end` asks for runs into the
unbounded recursion of the pawn-drop test. -/
theorem C29_listed_drop_never_returns :
    play 1 initial_game c29_line = some c29_game ∧
    c29_game.m_game_result = GameResult.None ∧
    get_droppable_pieces 1 c29_game ⟨4, 4⟩ = some [PieceType.Pawn] ∧
    validate_drop_move 1 c29_board c29_drop = some (GameExpected.value true) ∧
    (execute_move c29_board c29_drop).is_in_check Player.First = false ∧
    c29_after.get_hand Player.First = [0, 0, 0, 0, 0, 0, 1] ∧
    c29_after.get_hand Player.Second = [0, 0, 0, 0, 0, 0, 1] ∧
    (∀ fuel, validate_drop_move fuel c29_after c29_reply = none) ∧
    (∀ fuel, make_move fuel c29_game c29_drop = none) := by
  have hdrop : ∀ fuel, validate_drop_move fuel c29_after c29_reply = none :=
    validate_drop_move_never_returns c29_after c29_reply (by decide!) (by decide!) (by decide!)
      (by decide!) (by decide!) (by decide!) (by decide!)
  have hgen : ∀ fuel, generate_all_moves fuel c29_after c29_after.current_player = none :=
    generate_all_moves_never_returns c29_after _ c29_reply (by decide!) hdrop
  have hval : validate_drop_move 1 c29_board c29_drop = some (GameExpected.value true) := by
    decide!
  refine ⟨c29_line_plays, rfl, by decide!, hval, by decide!, by decide!, by decide!, hdrop, ?_⟩
  exact make_move_drop_never_returns c29_game c29_drop true 1 rfl (by decide!) hval
    (by decide!) hgen

/-- C30 (the code departs from it): on the reachable `c11_game` (result None,
First to move) First's lance on (1,4) has one move, to the empty (0,4), where
it must promote. `make_move` accepts that move with the promotion flag, yet
`get_legal_destinations` of (1,4) is empty: it tries each destination only
without the promotion flag, and `validate_normal_move` refuses the lance on the
last rank without it. -/
theorem C30_forced_promotion_not_listed :
    play 2 initial_game mate_line = some mate_game ∧
    play 2 mate_game c11_line = some c11_game ∧
    c11_game.m_game_result = GameResult.None ∧
    c11_board.get_piece ⟨1, 4⟩ = ⟨PieceType.Lance, Player.First⟩ ∧
    PieceMovement.get_possible_moves ⟨PieceType.Lance, Player.First⟩ ⟨1, 4⟩ c11_board.get_board
      = [⟨0, 4⟩] ∧
    (make_move 2 c11_game c30_move).map Prod.fst = some (GameExpected.value true) ∧
    validate_normal_move c11_board (Move.normal ⟨1, 4⟩ ⟨0, 4⟩ false)
      = GameExpected.error GameError.InvalidMove ∧
    get_legal_destinations c11_game ⟨1, 4⟩ = [] := by
  refine ⟨mate_line_plays, c11_line_plays, rfl, by decide!, by decide!, by decide!, by decide!,
    by decide!⟩

end Shogi

/-! ## `core::Board`: the effect of `makeMove` and `undoMove` on the turn -/

namespace ShogiCore

open Board

theorem switchPlayer_flipped (b : Board) : flipped b.currentPlayer_ b.switchPlayer.currentPlayer_ := by
  unfold flipped Board.switchPlayer
  cases h : b.currentPlayer_ <;> simp [h]

theorem setHand_frame (b : Board) (player : Player) (h : List Int) :
    (b.setHand player h).currentPlayer_ = b.currentPlayer_ ∧
    (b.setHand player h).moveHistory_ = b.moveHistory_ := by
  unfold Board.setHand
  split <;> exact ⟨rfl, rfl⟩

theorem removeFromHand_frame (b : Board) (player : Player) (kind : PieceType) :
    (b.removeFromHand player kind).currentPlayer_ = b.currentPlayer_ ∧
    (b.removeFromHand player kind).moveHistory_ = b.moveHistory_ := by
  unfold Board.removeFromHand
  simp only
  split_ifs <;> first | exact ⟨rfl, rfl⟩ | exact setHand_frame _ _ _

theorem addToHand_frame (b : Board) (player : Player) (kind : PieceType) :
    (b.addToHand player kind).currentPlayer_ = b.currentPlayer_ ∧
    (b.addToHand player kind).moveHistory_ = b.moveHistory_ := by
  unfold Board.addToHand
  simp only
  split_ifs <;> first | exact ⟨rfl, rfl⟩ | exact setHand_frame _ _ _

theorem setPiece_frame (b : Board) (pos : Position) (piece : Piece) :
    (b.setPiece pos piece).currentPlayer_ = b.currentPlayer_ ∧
    (b.setPiece pos piece).moveHistory_ = b.moveHistory_ := by
  unfold Board.setPiece
  split <;> exact ⟨rfl, rfl⟩

/-- The shape of a successful `makeMove`: some board with the current player and
the history of `b`, one record pushed, the player switched. -/
theorem makeMove_shape (b : Board) (move : Move) :
    (move.isDrop = true → (b.getPiece move.getTo).isEmpty = true →
      ∃ x : Board, x.currentPlayer_ = b.currentPlayer_ ∧ x.moveHistory_ = b.moveHistory_ ∧
        b.makeMove move = (true, Board.switchPlayer
          { x with moveHistory_ := x.moveHistory_ ++ [MoveRecord.mk move Piece.empty] })) ∧
    (move.isDrop = false → (b.getPiece move.getFrom).isEmpty = false →
      (b.getPiece move.getFrom).getPlayer = b.currentPlayer_ →
      ∃ x : Board, x.currentPlayer_ = b.currentPlayer_ ∧ x.moveHistory_ = b.moveHistory_ ∧
        b.makeMove move = (true, Board.switchPlayer
          { x with moveHistory_ :=
              x.moveHistory_ ++ [MoveRecord.mk move (b.getPiece move.getTo)] })) := by
  refine ⟨?_, ?_⟩
  · intro hd he
    refine ⟨(b.setPiece move.getTo ⟨move.getDropPieceType, b.currentPlayer_⟩).removeFromHand
      (b.setPiece move.getTo ⟨move.getDropPieceType, b.currentPlayer_⟩).currentPlayer_
      move.getDropPieceType, ?_, ?_, ?_⟩
    · rw [(removeFromHand_frame _ _ _).1, (setPiece_frame _ _ _).1]
    · rw [(removeFromHand_frame _ _ _).2, (setPiece_frame _ _ _).2]
    · unfold Board.makeMove
      rw [if_pos hd, if_pos he]
  · intro hd he hp
    refine ⟨if (!(b.getPiece move.getTo).isEmpty) = true then
        ((b.setPiece move.getTo
          (if (move.isPromotion && (b.getPiece move.getFrom).canPromote) = true then
            (b.getPiece move.getFrom).promote else b.getPiece move.getFrom)).setPiece
          move.getFrom Piece.empty).addToHand
          ((b.setPiece move.getTo
            (if (move.isPromotion && (b.getPiece move.getFrom).canPromote) = true then
              (b.getPiece move.getFrom).promote else b.getPiece move.getFrom)).setPiece
            move.getFrom Piece.empty).currentPlayer_ (b.getPiece move.getTo).getType
      else (b.setPiece move.getTo
          (if (move.isPromotion && (b.getPiece move.getFrom).canPromote) = true then
            (b.getPiece move.getFrom).promote else b.getPiece move.getFrom)).setPiece
          move.getFrom Piece.empty, ?_, ?_, ?_⟩
    · split
      · rw [(addToHand_frame _ _ _).1, (setPiece_frame _ _ _).1, (setPiece_frame _ _ _).1]
      · rw [(setPiece_frame _ _ _).1, (setPiece_frame _ _ _).1]
    · split
      · rw [(addToHand_frame _ _ _).2, (setPiece_frame _ _ _).2, (setPiece_frame _ _ _).2]
      · rw [(setPiece_frame _ _ _).2, (setPiece_frame _ _ _).2]
    · unfold Board.makeMove
      rw [if_neg (by simp [hd])]
      simp only
      rw [if_pos (by simp [he, hp])]

theorem makeMove_fails (b : Board) (move : Move)
    (h : (move.isDrop = true ∧ (b.getPiece move.getTo).isEmpty = false) ∨
       (move.isDrop = false ∧ ((b.getPiece move.getFrom).isEmpty = true ∨
          (b.getPiece move.getFrom).getPlayer ≠ b.currentPlayer_))) :
    b.makeMove move = (false, b) := by
  unfold Board.makeMove
  rcases h with ⟨hd, he⟩ | ⟨hd, he⟩
  · rw [if_pos hd, if_neg (by simp [he])]
  · rw [if_neg (by simp [hd])]
    simp only
    rw [if_neg]
    rcases he with he | he
    · simp [he]
    · simp [he]

/-- C33: for every board and every move. If `makeMove` returns true, the
current player is flipped and exactly one record is pushed on the history (the
move with the piece that stood on the destination, empty for a drop). It
returns false exactly for a drop onto an occupied square and for a normal move
whose origin is empty or holds a piece that is not the current player's, and
then the whole board, grid, hands, current player and history, is unchanged. -/
theorem C33_makeMove_turn_and_history (b : Board) (move : Move) :
    ((b.makeMove move).1 = true →
      flipped b.currentPlayer_ (b.makeMove move).2.currentPlayer_ ∧
      (b.makeMove move).2.moveHistory_ = b.moveHistory_ ++
        [MoveRecord.mk move (if move.isDrop then Piece.empty else b.getPiece move.getTo)]) ∧
    ((b.makeMove move).1 = false → (b.makeMove move).2 = b) ∧
    ((b.makeMove move).1 = false ↔
      ((move.isDrop = true ∧ (b.getPiece move.getTo).isEmpty = false) ∨
       (move.isDrop = false ∧ ((b.getPiece move.getFrom).isEmpty = true ∨
          (b.getPiece move.getFrom).getPlayer ≠ b.currentPlayer_)))) := by
  have hflip : ∀ (x : Board) (r : MoveRecord), x.currentPlayer_ = b.currentPlayer_ →
      x.moveHistory_ = b.moveHistory_ →
      flipped b.currentPlayer_
        (Board.switchPlayer { x with moveHistory_ := x.moveHistory_ ++ [r] }).currentPlayer_ ∧
      (Board.switchPlayer { x with moveHistory_ := x.moveHistory_ ++ [r] }).moveHistory_ =
        b.moveHistory_ ++ [r] := by
    intro x r hc hh
    refine ⟨?_, ?_⟩
    · have := switchPlayer_flipped { x with moveHistory_ := x.moveHistory_ ++ [r] }
      rw [← hc]
      exact this
    · show x.moveHistory_ ++ [r] = _
      rw [hh]
  by_cases hfail : (move.isDrop = true ∧ (b.getPiece move.getTo).isEmpty = false) ∨
       (move.isDrop = false ∧ ((b.getPiece move.getFrom).isEmpty = true ∨
          (b.getPiece move.getFrom).getPlayer ≠ b.currentPlayer_))
  · rw [makeMove_fails b move hfail]
    exact ⟨fun h => by simp at h, fun _ => rfl, ⟨fun _ => hfail, fun _ => rfl⟩⟩
  · cases hd : move.isDrop with
    | true =>
      have he : (b.getPiece move.getTo).isEmpty = true := by
        cases he : (b.getPiece move.getTo).isEmpty with
        | true => rfl
        | false => exact absurd (Or.inl ⟨hd, he⟩) hfail
      obtain ⟨x, hc, hh, hmk⟩ := (makeMove_shape b move).1 hd he
      rw [hmk]
      refine ⟨fun _ => ?_, fun h => by simp at h, ⟨fun h => by simp at h, fun h => ?_⟩⟩
      · simpa using hflip x _ hc hh
      · rw [hd] at hfail
        exact absurd h hfail
    | false =>
      have he : (b.getPiece move.getFrom).isEmpty = false := by
        cases he : (b.getPiece move.getFrom).isEmpty with
        | false => rfl
        | true => exact absurd (Or.inr ⟨hd, Or.inl he⟩) hfail
      have hp : (b.getPiece move.getFrom).getPlayer = b.currentPlayer_ := by
        by_contra hp
        exact hfail (Or.inr ⟨hd, Or.inr hp⟩)
      obtain ⟨x, hc, hh, hmk⟩ := (makeMove_shape b move).2 hd he hp
      rw [hmk]
      refine ⟨fun _ => ?_, fun h => by simp at h, ⟨fun h => by simp at h, fun h => ?_⟩⟩
      · simpa using hflip x _ hc hh
      · rw [hd] at hfail
        exact absurd h hfail

/-- C34: `undoMove` on a board with an empty history changes nothing: grid,
hands, current player and history are as before. -/
theorem C34_undoMove_empty_history (b : Board) (h : b.moveHistory_ = []) : b.undoMove = b := by
  unfold Board.undoMove
  rw [h]
  rfl

/-- An instance of C34: the cleared board has no history and `undoMove` leaves it as it is. -/
theorem C34_undoMove_empty_history_witness : empty_board.undoMove = empty_board :=
  C34_undoMove_empty_history empty_board rfl

end ShogiCore

/-! ## `BasicAI::evaluatePosition` -/

namespace ShogiCore

open Board

end ShogiCore

namespace Shogi

open BoardState GameLogic

/-! ## The board of the self-check test and the promotion rules -/

/-- C38: for every state and every move, passing validation or not, the board
`simulate_move` returns has the grid, the hands and the side to move of the
board `execute_move` leaves, so `would_be_in_check_after_move` looks at exactly
the position the move produces. -/
theorem C38_simulate_move_is_execute_move (bs : BoardState) (m : Move) (player : Player) :
    (simulate_move bs m).m_board = (execute_move bs m).m_board ∧
    (simulate_move bs m).m_hands_first = (execute_move bs m).m_hands_first ∧
    (simulate_move bs m).m_hands_second = (execute_move bs m).m_hands_second ∧
    (simulate_move bs m).m_current_player = (execute_move bs m).m_current_player ∧
    would_be_in_check_after_move bs m player = (execute_move bs m).is_in_check player := by
  unfold would_be_in_check_after_move
  rw [simulate_move_eq_execute_move]
  exact ⟨rfl, rfl, rfl, rfl, rfl⟩

theorem must_promote_can_promote (piece : Piece) (from_ to_ : Position)
    (h : PieceMovement.must_promote piece to_ = true) :
    PieceMovement.can_promote piece from_ to_ = true := by
  obtain ⟨kind, owner⟩ := piece
  unfold PieceMovement.must_promote at h
  unfold PieceMovement.can_promote PieceMovement.is_promotion_zone
  cases owner <;> cases kind <;>
    simp [Piece.can_promote, Piece.is_promoted] at h ⊢ <;> omega

/-- C39: whenever `must_promote(piece, to)` is true, `can_promote(piece, from,
to)` is true, for every origin. Hence, on a board where the piece on the valid
square `from` is of the side to move and has the valid square `to` among its
destinations, when `must_promote` holds the move without the promotion flag is
refused with InvalidMove and the same move with the flag passes
`validate_normal_move`. -/
theorem C39_forced_promotion_is_allowed (bs : BoardState) (from_ to_ : Position)
    (hfrom : from_.is_valid = true)
    (hown : (bs.get_piece from_).is_empty = false ∧
      (bs.get_piece from_).owner = bs.current_player)
    (hmem : to_ ∈ PieceMovement.get_possible_moves (bs.get_piece from_) from_ bs.get_board)
    (hmust : PieceMovement.must_promote (bs.get_piece from_) to_ = true) :
    PieceMovement.can_promote (bs.get_piece from_) from_ to_ = true ∧
    validate_normal_move bs (Move.normal from_ to_ false)
      = GameExpected.error GameError.InvalidMove ∧
    validate_normal_move bs (Move.normal from_ to_ true) = GameExpected.value true := by
  have hcan := must_promote_can_promote (bs.get_piece from_) from_ to_ hmust
  have hto : to_.is_valid = true := (possible_move_can_land _ _ _ _ hmem).1
  have hvalid : PieceMovement.is_valid_move (bs.get_piece from_) from_ to_ bs.get_board
      = true := by
    unfold PieceMovement.is_valid_move
    simpa using hmem
  refine ⟨hcan, ?_, ?_⟩
  · simp [validate_normal_move, Move.normal, hfrom, hto, hown.1, hown.2, hvalid, hmust]
  · simp [validate_normal_move, Move.normal, hfrom, hto, hown.1, hown.2, hvalid, hcan]

/-- An instance of C39 on `c11_board`: First's lance on (1,4) must promote on
(0,4); the move without the flag is refused and the move with the flag passes. -/
theorem C39_forced_promotion_is_allowed_witness :
    validate_normal_move c11_board c39_plain = GameExpected.error GameError.InvalidMove ∧
    validate_normal_move c11_board c30_move = GameExpected.value true :=
  (C39_forced_promotion_is_allowed c11_board ⟨1, 4⟩ ⟨0, 4⟩ (by decide)
    ⟨by decide!, by decide!⟩ (by decide!) (by decide!)).2

end Shogi

namespace Shogi

open BoardState GameLogic

/-! ## Check -/

theorem all_squares_valid (p : Position) (h : p ∈ all_squares) : p.is_valid = true := by
  unfold all_squares at h
  simp only [List.mem_flatMap, List.mem_map, List.mem_range] at h
  obtain ⟨r, hr, c, hc, rfl⟩ := h
  rw [is_valid_iff]
  simp only
  omega

theorem is_square_attacked_iff (bs : BoardState) (k : Position) (by_player : Player) :
    bs.is_square_attacked k by_player = true ↔ attacks bs by_player k := by
  unfold BoardState.is_square_attacked attacks PieceMovement.is_valid_move
  rw [List.any_eq_true]
  constructor
  · rintro ⟨from_, hmem, h⟩
    simp only at h
    by_cases hc : ((bs.get_piece from_).is_empty ||
        (bs.get_piece from_).owner != by_player) = true
    · rw [if_pos hc] at h
      exact absurd h (by simp)
    · rw [if_neg hc] at h
      have hc1 : (bs.get_piece from_).is_empty = false ∧
          (bs.get_piece from_).owner = by_player := by simpa using hc
      exact ⟨from_, all_squares_valid from_ hmem, hc1.1, hc1.2, by simpa using h⟩
  · rintro ⟨from_, hv, he, ho, hmem⟩
    refine ⟨from_, mem_all_squares from_ hv, ?_⟩
    simp only
    rw [if_neg (by simp [he, ho])]
    simpa using hmem

/-- What `find_king` returns: the first square of the scan holding the King of
the player, or the invalid position when no square of the board does. -/
theorem find_king_cases (bs : BoardState) (player : Player) :
    (holds_king bs player (bs.find_king player)) ∨
    (bs.find_king player = INVALID_POSITION ∧ ∀ k, ¬ holds_king bs player k) := by
  unfold BoardState.find_king
  cases hf : all_squares.find? (fun pos => (bs.get_piece pos).type == PieceType.King &&
      (bs.get_piece pos).owner == player) with
  | some q =>
    left
    have hq := List.find?_some hf
    have hm := List.mem_of_find?_eq_some hf
    simp only [Bool.and_eq_true, beq_iff_eq] at hq
    exact ⟨all_squares_valid q hm, hq.1, hq.2⟩
  | none =>
    right
    refine ⟨rfl, ?_⟩
    rintro k ⟨hv, ht, ho⟩
    have := List.find?_eq_none.mp hf k (mem_all_squares k hv)
    simp [ht, ho] at this

theorem invalid_position_not_valid : INVALID_POSITION.is_valid = false := by decide

theorem is_in_check_iff (bs : BoardState) (player : Player) :
    bs.is_in_check player = true ↔
      (holds_king bs player (bs.find_king player) ∧
        attacks bs (other_player player) (bs.find_king player)) := by
  unfold BoardState.is_in_check
  simp only
  rcases find_king_cases bs player with hk | ⟨hinv, hno⟩
  · have hne : bs.find_king player ≠ INVALID_POSITION := by
      intro heq
      have := hk.1
      rw [heq, invalid_position_not_valid] at this
      exact Bool.noConfusion this
    rw [if_neg hne, is_square_attacked_iff]
    exact ⟨fun h => ⟨hk, h⟩, fun h => h.2⟩
  · rw [if_pos hinv]
    constructor
    · intro h
      exact absurd h (by simp)
    · rintro ⟨hk, _⟩
      exact absurd hk (hno _)

theorem find_king_unique (bs : BoardState) (player : Player) (k : Position)
    (hk : holds_king bs player k) (huniq : ∀ k2, holds_king bs player k2 → k2 = k) :
    bs.find_king player = k := by
  rcases find_king_cases bs player with h | ⟨_, hno⟩
  · exact huniq _ h
  · exact absurd hk (hno k)

/-- C31: `is_in_check(player)` is true exactly when the player has a King on
the grid and some piece of the other player has the King's square among the
destinations `get_possible_moves` gives it; the King's square is the one
`find_king` returns, the only one when the player has one King. When the
player has no King on the grid, `find_king` returns the invalid position and
`is_in_check` returns false. -/
theorem C31_is_in_check_iff_king_attacked (bs : BoardState) (player : Player) :
    (bs.is_in_check player = true ↔
      ∃ k, holds_king bs player k ∧ bs.find_king player = k ∧
        attacks bs (other_player player) k) ∧
    (∀ k, holds_king bs player k → (∀ k2, holds_king bs player k2 → k2 = k) →
      (bs.is_in_check player = true ↔ attacks bs (other_player player) k)) ∧
    ((∀ k, ¬ holds_king bs player k) →
      bs.find_king player = INVALID_POSITION ∧ bs.is_in_check player = false) := by
  refine ⟨?_, ?_, ?_⟩
  · rw [is_in_check_iff]
    constructor
    · rintro ⟨hk, ha⟩
      exact ⟨_, hk, rfl, ha⟩
    · rintro ⟨k, hk, rfl, ha⟩
      exact ⟨hk, ha⟩
  · intro k hk huniq
    rw [is_in_check_iff, find_king_unique bs player k hk huniq]
    exact ⟨fun h => h.2, fun h => ⟨hk, h⟩⟩
  · intro hno
    rcases find_king_cases bs player with h | ⟨hinv, _⟩
    · exact absurd h (hno _)
    · refine ⟨hinv, ?_⟩
      cases hc : bs.is_in_check player with
      | false => rfl
      | true => exact absurd ((is_in_check_iff bs player).mp hc).1 (hno _)

/-- An instance of C31 on `c5_board`: Second's King stands on (0,4), First's
bishop on (2,2) has that square among its destinations, and Second is in check. -/
theorem C31_is_in_check_iff_king_attacked_witness :
    c5_board.is_in_check Player.Second = true :=
  ((C31_is_in_check_iff_king_attacked c5_board Player.Second).1).mpr
    ⟨⟨0, 4⟩, ⟨by decide, by decide!, by decide!⟩, by decide!,
      ⟨2, 2⟩, by decide, by decide!, by decide!, by decide!⟩

end Shogi

namespace Shogi

open BoardState GameLogic

/-! ## Reads stay inside the grid and the sliding loops end -/

theorem checked_read_valid (board : List Piece) (pos : Position) (hlen : board.length = 81)
    (h : pos.is_valid = true) :
    checked_read board pos = some (board.getD (pos_to_index pos) Piece.empty) := by
  have hv := (is_valid_iff pos).mp h
  have hlt := pos_to_index_lt pos h
  unfold checked_read
  rw [if_pos (by unfold BOARD_COLS; omega)]
  unfold pos_to_index at hlt ⊢
  rw [List.getD_eq_getElem?_getD, List.getElem?_eq_getElem (by omega)]
  rfl

theorem is_enemy_or_empty_checked_eq (board : List Piece) (pos : Position) (player : Player)
    (hlen : board.length = 81) :
    PieceMovement.is_enemy_or_empty_checked pos board player =
      some (PieceMovement.is_enemy_or_empty pos board player) := by
  unfold PieceMovement.is_enemy_or_empty_checked PieceMovement.is_enemy_or_empty
  cases hv : pos.is_valid with
  | false => rfl
  | true =>
    simp only [Bool.not_true, Bool.false_eq_true, if_false]
    rw [checked_read_valid board pos hlen hv]

theorem slide_loop_checked_of_measure (board : List Piece) (player : Player) (dir : Direction)
    (hlen : board.length = 81) (μ : Position → Nat)
    (hpos : ∀ p, p.is_valid = true → 0 < μ p)
    (hstep : ∀ p, p.is_valid = true →
      (PieceMovement.apply_direction p dir player).is_valid = true →
      μ (PieceMovement.apply_direction p dir player) < μ p) :
    ∀ n current, 0 < n → (current.is_valid = true → μ current < n) →
      PieceMovement.slide_loop_checked board player dir n current =
        some (PieceMovement.slide_loop board player dir n current) := by
  intro n
  induction n with
  | zero => intro current h0; omega
  | succ k ih =>
    intro current _ hμ
    rw [PieceMovement.slide_loop_checked, PieceMovement.slide_loop]
    cases hv : current.is_valid with
    | false => rfl
    | true =>
      simp only [if_true]
      rw [checked_read_valid board current hlen hv]
      simp only
      have h1 := hpos current hv
      have h2 := hμ hv
      have hnext := ih (PieceMovement.apply_direction current dir player) (by omega)
        (fun hv2 => by have := hstep current hv hv2; omega)
      rw [hnext]
      generalize board.getD (pos_to_index current) Piece.empty = pc
      cases pc.is_empty <;> cases (pc.owner != player) <;> rfl

/-- From the square next to a valid origin, the walk of `slide_loop` along a
direction with a nonzero component ends within nine steps, and every read it
makes is inside the grid. -/
theorem slide_loop_checked_nine (board : List Piece) (player : Player) (dir : Direction)
    (hlen : board.length = 81) (hdir : dir.row_delta ≠ 0 ∨ dir.col_delta ≠ 0)
    (from_ : Position) (hfrom : from_.is_valid = true) :
    PieceMovement.slide_loop_checked board player dir 9
        (PieceMovement.apply_direction from_ dir player) =
      some (PieceMovement.slide_loop board player dir 9
        (PieceMovement.apply_direction from_ dir player)) := by
  have happ : ∀ p : Position, PieceMovement.apply_direction p dir player =
      (⟨p.row + (dir.step player).1, p.col + (dir.step player).2⟩ : Position) :=
    fun p => rfl
  have hd0 : (dir.step player).1 ≠ 0 ∨ (dir.step player).2 ≠ 0 := by
    unfold Direction.step
    rcases hdir with h | h
    · left
      simp only
      split <;> omega
    · right; exact h
  have hf := (is_valid_iff from_).mp hfrom
  generalize dir.step player = d at happ hd0
  obtain ⟨dr, dc⟩ := d
  simp only at happ hd0
  rcases lt_trichotomy dr 0 with hneg | hzero | hposd
  · apply slide_loop_checked_of_measure board player dir hlen (fun p => (p.row + 1).toNat)
    · intro p hp
      have := (is_valid_iff p).mp hp
      show 0 < Int.toNat _
      omega
    · intro p hp hq
      rw [happ] at hq ⊢
      have h1 := (is_valid_iff p).mp hp
      have h2 := (is_valid_iff _).mp hq
      simp only at h2 ⊢
      omega
    · omega
    · intro hq
      rw [happ] at hq ⊢
      have h2 := (is_valid_iff _).mp hq
      simp only at h2 ⊢
      omega
  · rcases lt_or_gt_of_ne (hd0.resolve_left (by omega)) with hcn | hcp
    · apply slide_loop_checked_of_measure board player dir hlen (fun p => (p.col + 1).toNat)
      · intro p hp
        have := (is_valid_iff p).mp hp
        show 0 < Int.toNat _
        omega
      · intro p hp hq
        rw [happ] at hq ⊢
        have h1 := (is_valid_iff p).mp hp
        have h2 := (is_valid_iff _).mp hq
        simp only at h2 ⊢
        omega
      · omega
      · intro hq
        rw [happ] at hq ⊢
        have h2 := (is_valid_iff _).mp hq
        simp only at h2 ⊢
        omega
    · apply slide_loop_checked_of_measure board player dir hlen (fun p => (9 - p.col).toNat)
      · intro p hp
        have := (is_valid_iff p).mp hp
        show 0 < Int.toNat _
        omega
      · intro p hp hq
        rw [happ] at hq ⊢
        have h1 := (is_valid_iff p).mp hp
        have h2 := (is_valid_iff _).mp hq
        simp only at h2 ⊢
        omega
      · omega
      · intro hq
        rw [happ] at hq ⊢
        have h2 := (is_valid_iff _).mp hq
        simp only at h2 ⊢
        omega
  · apply slide_loop_checked_of_measure board player dir hlen (fun p => (9 - p.row).toNat)
    · intro p hp
      have := (is_valid_iff p).mp hp
      show 0 < Int.toNat _
      omega
    · intro p hp hq
      rw [happ] at hq ⊢
      have h1 := (is_valid_iff p).mp hp
      have h2 := (is_valid_iff _).mp hq
      simp only at h2 ⊢
      omega
    · omega
    · intro hq
      rw [happ] at hq ⊢
      have h2 := (is_valid_iff _).mp hq
      simp only at h2 ⊢
      omega

theorem get_sliding_moves_checked_eq (board : List Piece) (player : Player)
    (hlen : board.length = 81) (from_ : Position) (hfrom : from_.is_valid = true) :
    ∀ dirs : List Direction, (∀ dir ∈ dirs, dir.row_delta ≠ 0 ∨ dir.col_delta ≠ 0) →
      PieceMovement.get_sliding_moves_checked from_ dirs board player =
        some (PieceMovement.get_sliding_moves from_ dirs board player) := by
  intro dirs
  induction dirs with
  | nil => intro _; rfl
  | cons dir rest ih =>
    intro hd
    rw [PieceMovement.get_sliding_moves_checked,
      slide_loop_checked_nine board player dir hlen (hd dir (List.mem_cons_self _ _)) from_ hfrom,
      ih (fun d h => hd d (List.mem_cons_of_mem _ h))]
    simp [PieceMovement.get_sliding_moves]

theorem get_single_step_moves_checked_eq (board : List Piece) (player : Player)
    (hlen : board.length = 81) (from_ : Position) :
    ∀ dirs : List Direction,
      PieceMovement.get_single_step_moves_checked from_ dirs board player =
        some (PieceMovement.get_single_step_moves from_ dirs board player) := by
  intro dirs
  induction dirs with
  | nil => rfl
  | cons dir rest ih =>
    rw [PieceMovement.get_single_step_moves_checked, is_enemy_or_empty_checked_eq _ _ _ hlen, ih]
    simp only [PieceMovement.get_single_step_moves, List.map_cons, List.filter_cons]

/-- With the bounds of every read looked at and the loops counted,
`get_possible_moves` returns what it returns without: no read is outside the 81
cells and every sliding loop ends. -/
theorem get_possible_moves_checked_eq (piece : Piece) (from_ : Position) (board : List Piece)
    (hlen : board.length = 81) :
    PieceMovement.get_possible_moves_checked piece from_ board =
      some (PieceMovement.get_possible_moves piece from_ board) := by
  unfold PieceMovement.get_possible_moves_checked PieceMovement.get_possible_moves
  by_cases hc : (piece.is_empty || !from_.is_valid) = true
  · rw [if_pos hc, if_pos hc]
  · rw [if_neg hc, if_neg hc]
    have hfrom : from_.is_valid = true := by
      cases hv : from_.is_valid with
      | true => rfl
      | false => simp [hv] at hc
    have hs := fun dirs => get_single_step_moves_checked_eq board piece.owner hlen from_ dirs
    have hl := get_sliding_moves_checked_eq board piece.owner hlen from_ hfrom
    have hrook := hl [UP, DOWN, LEFT, RIGHT] (by decide)
    have hbishop := hl [UP_LEFT, UP_RIGHT, DOWN_LEFT, DOWN_RIGHT] (by decide)
    have hlance := hl [UP] (by decide)
    cases piece.type <;>
      simp only [hs, hrook, hbishop, hlance, PieceMovement.merge_checked,
        PieceMovement.get_king_moves, PieceMovement.get_rook_moves,
        PieceMovement.get_bishop_moves, PieceMovement.get_gold_moves,
        PieceMovement.get_silver_moves, PieceMovement.get_knight_moves,
        PieceMovement.get_lance_moves, PieceMovement.get_pawn_moves,
        PieceMovement.get_promoted_rook_moves, PieceMovement.get_promoted_bishop_moves]

theorem step_square_ne (from_ : Position) (d : Int × Int) (h : d.1 ≠ 0 ∨ d.2 ≠ 0) :
    step_square from_ d ≠ from_ := by
  intro heq
  have h1 : (step_square from_ d).row = from_.row := by rw [heq]
  have h2 : (step_square from_ d).col = from_.col := by rw [heq]
  simp only [step_square] at h1 h2
  omega

theorem ray_square_ne (from_ : Position) (d : Int × Int) (n : Nat) (hn : 1 ≤ n)
    (h : d.1 ≠ 0 ∨ d.2 ≠ 0) : ray_square from_ d n ≠ from_ := by
  intro heq
  have h1 : (ray_square from_ d n).row = from_.row := by rw [heq]
  have h2 : (ray_square from_ d n).col = from_.col := by rw [heq]
  simp only [ray_square] at h1 h2
  have hn0 : (n : Int) ≠ 0 := by omega
  rcases h with h | h
  · have : (n : Int) * d.1 = 0 := by omega
    rcases mul_eq_zero.mp this with h3 | h3
    · exact hn0 h3
    · exact h h3
  · have : (n : Int) * d.2 = 0 := by omega
    rcases mul_eq_zero.mp this with h3 | h3
    · exact hn0 h3
    · exact h h3

/-- No destination `get_possible_moves` returns is the origin. -/
theorem possible_move_ne_from (piece : Piece) (from_ s : Position) (board : List Piece)
    (h : s ∈ PieceMovement.get_possible_moves piece from_ board) : s ≠ from_ := by
  obtain ⟨kind, player⟩ := piece
  unfold PieceMovement.get_possible_moves at h
  by_cases hc : ((⟨kind, player⟩ : Piece).is_empty || !from_.is_valid) = true
  · rw [if_pos hc] at h
    simp at h
  · rw [if_neg hc] at h
    have hfrom : from_.is_valid = true := by
      cases hv : from_.is_valid with
      | true => rfl
      | false => simp [hv] at hc
    have hstep : ∀ dirs, (∀ dir ∈ dirs, dir.row_delta ≠ 0 ∨ dir.col_delta ≠ 0) →
        s ∈ PieceMovement.get_single_step_moves from_ dirs board player → s ≠ from_ := by
      intro dirs hd hs
      obtain ⟨dir, hdir, heq, _⟩ := (mem_get_single_step_moves board player dirs from_ s).mp hs
      rw [heq]
      apply step_square_ne
      unfold Direction.step
      rcases hd dir hdir with h1 | h1
      · left
        simp only
        split <;> omega
      · right; exact h1
    have hslide : ∀ d : Int × Int, (d.1 ≠ 0 ∨ d.2 ≠ 0) →
        slide_reaches board player from_ d s → s ≠ from_ := by
      rintro d hd ⟨n, hn, heq, _⟩
      rw [heq]
      exact ray_square_ne from_ d n hn hd
    have hrook : s ∈ PieceMovement.get_rook_moves from_ board player → s ≠ from_ := by
      intro hs
      obtain ⟨d, hd, hr⟩ := (mem_get_rook_moves board player from_ s hfrom).mp hs
      exact hslide d ((by decide : ∀ d ∈ orthogonals, d.1 ≠ 0 ∨ d.2 ≠ 0) d hd) hr
    have hbishop : s ∈ PieceMovement.get_bishop_moves from_ board player → s ≠ from_ := by
      intro hs
      obtain ⟨d, hd, hr⟩ := (mem_get_bishop_moves board player from_ s hfrom).mp hs
      exact hslide d ((by decide : ∀ d ∈ diagonals, d.1 ≠ 0 ∨ d.2 ≠ 0) d hd) hr
    have hking : s ∈ PieceMovement.get_king_moves from_ board player → s ≠ from_ :=
      hstep _ (by decide)
    have hgold : s ∈ PieceMovement.get_gold_moves from_ board player → s ≠ from_ :=
      hstep _ (by decide)
    cases kind <;> simp only at h
    · simp at h
    · exact hking h
    · exact hrook h
    · exact hbishop h
    · exact hgold h
    · exact hstep _ (by decide) h
    · exact hstep _ (by decide) h
    · exact hslide _ (by cases player <;> decide)
        ((mem_get_lance_moves board player from_ s hfrom).mp h)
    · exact hstep _ (by decide) h
    · unfold PieceMovement.get_promoted_rook_moves at h
      rw [mem_unique_sort, List.mem_append] at h
      rcases h with h | h
      · exact hrook h
      · exact hking h
    · unfold PieceMovement.get_promoted_bishop_moves at h
      rw [mem_unique_sort, List.mem_append] at h
      rcases h with h | h
      · exact hbishop h
      · exact hking h
    · exact hgold h
    · exact hgold h
    · exact hgold h
    · exact hgold h

/-- C40: for every piece, every square `from` (valid or not) and every board
of 81 cells: every square `get_possible_moves` returns is on the board, differs
from `from`, and is empty or holds a piece of the other player; and the
generation reads no cell outside the grid and every sliding loop ends within
nine steps (`get_possible_moves_checked`, which looks at the bounds and counts
the steps, returns the same list). -/
theorem C40_destinations_are_safe (piece : Piece) (from_ : Position) (board : List Piece)
    (hlen : board.length = 81) :
    (∀ s ∈ PieceMovement.get_possible_moves piece from_ board,
      s.is_valid = true ∧ s ≠ from_ ∧
        (square_empty board s ∨ holds_enemy board s piece.owner)) ∧
    PieceMovement.get_possible_moves_checked piece from_ board =
      some (PieceMovement.get_possible_moves piece from_ board) := by
  refine ⟨?_, get_possible_moves_checked_eq piece from_ board hlen⟩
  intro s hs
  obtain ⟨hv, hland⟩ := possible_move_can_land piece from_ s board hs
  exact ⟨hv, possible_move_ne_from piece from_ s board hs, hland⟩

/-- An instance of C40 on the initial position, for First's rook on (7,1). -/
theorem C40_destinations_are_safe_witness :
    PieceMovement.get_possible_moves_checked ⟨PieceType.Rook, Player.First⟩ ⟨7, 1⟩
        initial_position.m_board =
      some (PieceMovement.get_possible_moves ⟨PieceType.Rook, Player.First⟩ ⟨7, 1⟩
        initial_position.m_board) :=
  (C40_destinations_are_safe ⟨PieceType.Rook, Player.First⟩ ⟨7, 1⟩ initial_position.m_board
    (by decide)).2

end Shogi

namespace Shogi

open BoardState GameLogic

/-! ## The grid after a move -/

theorem pos_to_index_inj (p q : Position) (hp : p.is_valid = true) (hq : q.is_valid = true)
    (h : pos_to_index p = pos_to_index q) : p = q := by
  have h1 := (is_valid_iff p).mp hp
  have h2 := (is_valid_iff q).mp hq
  unfold pos_to_index BOARD_COLS at h
  obtain ⟨pr, pc⟩ := p
  obtain ⟨qr, qc⟩ := q
  simp only at h1 h2 h
  simp only [Position.mk.injEq]
  omega

theorem get_piece_congr (bs1 bs2 : BoardState) (h : bs1.m_board = bs2.m_board)
    (q : Position) : bs1.get_piece q = bs2.get_piece q := by
  unfold BoardState.get_piece
  rw [h]

theorem get_piece_set_piece (bs : BoardState) (pos q : Position) (x : Piece)
    (hlen : bs.m_board.length = 81) (hpos : pos.is_valid = true) (hq : q.is_valid = true) :
    (bs.set_piece pos x).get_piece q = if q = pos then x else bs.get_piece q := by
  rw [get_piece_eq _ q hq, get_piece_eq _ q hq, set_piece_eq bs pos x hpos]
  unfold piece_at
  simp only
  have hlt := pos_to_index_lt pos hpos
  by_cases h : q = pos
  · subst h
    rw [if_pos rfl, List.getD_eq_getElem?_getD, List.getElem?_set_self (by omega)]
    rfl
  · rw [if_neg h, List.getD_eq_getElem?_getD,
      List.getElem?_set_ne (fun heq => h (pos_to_index_inj q pos hq hpos heq.symm)),
      ← List.getD_eq_getElem?_getD]

/-- The grid `execute_normal_move` leaves: the moved piece on the destination,
nothing on the origin, every other square as before. -/
theorem execute_normal_move_get_piece (bs : BoardState) (m : Move) (q : Position)
    (hlen : bs.m_board.length = 81) (hfrom : m.from_.is_valid = true)
    (hto : m.to_.is_valid = true) (hq : q.is_valid = true) :
    (execute_normal_move bs m).get_piece q =
      if q = m.to_ then moved_piece bs m
      else if q = m.from_ then Piece.empty else bs.get_piece q := by
  unfold execute_normal_move BoardState.clear_piece
  simp only
  have key : ∀ bs1 : BoardState, bs1.m_board = bs.m_board →
      ((bs1.set_piece m.from_ Piece.empty).set_piece m.to_ (moved_piece bs m)).get_piece q =
        if q = m.to_ then moved_piece bs m
        else if q = m.from_ then Piece.empty else bs.get_piece q := by
    intro bs1 hb
    have hlen1 : bs1.m_board.length = 81 := by rw [hb]; exact hlen
    rw [get_piece_set_piece _ _ _ _ (by rw [(set_piece_shape _ _ _).1]; exact hlen1) hto hq,
      get_piece_set_piece _ _ _ _ hlen1 hfrom hq, get_piece_congr bs1 bs hb]
  split
  · exact key _ (add_to_hand_shape _ _ _).1
  · exact key bs rfl

/-- The grid `execute_drop_move` leaves: the dropped piece on the destination,
every other square as before. -/
theorem execute_drop_move_get_piece (bs : BoardState) (m : Move) (q : Position)
    (hlen : bs.m_board.length = 81) (hto : m.to_.is_valid = true) (hq : q.is_valid = true) :
    (execute_drop_move bs m).get_piece q =
      if q = m.to_ then ⟨m.drop_piece, bs.current_player⟩ else bs.get_piece q := by
  unfold execute_drop_move
  simp only
  have hb := (remove_from_hand_shape bs bs.current_player m.drop_piece).1
  rw [get_piece_set_piece _ _ _ _ (by rw [hb]; exact hlen) hto hq, get_piece_congr _ bs hb]

theorem is_in_check_congr (bs1 bs2 : BoardState) (h : bs1.m_board = bs2.m_board)
    (player : Player) : bs1.is_in_check player = bs2.is_in_check player := by
  have hg : ∀ q, bs1.get_piece q = bs2.get_piece q := get_piece_congr bs1 bs2 h
  unfold BoardState.is_in_check BoardState.find_king BoardState.is_square_attacked
  simp only [hg, h]

/-- What a drop that passes `validate_drop_move` satisfies. -/
theorem validate_drop_move_facts (fuel : Nat) (bs : BoardState) (m : Move) (b : Bool)
    (h : validate_drop_move fuel bs m = some (GameExpected.value b)) :
    m.to_.is_valid = true ∧ m.drop_piece ≠ PieceType.None ∧
    (bs.get_piece m.to_).is_empty = true ∧
    bs.get_hand_count bs.current_player m.drop_piece ≠ 0 ∧
    (m.drop_piece = PieceType.Pawn → is_nifu_violation bs m = false) := by
  cases fuel with
  | zero => simp [validate_drop_move] at h
  | succ n =>
    rw [validate_drop_move] at h
    by_cases c1 : (!m.to_.is_valid || m.drop_piece == PieceType.None) = true
    · simp [c1] at h
    simp only [c1, if_false] at h
    by_cases c2 : (!(bs.get_piece m.to_).is_empty) = true
    · simp [c2] at h
    simp only [c2, if_false] at h
    by_cases c3 : (bs.get_hand_count bs.current_player m.drop_piece == 0) = true
    · simp [c3] at h
    simp only [c3, if_false] at h
    by_cases c4 : (m.drop_piece == PieceType.Pawn && is_nifu_violation bs m) = true
    · simp [c4] at h
    have d1 : m.to_.is_valid = true ∧ m.drop_piece ≠ PieceType.None := by simpa using c1
    refine ⟨d1.1, d1.2, by simpa using c2, by simpa using c3, ?_⟩
    intro hp
    cases hn : is_nifu_violation bs m with
    | false => rfl
    | true => simp [hp, hn] at c4

end Shogi

namespace Shogi

open BoardState GameLogic

/-! ## The invariants of play -/

theorem other_player_other (p : Player) : other_player (other_player p) = p := by
  cases p <;> rfl

theorem eq_other_player_of_ne (a b : Player) (h : a ≠ b) : a = other_player b := by
  cases a <;> cases b <;> first | rfl | exact absurd rfl h

/-- With one King each and the side not to move out of check, no destination
of a piece of the side to move holds a King. -/
theorem destination_not_king (bs : BoardState) (hking : one_king_each bs)
    (hsafe : bs.is_in_check (other_player bs.current_player) = false) :
    no_king_capture bs := by
  intro from_ to_ hfrom hne hown hmem hk
  obtain ⟨hto, hland⟩ := possible_move_can_land _ _ _ _ hmem
  have hp := get_piece_eq bs to_ hto
  have howner : (bs.get_piece to_).owner = other_player bs.current_player := by
    rcases hland with he | ⟨_, hen⟩
    · unfold square_empty at he
      rw [← hp] at he
      unfold Piece.is_empty at he
      rw [hk] at he
      exact absurd he (by decide)
    · rw [← hp, hown] at hen
      exact eq_other_player_of_ne _ _ hen
  have hholds : holds_king bs (other_player bs.current_player) to_ := ⟨hto, hk, howner⟩
  obtain ⟨k, hk1, hk2⟩ := hking (other_player bs.current_player)
  have hfk := find_king_unique bs _ k hk1 hk2
  have hto_k := hk2 _ hholds
  have hin : bs.is_in_check (other_player bs.current_player) = true := by
    rw [is_in_check_iff, hfk, other_player_other, ← hto_k]
    exact ⟨hholds, from_, hfrom, hne, hown, hmem⟩
  rw [hsafe] at hin
  exact Bool.false_ne_true hin

/-- Conversely, when the side to move cannot capture a King, the other side is
not in check. -/
theorem not_in_check_of_no_king_capture (bs : BoardState) (h : no_king_capture bs) :
    bs.is_in_check (other_player bs.current_player) = false := by
  cases hin : bs.is_in_check (other_player bs.current_player) with
  | false => rfl
  | true =>
    rw [is_in_check_iff, other_player_other] at hin
    obtain ⟨⟨_, hk, _⟩, from_, hfrom, hne, hown, hmem⟩ := hin
    exact absurd hk (h from_ _ hfrom hne hown hmem)

theorem moved_piece_king (bs : BoardState) (m : Move) (player : Player) :
    ((moved_piece bs m).type = PieceType.King ∧ (moved_piece bs m).owner = player) ↔
      ((bs.get_piece m.from_).type = PieceType.King ∧ (bs.get_piece m.from_).owner = player) := by
  unfold moved_piece
  generalize bs.get_piece m.from_ = pc
  obtain ⟨kind, o⟩ := pc
  cases m.is_promotion <;> cases kind <;>
    simp [Piece.can_promote, Piece.promoted_type]

theorem moved_piece_pawn (bs : BoardState) (m : Move) (player : Player)
    (h : moved_piece bs m = ⟨PieceType.Pawn, player⟩) :
    bs.get_piece m.from_ = ⟨PieceType.Pawn, player⟩ := by
  unfold moved_piece at h
  generalize bs.get_piece m.from_ = pc at h
  obtain ⟨kind, o⟩ := pc
  revert h
  cases m.is_promotion <;> cases kind <;>
    simp [Piece.can_promote, Piece.promoted_type]

theorem moved_piece_nonempty (bs : BoardState) (m : Move)
    (h : (bs.get_piece m.from_).is_empty = false) : (moved_piece bs m).is_empty = false := by
  unfold moved_piece
  generalize bs.get_piece m.from_ = pc at h
  obtain ⟨kind, o⟩ := pc
  revert h
  cases m.is_promotion <;> cases kind <;>
    simp [Piece.can_promote, Piece.promoted_type, Piece.is_empty]

/-- Where the Kings are after a normal move that does not take a King. -/
theorem holds_king_execute_normal_move (bs : BoardState) (m : Move) (player : Player)
    (q : Position) (hlen : bs.m_board.length = 81) (hfrom : m.from_.is_valid = true)
    (hto : m.to_.is_valid = true) :
    holds_king (execute_normal_move bs m) player q ↔
      ((q = m.to_ ∧ holds_king bs player m.from_) ∨
        (q ≠ m.to_ ∧ q ≠ m.from_ ∧ holds_king bs player q)) := by
  unfold holds_king
  by_cases hq : q.is_valid = true
  · rw [execute_normal_move_get_piece bs m q hlen hfrom hto hq]
    by_cases h1 : q = m.to_
    · subst h1
      simp only [if_true, ne_eq, not_true_eq_false, false_and, or_false, true_and]
      constructor
      · rintro ⟨_, h⟩
        exact ⟨hfrom, (moved_piece_king bs m player).mp h⟩
      · rintro ⟨_, h⟩
        exact ⟨hq, (moved_piece_king bs m player).mpr h⟩
    · rw [if_neg h1]
      by_cases h2 : q = m.from_
      · rw [if_pos h2]
        constructor
        · rintro ⟨_, h, _⟩
          exact absurd h (by decide)
        · rintro (⟨h, _⟩ | ⟨_, h, _⟩)
          · exact absurd h h1
          · exact absurd h2 h
      · rw [if_neg h2]
        constructor
        · intro h
          exact Or.inr ⟨h1, h2, h⟩
        · rintro (⟨h, _⟩ | ⟨_, _, h⟩)
          · exact absurd h h1
          · exact h
  · constructor
    · rintro ⟨h, _⟩
      exact absurd h hq
    · rintro (⟨h, _⟩ | ⟨_, _, h, _⟩)
      · rw [h] at hq
        exact absurd hto hq
      · exact absurd h hq

theorem one_king_each_execute_normal_move (bs : BoardState) (m : Move)
    (hlen : bs.m_board.length = 81) (hfrom : m.from_.is_valid = true)
    (hto : m.to_.is_valid = true) (hnk : (bs.get_piece m.to_).type ≠ PieceType.King)
    (hking : one_king_each bs) : one_king_each (execute_normal_move bs m) := by
  intro player
  have hiff := fun q => holds_king_execute_normal_move bs m player q hlen hfrom hto
  obtain ⟨k, hk, huniq⟩ := hking player
  by_cases hkf : k = m.from_
  · refine ⟨m.to_, (hiff _).mpr (Or.inl ⟨rfl, hkf ▸ hk⟩), ?_⟩
    intro k2 h2
    rcases (hiff _).mp h2 with ⟨h, _⟩ | ⟨_, hnf, h⟩
    · exact h
    · exact absurd ((huniq k2 h).trans hkf) hnf
  · have hkt : k ≠ m.to_ := fun h => hnk (h ▸ hk.2.1)
    refine ⟨k, (hiff _).mpr (Or.inr ⟨hkt, hkf, hk⟩), ?_⟩
    intro k2 h2
    rcases (hiff _).mp h2 with ⟨_, h⟩ | ⟨_, _, h⟩
    · exact absurd (huniq _ h).symm hkf
    · exact huniq _ h

/-- A drop of a kind other than King on an empty square leaves the Kings where they are. -/
theorem holds_king_execute_drop_move (bs : BoardState) (m : Move) (player : Player)
    (q : Position) (hlen : bs.m_board.length = 81) (hto : m.to_.is_valid = true)
    (hempty : (bs.get_piece m.to_).is_empty = true) (hkind : m.drop_piece ≠ PieceType.King) :
    holds_king (execute_drop_move bs m) player q ↔ holds_king bs player q := by
  unfold holds_king
  by_cases hq : q.is_valid = true
  · rw [execute_drop_move_get_piece bs m q hlen hto hq]
    by_cases h1 : q = m.to_
    · subst h1
      rw [if_pos rfl]
      have hnone : (bs.get_piece m.to_).type = PieceType.None := by
        simpa [Piece.is_empty] using hempty
      constructor
      · rintro ⟨_, h, _⟩
        exact absurd h hkind
      · rintro ⟨_, h, _⟩
        rw [hnone] at h
        exact absurd h (by decide)
    · rw [if_neg h1]
  · constructor
    · rintro ⟨h, _⟩
      exact absurd h hq
    · rintro ⟨h, _⟩
      exact absurd h hq

theorem one_king_each_congr (bs1 bs2 : BoardState) (h : bs1.m_board = bs2.m_board)
    (hk : one_king_each bs1) : one_king_each bs2 := by
  have hg : bs1.get_piece = bs2.get_piece := funext (get_piece_congr bs1 bs2 h)
  unfold one_king_each holds_king at hk ⊢
  rw [← hg]
  exact hk

theorem no_double_pawn_congr (bs1 bs2 : BoardState) (h : bs1.m_board = bs2.m_board)
    (hk : no_double_pawn bs1) : no_double_pawn bs2 := by
  have hg : bs1.get_piece = bs2.get_piece := funext (get_piece_congr bs1 bs2 h)
  unfold no_double_pawn holds_pawn at hk ⊢
  rw [← hg]
  exact hk

theorem one_king_each_execute_drop_move (bs : BoardState) (m : Move)
    (hlen : bs.m_board.length = 81) (hto : m.to_.is_valid = true)
    (hempty : (bs.get_piece m.to_).is_empty = true) (hkind : m.drop_piece ≠ PieceType.King)
    (hking : one_king_each bs) : one_king_each (execute_drop_move bs m) := by
  intro player
  have hiff := fun q => holds_king_execute_drop_move bs m player q hlen hto hempty hkind
  obtain ⟨k, hk, huniq⟩ := hking player
  exact ⟨k, (hiff k).mpr hk, fun k2 h2 => huniq k2 ((hiff k2).mp h2)⟩

/-! ### Pawns -/

/-- A Pawn's destination is in the Pawn's column. -/
theorem pawn_move_column (player : Player) (from_ to_ : Position) (board : List Piece)
    (h : to_ ∈ PieceMovement.get_possible_moves ⟨PieceType.Pawn, player⟩ from_ board) :
    to_.col = from_.col := by
  unfold PieceMovement.get_possible_moves at h
  by_cases hc : ((⟨PieceType.Pawn, player⟩ : Piece).is_empty || !from_.is_valid) = true
  · rw [if_pos hc] at h
    simp at h
  · rw [if_neg hc] at h
    simp only [PieceMovement.get_pawn_moves] at h
    rw [mem_get_single_step_moves] at h
    obtain ⟨dir, hdir, hs, _⟩ := h
    simp only [List.mem_singleton] at hdir
    subst hdir
    rw [hs]
    simp [step_square, Direction.step, UP]

theorem holds_pawn_execute_normal_move (bs : BoardState) (m : Move) (player : Player)
    (q : Position) (hlen : bs.m_board.length = 81) (hfrom : m.from_.is_valid = true)
    (hto : m.to_.is_valid = true)
    (h : holds_pawn (execute_normal_move bs m) player q) :
    (q = m.to_ ∧ holds_pawn bs player m.from_) ∨
      (q ≠ m.to_ ∧ q ≠ m.from_ ∧ holds_pawn bs player q) := by
  unfold holds_pawn at h ⊢
  obtain ⟨hq, hp⟩ := h
  rw [execute_normal_move_get_piece bs m q hlen hfrom hto hq] at hp
  by_cases h1 : q = m.to_
  · rw [if_pos h1] at hp
    exact Or.inl ⟨h1, hfrom, moved_piece_pawn bs m player hp⟩
  · rw [if_neg h1] at hp
    by_cases h2 : q = m.from_
    · rw [if_pos h2] at hp
      exact absurd hp (by simp [Piece.empty])
    · rw [if_neg h2] at hp
      exact Or.inr ⟨h1, h2, hq, hp⟩

theorem no_double_pawn_execute_normal_move (bs : BoardState) (m : Move)
    (hlen : bs.m_board.length = 81) (hfrom : m.from_.is_valid = true)
    (hto : m.to_.is_valid = true)
    (hmem : m.to_ ∈ PieceMovement.get_possible_moves (bs.get_piece m.from_) m.from_ bs.m_board)
    (hpawn : no_double_pawn bs) : no_double_pawn (execute_normal_move bs m) := by
  intro player s1 s2 h1 h2 hcol
  have hcolumn : holds_pawn bs player m.from_ → m.to_.col = m.from_.col := by
    intro hp
    rw [hp.2] at hmem
    exact pawn_move_column player _ _ _ hmem
  rcases holds_pawn_execute_normal_move bs m player s1 hlen hfrom hto h1 with
    ⟨e1, p1⟩ | ⟨n1, f1, p1⟩ <;>
  rcases holds_pawn_execute_normal_move bs m player s2 hlen hfrom hto h2 with
    ⟨e2, p2⟩ | ⟨n2, f2, p2⟩
  · rw [e1, e2]
  · have := hpawn player m.from_ s2 p1 p2 (by rw [← hcolumn p1, ← e1, hcol])
    exact absurd this.symm f2
  · have := hpawn player s1 m.from_ p1 p2 (by rw [← hcolumn p2, ← e2, hcol])
    exact absurd this f1
  · exact hpawn player s1 s2 p1 p2 hcol

theorem holds_pawn_execute_drop_move (bs : BoardState) (m : Move) (player : Player)
    (q : Position) (hlen : bs.m_board.length = 81) (hto : m.to_.is_valid = true)
    (h : holds_pawn (execute_drop_move bs m) player q) :
    (q = m.to_ ∧ m.drop_piece = PieceType.Pawn ∧ player = bs.current_player) ∨
      (q ≠ m.to_ ∧ holds_pawn bs player q) := by
  unfold holds_pawn at h ⊢
  obtain ⟨hq, hp⟩ := h
  rw [execute_drop_move_get_piece bs m q hlen hto hq] at hp
  by_cases h1 : q = m.to_
  · rw [if_pos h1] at hp
    simp only [Piece.mk.injEq] at hp
    exact Or.inl ⟨h1, hp.1, hp.2.symm⟩
  · rw [if_neg h1] at hp
    exact Or.inr ⟨h1, hq, hp⟩

theorem nifu_excludes_pawn (bs : BoardState) (m : Move) (s : Position)
    (hkind : m.drop_piece = PieceType.Pawn) (hnifu : is_nifu_violation bs m = false)
    (hs : holds_pawn bs bs.current_player s) : s.col ≠ m.to_.col := by
  intro hcol
  obtain ⟨hv, hp⟩ := hs
  have hrow := (is_valid_iff s).mp hv
  have hsq : (⟨s.row, m.to_.col⟩ : Position) = s := by
    rw [← hcol]
  have := is_nifu_violation_of_pawn bs m s.row hkind hrow.1 hrow.2.1 (by rw [hsq]; exact hp)
  rw [hnifu] at this
  exact Bool.false_ne_true this

theorem no_double_pawn_execute_drop_move (bs : BoardState) (m : Move)
    (hlen : bs.m_board.length = 81) (hto : m.to_.is_valid = true)
    (hnifu : m.drop_piece = PieceType.Pawn → is_nifu_violation bs m = false)
    (hpawn : no_double_pawn bs) : no_double_pawn (execute_drop_move bs m) := by
  intro player s1 s2 h1 h2 hcol
  rcases holds_pawn_execute_drop_move bs m player s1 hlen hto h1 with
    ⟨e1, k1, c1⟩ | ⟨n1, p1⟩ <;>
  rcases holds_pawn_execute_drop_move bs m player s2 hlen hto h2 with
    ⟨e2, k2, c2⟩ | ⟨n2, p2⟩
  · rw [e1, e2]
  · rw [c1] at p2
    exact absurd (by rw [← hcol, e1]) (nifu_excludes_pawn bs m s2 k1 (hnifu k1) p2)
  · rw [c2] at p1
    exact absurd (by rw [hcol, e2]) (nifu_excludes_pawn bs m s1 k2 (hnifu k2) p1)
  · exact hpawn player s1 s2 p1 p2 hcol

end Shogi

namespace Shogi

open BoardState GameLogic

/-! ### The count of pieces -/

theorem add_to_hand_material (bs : BoardState) (player : Player) (kind : PieceType)
    (hwf : well_formed bs) (h1 : kind ≠ PieceType.None) (h2 : kind ≠ PieceType.King) :
    material (bs.add_to_hand player kind) = material bs + 1 := by
  have hi := base_type_hand_index kind player h1 h2
  rw [add_to_hand_eq, if_pos hi]
  have hlen := well_formed_hand_length bs hwf player
  have hb := well_formed_hand_bound bs hwf player
    (piece_to_hand_index (Piece.base_type ⟨kind, player⟩))
  have hm := (set_hand_material bs player
    (piece_to_hand_index (Piece.base_type ⟨kind, player⟩))
    (((bs.get_hand player).getD
      (piece_to_hand_index (Piece.base_type ⟨kind, player⟩)) 0 + 1) % 256)).2.2.2
    (by rw [hlen]; exact hi)
  rw [Nat.mod_eq_of_lt (by omega)] at hm ⊢
  omega

/-- A normal move that passes validation and takes no King keeps the count of pieces. -/
theorem execute_normal_move_material (bs : BoardState) (m : Move) (hwf : well_formed bs)
    (hfrom : m.from_.is_valid = true) (hto : m.to_.is_valid = true)
    (hne : (bs.get_piece m.from_).is_empty = false) (hdiff : m.to_ ≠ m.from_)
    (hnk : (bs.get_piece m.to_).type ≠ PieceType.King) :
    material (execute_normal_move bs m) = material bs := by
  have hlen := hwf.1
  have key : ∀ bs1 : BoardState, bs1.m_board = bs.m_board →
      material ((bs1.set_piece m.from_ Piece.empty).set_piece m.to_ (moved_piece bs m)) +
        (if !(bs.get_piece m.to_).is_empty then 1 else 0) = material bs1 := by
    intro bs1 hb
    have hlen1 : bs1.m_board.length = 81 := by rw [hb]; exact hlen
    have hlen2 : (bs1.set_piece m.from_ Piece.empty).m_board.length = 81 := by
      rw [(set_piece_shape _ _ _).1]; exact hlen1
    have m1 := material_set_piece bs1 m.from_ Piece.empty hfrom hlen1
    have m2 := material_set_piece (bs1.set_piece m.from_ Piece.empty) m.to_
      (moved_piece bs m) hto hlen2
    rw [get_piece_set_piece _ _ _ _ hlen1 hfrom hto, if_neg hdiff,
      get_piece_congr bs1 bs hb, moved_piece_nonempty bs m hne] at m2
    rw [get_piece_congr bs1 bs hb, hne] at m1
    simp only [Bool.not_false, if_true] at m1 m2
    have he : (if (!Piece.empty.is_empty) = true then 1 else 0) = 0 := by decide
    rw [he] at m1
    omega
  unfold execute_normal_move BoardState.clear_piece
  simp only
  cases hempty : (bs.get_piece m.to_).is_empty with
  | true =>
    have := key bs rfl
    rw [hempty] at this
    simpa [moved_piece] using this
  | false =>
    have hnone : (bs.get_piece m.to_).type ≠ PieceType.None := by
      simpa [Piece.is_empty] using hempty
    have hadd := add_to_hand_material bs (bs.get_piece m.from_).owner (bs.get_piece m.to_).type
      hwf hnone hnk
    have := key (bs.add_to_hand (bs.get_piece m.from_).owner (bs.get_piece m.to_).type)
      (add_to_hand_shape _ _ _).1
    rw [hempty, hadd] at this
    simp only [Bool.not_false, if_true] at this ⊢
    have h2 : material (((bs.add_to_hand (bs.get_piece m.from_).owner
        (bs.get_piece m.to_).type).set_piece m.from_ Piece.empty).set_piece m.to_
        (moved_piece bs m)) = material bs := by omega
    simpa [moved_piece] using h2

/-- A drop that passes validation keeps the count of pieces. -/
theorem execute_drop_move_material (bs : BoardState) (m : Move) (hwf : well_formed bs)
    (hto : m.to_.is_valid = true) (hkind : m.drop_piece ≠ PieceType.None)
    (hempty : (bs.get_piece m.to_).is_empty = true)
    (hcount : bs.get_hand_count bs.current_player m.drop_piece ≠ 0) :
    material (execute_drop_move bs m) = material bs := by
  unfold execute_drop_move
  simp only
  obtain ⟨hb, _, _, hm⟩ := remove_from_hand_shape bs bs.current_player m.drop_piece
  have hm1 := hm hcount (well_formed_hand_length bs hwf _)
  have m2 := material_set_piece (bs.remove_from_hand bs.current_player m.drop_piece).2 m.to_
    ⟨m.drop_piece, bs.current_player⟩ hto (by rw [hb]; exact hwf.1)
  rw [get_piece_congr _ bs hb, hempty] at m2
  have hp : (⟨m.drop_piece, bs.current_player⟩ : Piece).is_empty = false := by
    simpa [Piece.is_empty] using hkind
  rw [hp] at m2
  simp only [Bool.not_true, Bool.not_false, if_true, Bool.false_eq_true, if_false] at m2
  omega

/-! ### The invariant -/

theorem hand_count_kind (bs : BoardState) (player : Player) (kind : PieceType)
    (h : bs.get_hand_count player kind ≠ 0) : kind ≠ PieceType.King := by
  intro hk
  rw [hk] at h
  exact h (by simp [BoardState.get_hand_count, piece_to_hand_index])

theorem sound_position_well_formed (bs : BoardState) (h : sound_position bs) :
    well_formed bs :=
  ⟨h.1, h.2.1, h.2.2.1, by rw [h.2.2.2.1]⟩

/-- A move that passes the applicable validation and the self-check test keeps
the invariant of play. -/
theorem execute_move_sound (fuel : Nat) (bs : BoardState) (m : Move) (b : Bool)
    (hs : sound_position bs)
    (hval : applicable_validation fuel bs m = some (GameExpected.value b))
    (hchk : would_be_in_check_after_move bs m bs.current_player = false) :
    sound_position (execute_move bs m).switch_player := by
  have hwf := sound_position_well_formed bs hs
  obtain ⟨hlen, _, _, hmat, hking, hsafe, hpawn⟩ := hs
  have hwf2 := execute_move_well_formed fuel bs m b hwf hval
  have hboard : (execute_move bs m).switch_player.m_board = (execute_move bs m).m_board := rfl
  have hcheck : (execute_move bs m).switch_player.is_in_check
      (other_player (execute_move bs m).switch_player.current_player) = false := by
    have hc : (execute_move bs m).switch_player.current_player =
        other_player bs.current_player := by
      have := execute_move_current bs m
      unfold BoardState.current_player at this ⊢
      unfold BoardState.switch_player
      simp only [this]
    rw [hc, other_player_other, is_in_check_congr _ _ hboard, ← simulate_move_eq_execute_move]
    exact hchk
  have hrest : material (execute_move bs m) = 40 ∧ one_king_each (execute_move bs m) ∧
      no_double_pawn (execute_move bs m) := by
    unfold applicable_validation at hval
    unfold execute_move
    by_cases hd : m.is_drop = true
    · rw [if_pos hd] at hval ⊢
      obtain ⟨hto, hkind, hempty, hcount, hnifu⟩ := validate_drop_move_facts fuel bs m b hval
      refine ⟨?_, ?_, ?_⟩
      · rw [execute_drop_move_material bs m hwf hto hkind hempty hcount]
        exact hmat
      · exact one_king_each_execute_drop_move bs m hlen hto hempty
          (hand_count_kind _ _ _ hcount) hking
      · exact no_double_pawn_execute_drop_move bs m hlen hto hnifu hpawn
    · rw [if_neg hd] at hval ⊢
      simp only [Option.some.injEq] at hval
      obtain ⟨hfrom, hne, hown, hmem, _⟩ := validate_normal_move_value bs m b hval
      have hmem2 : m.to_ ∈ PieceMovement.get_possible_moves (bs.get_piece m.from_) m.from_
          bs.m_board := hmem
      have hto := (possible_move_can_land _ _ _ _ hmem2).1
      have hnk := destination_not_king bs hking hsafe m.from_ m.to_ hfrom hne hown hmem2
      refine ⟨?_, ?_, ?_⟩
      · rw [execute_normal_move_material bs m hwf hfrom hto hne
          (possible_move_ne_from _ _ _ _ hmem2) hnk]
        exact hmat
      · exact one_king_each_execute_normal_move bs m hlen hfrom hto hnk hking
      · exact no_double_pawn_execute_normal_move bs m hlen hfrom hto hmem2 hpawn
  refine ⟨hwf2.1, hwf2.2.1, hwf2.2.2.1, hrest.1, ?_, hcheck, ?_⟩
  · exact one_king_each_congr _ _ hboard.symm hrest.2.1
  · exact no_double_pawn_congr _ _ hboard.symm hrest.2.2

theorem initial_kings (player : Player) :
    ∀ s ∈ all_squares, (initial_position.get_piece s).type = PieceType.King →
      (initial_position.get_piece s).owner = player →
      s = (if player = Player.First then ⟨8, 4⟩ else ⟨0, 4⟩ : Position) := by
  cases player <;> decide!

theorem initial_pawns (player : Player) :
    ∀ s ∈ all_squares, initial_position.get_piece s = ⟨PieceType.Pawn, player⟩ →
      s.row = (if player = Player.First then 6 else 2 : Int) := by
  cases player <;> decide!

theorem initial_position_sound : sound_position initial_position := by
  refine ⟨by decide, by decide, by decide, by decide, ?_, by decide!, ?_⟩
  · intro player
    refine ⟨(if player = Player.First then ⟨8, 4⟩ else ⟨0, 4⟩ : Position), ?_, ?_⟩
    · cases player <;> exact ⟨by decide, by decide, by decide⟩
    · rintro k2 ⟨hv, ht, ho⟩
      exact initial_kings player k2 (mem_all_squares k2 hv) ht ho
  · rintro player s1 s2 ⟨v1, p1⟩ ⟨v2, p2⟩ hcol
    have r1 := initial_pawns player s1 (mem_all_squares s1 v1) p1
    have r2 := initial_pawns player s2 (mem_all_squares s2 v2) p2
    obtain ⟨a, b⟩ := s1
    obtain ⟨c, d⟩ := s2
    simp only at r1 r2 hcol
    rw [r1, r2, hcol]

/-- Every state a game reaches satisfies the invariant of play. -/
theorem reachable_sound (g : GameLogic) (h : Reachable g) :
    sound_position g.m_board_state := by
  induction h with
  | reset g0 =>
    rw [reset_game_eq]
    exact initial_position_sound
  | move fuel g0 g1 m r _ hmove ih =>
    cases r with
    | error e =>
      rw [make_move_error_state fuel g0 g1 m e hmove]
      exact ih
    | value b =>
      obtain ⟨_, ⟨b0, hval⟩, hchk, hbs⟩ := make_move_value_state fuel g0 g1 m b hmove
      rw [hbs]
      exact execute_move_sound fuel _ m b0 ih hval hchk

/-- C35: in every state reached from `reset_game` by returning `make_move`
calls, the player who is not to move is not in check, each player has exactly
one King on the grid, and no piece of the side to move has a King's square
among its destinations. In any position with one King each the first and the
last are equivalent. -/
theorem C35_side_not_to_move_is_not_in_check (g : GameLogic) (h : Reachable g) :
    g.m_board_state.is_in_check (other_player g.m_board_state.current_player) = false ∧
    one_king_each g.m_board_state ∧
    no_king_capture g.m_board_state ∧
    (∀ bs : BoardState, one_king_each bs →
      (bs.is_in_check (other_player bs.current_player) = false ↔ no_king_capture bs)) := by
  obtain ⟨_, _, _, _, hking, hsafe, _⟩ := reachable_sound g h
  exact ⟨hsafe, hking, destination_not_king _ hking hsafe,
    fun bs hk => ⟨destination_not_king bs hk, not_in_check_of_no_king_capture bs⟩⟩

theorem C35_side_not_to_move_is_not_in_check_witness :
    Reachable tokin_game ∧
    tokin_game.m_board_state.is_in_check
      (other_player tokin_game.m_board_state.current_player) = false :=
  ⟨tokin_game_reachable, (C35_side_not_to_move_is_not_in_check _ tokin_game_reachable).1⟩

/-- C36: in every state reached from `reset_game` by returning `make_move`
calls, the occupied squares of the grid and the fourteen hand counters add up
to forty, the grid has 81 squares and each hand seven counters. -/
theorem C36_forty_pieces_in_play (g : GameLogic) (h : Reachable g) :
    g.m_board_state.m_board.countP (fun p => !p.is_empty) +
      g.m_board_state.m_hands_first.sum + g.m_board_state.m_hands_second.sum = 40 ∧
    g.m_board_state.m_board.length = 81 ∧
    g.m_board_state.m_hands_first.length = 7 ∧
    g.m_board_state.m_hands_second.length = 7 ∧
    material g.m_board_state = 40 := by
  obtain ⟨h1, h2, h3, hmat, _⟩ := reachable_sound g h
  exact ⟨hmat, h1, h2, h3, hmat⟩

theorem C36_forty_pieces_in_play_witness :
    Reachable tokin_game ∧ material tokin_game.m_board_state = 40 :=
  ⟨tokin_game_reachable, (C36_forty_pieces_in_play _ tokin_game_reachable).2.2.2.2⟩

/-- C37: in every state reached from `reset_game` by returning `make_move`
calls, no column holds two unpromoted Pawns of one player. -/
theorem C37_no_two_pawns_in_a_column (g : GameLogic) (h : Reachable g) :
    no_double_pawn g.m_board_state :=
  (reachable_sound g h).2.2.2.2.2.2

theorem C37_no_two_pawns_in_a_column_witness :
    Reachable tokin_game ∧ no_double_pawn tokin_game.m_board_state :=
  ⟨tokin_game_reachable, C37_no_two_pawns_in_a_column _ tokin_game_reachable⟩

end Shogi
